import Mathlib

/-! # ubuntu-core-launcher: seccomp profile compiler and launcher

A shallow embedding of `src/seccomp.c` and `src/main.c`.

Conventions.
* A C `char` is a Lean `Char`; a C string is the list of its characters up to,
  and not including, the terminating NUL (`CStr`).
* A function that may leave through `die` returns `Res`.
* `errno` is passed explicitly where the code inspects it.
* Library and kernel behaviour that the code only calls is a field of
  `Platform` (filter compiler) or `World` (launcher).
-/

namespace Snapd

/-- A C string: the characters before the terminating NUL. -/
abbrev CStr := List Char

/-- Result of a call that may end the process through `die`. -/
inductive Res (α : Type) where
  | ret (a : α)
  | die
deriving DecidableEq, Repr

/-! ## libc pieces (C locale) -/

def EINVAL : Nat := 22
def ERANGE : Nat := 34

/-- `isdigit` in the C locale. -/
def isdigit (c : Char) : Bool := decide ('0' ≤ c) && decide (c ≤ '9')

/-- `isspace` in the C locale: space, `\t`, `\n`, `\v`, `\f`, `\r`. -/
def isspace (c : Char) : Bool :=
  c == ' ' || c == '\t' || c == '\n' || c == '\x0b' || c == '\x0c' || c == '\r'

/-- The bytes of a buffer seen as a C string: everything before the first NUL. -/
def cstr (buf : List Char) : CStr := buf.takeWhile (fun c => c != '\x00')

/-- Base-10 value of a run of digits. -/
def decimal (s : CStr) : Nat := s.foldl (fun acc c => 10 * acc + (c.toNat - 48)) 0

/-- `strtoul(s, &end, 10)` on a string that starts with neither whitespace nor a
sign (the only way `read_number` calls it): the longest digit prefix is
converted; the result is `(value, offset of end in s, errno)`. A value above
`ULONG_MAX` gives `ULONG_MAX` and `ERANGE`. -/
def strtoul (ULONG_MAX : Nat) (s : CStr) : Nat × Nat × Nat :=
  let digits := s.takeWhile isdigit
  if decimal digits ≤ ULONG_MAX then (decimal digits, digits.length, 0)
  else (ULONG_MAX, digits.length, ERANGE)

/-- Delimiters handed to `strtok_r` by `parse_line`: `" \t"`. -/
def isDelim (c : Char) : Bool := c == ' ' || c == '\t'

/-- `strtok_r(·, " \t", &saveptr)` as a function of the unread rest of the
string: `none` is NULL, otherwise the token and the new rest. -/
def strtok_r (save : CStr) : Option (CStr × CStr) :=
  match save.dropWhile isDelim with
  | [] => none
  | c :: cs =>
    some ((c :: cs).takeWhile (fun x => !isDelim x),
          ((c :: cs).dropWhile (fun x => !isDelim x)).drop 1)

/-! ## Types of `seccomp.c` and of libseccomp -/

def SC_ARGS_MAXLENGTH : Nat := 6
def SC_MAX_LINE_LENGTH : Nat := 82

inductive parse_ret where
  | PARSE_INVALID_SYSCALL
  | PARSE_ERROR
  | PARSE_OK
deriving DecidableEq, Repr

/-- Comparison operators of libseccomp used by `parse_line`. -/
inductive scmp_compare where
  | SCMP_CMP_NE
  | SCMP_CMP_LT
  | SCMP_CMP_LE
  | SCMP_CMP_EQ
  | SCMP_CMP_GE
  | SCMP_CMP_GT
deriving DecidableEq, Repr

/-- What `SCMP_CMP(arg, op, datum)` builds. -/
structure scmp_arg_cmp where
  arg : Int
  op : scmp_compare
  datum_a : Nat
deriving DecidableEq, Repr

/-- The struct `seccomp_args`. `arg_cmp` lists the stored entries by index; a store
to `arg_cmp[length]` followed by `length++` appends, so the entry written at
index `i` is the `i`-th element (an index of 6 or more lies past the C array). -/
structure seccomp_args where
  syscall_nr : Int
  length : Nat
  arg_cmp : List scmp_arg_cmp
deriving DecidableEq, Repr

structure preprocess where
  unrestricted : Bool
  complain : Bool
deriving DecidableEq, Repr

/-! ## What the filter compiler takes from libseccomp, glibc and the kernel headers -/

structure Platform where
  /-- Function `seccomp_syscall_resolve_name` of libseccomp. -/
  seccomp_syscall_resolve_name : CStr → Int
  /-- Value the system headers give to the macro of that name (`AF_UNIX`, ...). -/
  header_value : CStr → Nat
  /-- Largest `unsigned long`. -/
  ULONG_MAX : Nat
  /-- Return value of `hsearch_r(…, FIND, …)` for a key that is not in the table
  (glibc returns 0 there and sets `ESRCH`). -/
  hsearch_find_absent : Int
  /-- Return value of `seccomp_rule_add_exact_array(ctx, SCMP_ACT_ALLOW, …)`, given
  the rules already in the filter and the rule to add. -/
  seccomp_rule_add_exact_array : List seccomp_args → seccomp_args → Int
  /-- Return value of `seccomp_rule_add_array(ctx, SCMP_ACT_ALLOW, …)`. -/
  seccomp_rule_add_array : List seccomp_args → seccomp_args → Int
  /-- Whether `seccomp_init(SCMP_ACT_KILL)` returns a context. -/
  seccomp_init_ok : Bool
  /-- Real, effective and saved uid from `getresuid`; `none` when the call fails. -/
  getresuid : Option (Nat × Nat × Nat)
  /-- Return value of `seccomp_attr_set(ctx, SCMP_FLTATR_CTL_NNP, 0)`. -/
  seccomp_attr_set : Int
  /-- Result of `secure_getenv("SNAPPY_LAUNCHER_SECCOMP_PROFILE_DIR")`. -/
  secure_getenv_profile_dir : Option CStr
  /-- Bytes of the file `fopen(path, "r")` opens; `none` when it returns NULL. -/
  fopen : CStr → Option (List Char)
  /-- Return value of `fseek(f, 0L, SEEK_SET)`. -/
  fseek : Int
  /-- Return value of `seteuid(0)` before the load. -/
  seteuid_root : Int
  /-- Value of `geteuid()` right after `seteuid(0)`. -/
  geteuid_raised : Nat
  /-- Return value of `seccomp_load(ctx)` for the rules in the filter. -/
  seccomp_load : List seccomp_args → Int
  /-- Value of `geteuid()` after the load. -/
  geteuid_loaded : Nat
  /-- Value of `getuid()` after the load. -/
  getuid : Nat
  /-- Return value of `seteuid(real_uid)` after the load. -/
  seteuid_real : Int
  /-- Value of `geteuid()` after `seteuid(real_uid)`. -/
  geteuid_dropped : Nat
  /-- Return value of `fclose(f)`. -/
  fclose : Int

/-- Constant `__NR_SCMP_ERROR` of libseccomp. -/
def NR_SCMP_ERROR : Int := -1

/-! ## The symbolic-constant map -/

/-- Keys given to `sc_map_add` by `sc_map_init`, in source order. -/
def sc_map_keys : List String :=
  ["AF_UNIX", "AF_LOCAL", "AF_INET", "AF_INET6", "AF_IPX", "AF_NETLINK", "AF_X25",
   "AF_AX25", "AF_ATMPVC", "AF_APPLETALK", "AF_PACKET", "AF_ALG", "SOCK_STREAM",
   "SOCK_DGRAM", "SOCK_SEQPACKET", "SOCK_RAW", "SOCK_RDM", "SOCK_PACKET", "PR_CAP_AMBIENT",
   "PR_CAP_AMBIENT_RAISE", "PR_CAP_AMBIENT_LOWER", "PR_CAP_AMBIENT_IS_SET",
   "PR_CAP_AMBIENT_CLEAR_ALL", "PR_CAPBSET_READ", "PR_CAPBSET_DROP",
   "PR_SET_CHILD_SUBREAPER", "PR_GET_CHILD_SUBREAPER", "PR_SET_DUMPABLE",
   "PR_GET_DUMPABLE", "PR_SET_ENDIAN", "PR_GET_ENDIAN", "PR_SET_FPEMU", "PR_GET_FPEMU",
   "PR_SET_FPEXC", "PR_GET_FPEXC", "PR_SET_KEEPCAPS", "PR_GET_KEEPCAPS", "PR_MCE_KILL",
   "PR_MCE_KILL_GET", "PR_SET_MM", "PR_SET_MM_START_CODE", "PR_SET_MM_END_CODE",
   "PR_SET_MM_START_DATA", "PR_SET_MM_END_DATA", "PR_SET_MM_START_STACK",
   "PR_SET_MM_START_BRK", "PR_SET_MM_BRK", "PR_SET_MM_ARG_START", "PR_SET_MM_ARG_END",
   "PR_SET_MM_ENV_START", "PR_SET_MM_ENV_END", "PR_SET_MM_AUXV", "PR_SET_MM_EXE_FILE",
   "PR_MPX_ENABLE_MANAGEMENT", "PR_MPX_DISABLE_MANAGEMENT", "PR_SET_NAME", "PR_GET_NAME",
   "PR_SET_NO_NEW_PRIVS", "PR_GET_NO_NEW_PRIVS", "PR_SET_PDEATHSIG", "PR_GET_PDEATHSIG",
   "PR_SET_PTRACER", "PR_SET_SECCOMP", "PR_GET_SECCOMP", "PR_SET_SECUREBITS",
   "PR_GET_SECUREBITS", "PR_SET_THP_DISABLE", "PR_TASK_PERF_EVENTS_DISABLE",
   "PR_TASK_PERF_EVENTS_ENABLE", "PR_GET_THP_DISABLE", "PR_GET_TID_ADDRESS",
   "PR_SET_TIMERSLACK", "PR_GET_TIMERSLACK", "PR_SET_TIMING", "PR_GET_TIMING",
   "PR_SET_TSC", "PR_GET_TSC", "PR_SET_UNALIGN", "PR_GET_UNALIGN", "PRIO_PROCESS",
   "PRIO_PGRP", "PRIO_USER"]

/-- `hsearch_r(e, ENTER, …)` as used by `sc_map_add`: a key already present keeps
its entry, a new key is entered. `hcreate_r` was asked for one slot per
`sc_map_add`, so the table never fills up and `sc_map_add` does not die. -/
def sc_map_add (htab : List (CStr × Nat)) (key : CStr) (data : Nat) : List (CStr × Nat) :=
  match htab.lookup key with
  | some _ => htab
  | none => htab ++ [(key, data)]

/-- The table `sc_map_htab` after `sc_map_init`. -/
def sc_map_init (P : Platform) : List (CStr × Nat) :=
  sc_map_keys.foldl (fun htab k => sc_map_add htab k.toList (P.header_value k.toList)) []

/-- `hsearch_r(e, FIND, &ep, htab)`: the return value and `ep` (`none` is NULL). -/
def hsearch_r_FIND (P : Platform) (htab : List (CStr × Nat)) (key : CStr) : Int × Option Nat :=
  match htab.lookup key with
  | some d => (1, some d)
  | none => (P.hsearch_find_absent, none)

/-- `sc_map_search`: the value and `errno` on return. -/
def sc_map_search (P : Platform) (s : CStr) : Res (Nat × Nat) :=
  match hsearch_r_FIND P (sc_map_init P) s with
  | (rc, ep) =>
    if rc = 0 then .die
    else match ep with
      | some data => .ret (data, 0)
      | none => .ret (0, EINVAL)

/-- `read_number`: the value and `errno` on return ("Caller must check if errno != 0"). -/
def read_number (P : Platform) (s : CStr) : Res (Nat × Nat) :=
  if s.head? = some '-' ∨ s = [] then .ret (0, EINVAL)
  else
    let errno := if s.all isdigit then 0 else EINVAL
    if errno = 0 then
      match strtoul P.ULONG_MAX s with
      | (val, end_off, errno) =>
        if end_off = 0 ∨ end_off < s.length then .ret (val, EINVAL) else .ret (val, errno)
    else sc_map_search P s

/-! ## `parse_line` -/

/-- Lines 294-326 of `parse_line`: operator and `read_number` result for an
argument token that is not `-`. `none` is the `strlen(buf_token) == 0` branch. -/
def parse_arg (P : Platform) (buf_token : CStr) : Option (scmp_compare × Res (Nat × Nat)) :=
  if buf_token.length = 0 then none
  else if buf_token.length = 1 then some (.SCMP_CMP_EQ, read_number P buf_token)
  else if buf_token.take 2 = ">=".toList then some (.SCMP_CMP_GE, read_number P (buf_token.drop 2))
  else if buf_token.take 2 = "<=".toList then some (.SCMP_CMP_LE, read_number P (buf_token.drop 2))
  else if buf_token.take 1 = "!".toList then some (.SCMP_CMP_NE, read_number P (buf_token.drop 1))
  else if buf_token.take 1 = ">".toList then some (.SCMP_CMP_GT, read_number P (buf_token.drop 1))
  else if buf_token.take 1 = "<".toList then some (.SCMP_CMP_LT, read_number P (buf_token.drop 1))
  else some (.SCMP_CMP_EQ, read_number P buf_token)

/-- The statements after the `while` loop of `parse_line`. -/
def parse_line_end (pos : Int) (sargs : seccomp_args) : Res (parse_ret × seccomp_args) :=
  if pos ≥ SC_ARGS_MAXLENGTH then .ret (.PARSE_ERROR, sargs) else .ret (.PARSE_OK, sargs)

/-- The `while (pos < SC_ARGS_MAXLENGTH)` loop of `parse_line`, one iteration per
unit of fuel; `none` means the fuel ran out. The result carries `sargs` as the
caller finds it. -/
def parse_line_loop (P : Platform) :
    Nat → Int → CStr → seccomp_args → Option (Res (parse_ret × seccomp_args))
  | 0, _, _, _ => none
  | fuel + 1, pos, save, sargs =>
    if pos < SC_ARGS_MAXLENGTH then
      match strtok_r save with
      | none => some (parse_line_end pos sargs)
      | some (buf_token, save) =>
        let pos := pos + 1
        if buf_token = "-".toList then parse_line_loop P fuel pos save sargs
        else
          match parse_arg P buf_token with
          | none => some (.ret (.PARSE_ERROR, sargs))
          | some (_, .die) => some .die
          | some (op, .ret (value, errno)) =>
            if errno ≠ 0 then some (.ret (.PARSE_ERROR, sargs))
            else parse_line_loop P fuel pos save
              { sargs with arg_cmp := sargs.arg_cmp ++ [⟨pos, op, value⟩],
                           length := sargs.length + 1 }
    else some (parse_line_end pos sargs)

/-- `parse_line`. The loop runs at most seven times and tests its condition at
most eight times, which is the fuel given. -/
def parse_line (P : Platform) (line : CStr) : Option (Res (parse_ret × seccomp_args)) :=
  let sargs : seccomp_args := { syscall_nr := -1, length := 0, arg_cmp := [] }
  if line.length = 0 then some (.ret (.PARSE_ERROR, sargs))
  else
    match strtok_r line with
    | none => some (.ret (.PARSE_ERROR, sargs))
    | some (buf_token, save) =>
      let sargs := { sargs with syscall_nr := P.seccomp_syscall_resolve_name buf_token }
      if sargs.syscall_nr = NR_SCMP_ERROR then some (.ret (.PARSE_INVALID_SYSCALL, sargs))
      else parse_line_loop P 8 (-1) save sargs

/-! ## Reading the profile -/

/-- `trim_right(s, slen)`: the string left in `s` and the returned length. -/
def trim_right : CStr → Nat → CStr × Nat
  | s, 0 => (s, 0)
  | s, slen + 1 =>
    if isspace (s.getD slen '\x00') then trim_right (s.take slen) slen
    else (s, slen + 1)

/-- `validate_and_trim_line(buf, buf_len, lineno)`: the buffer afterwards and the
returned length. -/
def validate_and_trim_line (buf : CStr) (buf_len : Nat) : Res (CStr × Nat) :=
  if buf.head? = some '#' then .ret (buf, 0)
  else
    let len := buf.length
    if len = 0 then .ret (buf, len)
    else if buf.getD (len - 1) '\x00' ≠ '\n' ∧ len > buf_len - 2 then .die
    else .ret (trim_right buf len)

/-- The bytes one `fgets` call takes from the stream when it may store `n` of
them: up to and including the first newline, at most `n`. Returns them with
the unread rest. -/
def fgets_bytes : Nat → List Char → List Char × List Char
  | 0, f => ([], f)
  | _ + 1, [] => ([], [])
  | n + 1, c :: f =>
    if c = '\n' then ([c], f)
    else (c :: (fgets_bytes n f).1, (fgets_bytes n f).2)

/-- `fgets(buf, size, f)` on a stream whose unread bytes are `f`: `none` is NULL
(end of file), otherwise `buf` as a C string and the unread rest. -/
def fgets (size : Nat) (f : List Char) : Option (CStr × List Char) :=
  if f = [] then none
  else some (cstr (fgets_bytes (size - 1) f).1, (fgets_bytes (size - 1) f).2)

/-- The `while (fgets …)` loop of `preprocess_filter`, one iteration per unit of
fuel; `none` means the fuel ran out. -/
def preprocess_loop : Nat → List Char → preprocess → Option (Res preprocess)
  | 0, _, _ => none
  | fuel + 1, f, p =>
    match fgets SC_MAX_LINE_LENGTH f with
    | none => some (.ret p)
    | some (buf, f) =>
      match validate_and_trim_line buf SC_MAX_LINE_LENGTH with
      | .die => some .die
      | .ret (buf, len) =>
        if len = 0 then preprocess_loop fuel f p
        else
          let p := if buf = "@unrestricted".toList then { p with unrestricted := true } else p
          let p := if buf = "@complain".toList then { p with complain := true } else p
          preprocess_loop fuel f p

/-- `preprocess_filter` on a stream holding `f`. Every iteration takes at least
one byte, so `f.length + 1` iterations reach the end of the file. -/
def preprocess_filter (P : Platform) (f : List Char) : Option (Res preprocess) :=
  match preprocess_loop (f.length + 1) f { unrestricted := false, complain := false } with
  | none => none
  | some .die => some .die
  | some (.ret p) => if P.fseek ≠ 0 then some .die else some (.ret p)

/-- What a run of `seccomp_load_filters` did. -/
structure LoadRun where
  /-- Lines handed to `parse_line`, in order. -/
  parsed : List CStr
  /-- Rules added to the filter context, in order. -/
  rules : List seccomp_args
  /-- Whether `seccomp_load` was called. -/
  load_called : Bool
  /-- Whether `seccomp_load` returned 0. -/
  loaded : Bool
  /-- Whether the function returned (`false`: the process died). -/
  returned : Bool
deriving DecidableEq, Repr

/-- The rule loop of `seccomp_load_filters` (second `while (fgets …)`), one
iteration per unit of fuel. The result is the run so far with `returned := false`
when the loop died, otherwise with `returned := true`. -/
def load_loop (P : Platform) : Nat → List Char → LoadRun → Option LoadRun
  | 0, _, _ => none
  | fuel + 1, f, run =>
    match fgets SC_MAX_LINE_LENGTH f with
    | none => some { run with returned := true }
    | some (buf, f) =>
      match validate_and_trim_line buf SC_MAX_LINE_LENGTH with
      | .die => some { run with returned := false }
      | .ret (buf, len) =>
        if len = 0 then load_loop P fuel f run
        else
          let run := { run with parsed := run.parsed ++ [buf] }
          match parse_line P buf with
          | none => none
          | some .die => some { run with returned := false }
          | some (.ret (pr_rc, sargs)) =>
            if pr_rc ≠ .PARSE_OK then
              if pr_rc = .PARSE_INVALID_SYSCALL then load_loop P fuel f run
              else some { run with returned := false }
            else if P.seccomp_rule_add_exact_array run.rules sargs ≠ 0 then
              if P.seccomp_rule_add_array run.rules sargs ≠ 0 then
                some { run with returned := false }
              else load_loop P fuel f { run with rules := run.rules ++ [sargs] }
            else load_loop P fuel f { run with rules := run.rules ++ [sargs] }

/-- Default value of `filter_profile_dir`. -/
def filter_profile_dir : CStr := "/var/lib/snapd/seccomp/profiles/".toList

/-- The label `out:` of `seccomp_load_filters`: close the file, release, return. -/
def load_out (P : Platform) (run : LoadRun) : LoadRun :=
  if P.fclose ≠ 0 then { run with returned := false } else { run with returned := true }

/-- From the raising of privileges to the end of `seccomp_load_filters`. -/
def load_tail (P : Platform) (effective_uid saved_uid : Nat) (run : LoadRun) : LoadRun :=
  let dead : LoadRun := { run with returned := false }
  if effective_uid ≠ 0 ∧ saved_uid = 0 ∧ P.seteuid_root ≠ 0 then dead
  else if effective_uid ≠ 0 ∧ saved_uid = 0 ∧ P.geteuid_raised ≠ 0 then dead
  else
    let run := { run with load_called := true }
    if P.seccomp_load run.rules ≠ 0 then { run with returned := false }
    else
      let run := { run with loaded := true }
      if P.geteuid_loaded = 0 ∧ P.seteuid_real ≠ 0 then { run with returned := false }
      else if P.geteuid_loaded = 0 ∧ P.getuid ≠ 0 ∧ P.geteuid_dropped = 0 then
        { run with returned := false }
      else load_out P run

/-- The `profile_path` that `seccomp_load_filters` builds with `snprintf`:
`filter_profile_dir` (or its override from the environment), `/`, the profile name. -/
def profile_path (P : Platform) (filter_profile : CStr) : CStr :=
  (match P.secure_getenv_profile_dir with
    | some d => d
    | none => filter_profile_dir) ++ "/".toList ++ filter_profile

/-- The run of `seccomp_load_filters` before anything is read. -/
def run_start : LoadRun :=
  { parsed := [], rules := [], load_called := false, loaded := false, returned := false }

/-- `seccomp_load_filters` from the call of `preprocess_filter` on, the profile
being open on a stream that holds `f`; `none` means a loop ran out of fuel. -/
def load_profile (P : Platform) (effective_uid saved_uid : Nat) (f : List Char) :
    Option LoadRun :=
  match preprocess_filter P f with
  | none => none
  | some .die => some run_start
  | some (.ret pre) =>
    if pre.unrestricted then some (load_out P run_start)
    else if pre.complain then some (load_out P run_start)
    else
      match load_loop P (f.length + 1) f run_start with
      | none => none
      | some run =>
        if run.returned then some (load_tail P effective_uid saved_uid run)
        else some run

/-- `seccomp_load_filters(filter_profile)`; `none` means a loop ran out of fuel. -/
def seccomp_load_filters (P : Platform) (filter_profile : CStr) : Option LoadRun :=
  if ¬ P.seccomp_init_ok then some run_start
  else
    match P.getresuid with
    | none => some run_start
    | some (real_uid, effective_uid, saved_uid) =>
      if (real_uid = 0 ∨ effective_uid = 0 ∨ saved_uid = 0) ∧ P.seccomp_attr_set ≠ 0 then
        some run_start
      else if (profile_path P filter_profile).length ≥ 512 then some run_start
      else
        match P.fopen (profile_path P filter_profile) with
        | none => some run_start
        | some f => load_profile P effective_uid saved_uid f

/-! ## Tokens of a line -/

/-- The tokens successive `strtok_r` calls return, at most `n` of them. -/
def tokens_fuel : Nat → CStr → List CStr
  | 0, _ => []
  | n + 1, s =>
    match strtok_r s with
    | none => []
    | some (t, r) => t :: tokens_fuel n r

/-- All tokens of a line: what `strtok_r` returns call after call until NULL. -/
def tokens (s : CStr) : List CStr := tokens_fuel (s.length + 1) s

/-! ## Reading results and the specification's decoding table -/

/-- What a caller that checks `errno` gets from `read_number`: `some v` when it
returned `v` with `errno = 0`, `none` when it set `errno` or died. -/
def number_of : Res (Nat × Nat) → Option Nat
  | .ret (v, errno) => if errno = 0 then some v else none
  | .die => none

/-- The constraint `parse_line` stores for an argument token other than `-`
(`none`: the token makes it fail). -/
def parse_arg_result (P : Platform) (buf_token : CStr) : Option (scmp_compare × Nat) :=
  match parse_arg P buf_token with
  | none => none
  | some (op, r) => (number_of r).map (fun v => (op, v))

/-- The prefix table of the specification (§4.G), longest prefixes first. -/
def prefix_table : List (String × scmp_compare) :=
  [(">=", .SCMP_CMP_GE), ("<=", .SCMP_CMP_LE), ("!", .SCMP_CMP_NE),
   (">", .SCMP_CMP_GT), ("<", .SCMP_CMP_LT)]

/-- Operator and value text of a token by the specification's table: the first
entry whose prefix starts the token gives the operator, the value is what
follows the prefix; with no such entry the operator is EQ and the value is
the whole token. -/
def spec_split (tok : CStr) : scmp_compare × CStr :=
  match prefix_table.find? (fun e => e.1.toList.isPrefixOf tok) with
  | some (p, op) => (op, tok.drop p.length)
  | none => (.SCMP_CMP_EQ, tok)

/-- Decoding of an argument token by the specification: split by the table, then
`read_number` on the value text. -/
def spec_decode (P : Platform) (tok : CStr) : Option (scmp_compare × Nat) :=
  (number_of (read_number P (spec_split tok).2)).map (fun v => ((spec_split tok).1, v))

/-- The entries the specification expects in `arg_cmp` for argument tokens
`args`: one per token other than `-`, carrying the token's index. -/
def spec_arg_cmp (P : Platform) (args : List CStr) : List scmp_arg_cmp :=
  args.enum.filterMap (fun ia =>
    if ia.2 = "-".toList then none
    else (spec_decode P ia.2).map (fun ov => ⟨(ia.1 : Int), ov.1, ov.2⟩))

/-- The entries of `spec_arg_cmp` when the first token of `args` has index `k`. -/
def spec_arg_cmp_from (P : Platform) (k : Nat) (args : List CStr) : List scmp_arg_cmp :=
  (args.enumFrom k).filterMap (fun ia =>
    if ia.2 = "-".toList then none
    else (spec_decode P ia.2).map (fun ov => ⟨(ia.1 : Int), ov.1, ov.2⟩))

/-! ## A platform for evaluating the model on examples -/

/-- The x86-64 numbers of a few syscalls, for examples. -/
def sample_syscalls : List (String × Int) :=
  [("read", 0), ("write", 1), ("socket", 41), ("getpid", 39), ("setpriority", 141)]

/-- The Linux values of the socket and priority constants, for examples. -/
def sample_headers : List (String × Nat) :=
  [("AF_UNIX", 1), ("AF_LOCAL", 1), ("AF_INET", 2), ("AF_INET6", 10), ("AF_IPX", 4),
   ("AF_NETLINK", 16), ("AF_X25", 9), ("AF_AX25", 3), ("AF_ATMPVC", 8), ("AF_APPLETALK", 5),
   ("AF_PACKET", 17), ("AF_ALG", 38), ("SOCK_STREAM", 1), ("SOCK_DGRAM", 2),
   ("SOCK_SEQPACKET", 5), ("SOCK_RAW", 3), ("SOCK_RDM", 4), ("SOCK_PACKET", 10),
   ("PRIO_PROCESS", 0), ("PRIO_PGRP", 1), ("PRIO_USER", 2)]

/-- Profile files of the sample platform, by name under the profile directory. -/
def sample_profiles : List (String × String) :=
  [("two-rules", "read\nsocket AF_INET SOCK_STREAM\n"),
   ("unrestricted", "@unrestricted\nread -1\n"),
   ("complain", "read -1\n@complain\n"),
   ("negative", "read\nwrite -1\n"),
   ("unknown", "# comment\nbogus 1 2 3 4 5 6 7 8\n\nread\n"),
   ("empty", ""),
   ("long-comment",
    "#xxxxxxxxxxxxxxxxxxxxxxxxxxxxxxxxxxxxxxxxxxxxxxxxxxxxxxxxxxxxxxxxxxxxxxxxxxxxxxxxwrite -1\n"),
   ("long-unknown",
    "bogus 1 2 3 4 5 6 7 8 9 10 11 12 13 14 15 16 17 18 19 20 21 22 23 24 25 26 27 28 29 30\n")]

/-- A platform for examples: the syscalls of `sample_syscalls`, the constants of
`sample_headers` (the others are not used by the examples and read as 0), a
64-bit `unsigned long`, glibc's `hsearch_r`, calls that succeed, a process of
uid 1000 with saved uid 0, and the profile files of `sample_profiles`. -/
def sample_platform : Platform where
  seccomp_syscall_resolve_name := fun s =>
    ((sample_syscalls.map (fun e => (e.1.toList, e.2))).lookup s).getD NR_SCMP_ERROR
  header_value := fun s => ((sample_headers.map (fun e => (e.1.toList, e.2))).lookup s).getD 0
  ULONG_MAX := 2 ^ 64 - 1
  hsearch_find_absent := 0
  seccomp_rule_add_exact_array := fun _ _ => 0
  seccomp_rule_add_array := fun _ _ => 0
  seccomp_init_ok := true
  getresuid := some (1000, 1000, 0)
  seccomp_attr_set := 0
  secure_getenv_profile_dir := none
  fopen := fun path =>
    (sample_profiles.map
      (fun e => (filter_profile_dir ++ "/".toList ++ e.1.toList, e.2.toList))).lookup path
  fseek := 0
  seteuid_root := 0
  geteuid_raised := 0
  seccomp_load := fun _ => 0
  geteuid_loaded := 0
  getuid := 1000
  seteuid_real := 0
  geteuid_dropped := 1000
  fclose := 0

/-- The `while` loop of `parse_line` read over the list of tokens still to come,
`k` being `pos + 1`: the same steps as `parse_line_loop`, with the next token
taken from the list (`parse_line_loop_eq_tokens` proves the two agree). -/
def parse_tokens (P : Platform) : Nat → List CStr → seccomp_args → Res (parse_ret × seccomp_args)
  | k, [], sargs =>
    if k ≥ 7 then .ret (.PARSE_ERROR, sargs) else .ret (.PARSE_OK, sargs)
  | k, a :: rest, sargs =>
    if k ≥ 7 then .ret (.PARSE_ERROR, sargs)
    else if a = "-".toList then parse_tokens P (k + 1) rest sargs
    else
      match parse_arg P a with
      | none => .ret (.PARSE_ERROR, sargs)
      | some (_, .die) => .die
      | some (op, .ret (value, errno)) =>
        if errno ≠ 0 then .ret (.PARSE_ERROR, sargs)
        else parse_tokens P (k + 1) rest
          { sargs with arg_cmp := sargs.arg_cmp ++ [⟨(k : Int), op, value⟩],
                       length := sargs.length + 1 }

/-! ## The profile as a sequence of buffers and as a sequence of lines -/

/-- The buffers successive `fgets(buf, SC_MAX_LINE_LENGTH, f)` calls return, at most
`n` of them. -/
def read_all_fuel : Nat → List Char → List CStr
  | 0, _ => []
  | n + 1, f =>
    match fgets SC_MAX_LINE_LENGTH f with
    | none => []
    | some (buf, f) => buf :: read_all_fuel n f

/-- All buffers `fgets` returns on a stream holding `f`, until it returns NULL. -/
def read_all (f : List Char) : List CStr := read_all_fuel (f.length + 1) f

/-- The lines of a file: each ends with its newline, except a last line that the
file leaves unterminated. -/
def file_lines : List Char → List (List Char)
  | [] => []
  | c :: f =>
    if c = '\n' then [c] :: file_lines f
    else
      match file_lines f with
      | [] => [[c]]
      | l :: ls => (c :: l) :: ls

/-- The `while (fgets …)` loop of `preprocess_filter` over the buffers read. -/
def preprocess_bufs : List CStr → preprocess → Res preprocess
  | [], p => .ret p
  | buf :: bufs, p =>
    match validate_and_trim_line buf SC_MAX_LINE_LENGTH with
    | .die => .die
    | .ret (buf, len) =>
      if len = 0 then preprocess_bufs bufs p
      else
        let p := if buf = "@unrestricted".toList then { p with unrestricted := true } else p
        let p := if buf = "@complain".toList then { p with complain := true } else p
        preprocess_bufs bufs p

/-- The rule loop of `seccomp_load_filters` over the buffers read. -/
def load_bufs (P : Platform) : List CStr → LoadRun → Option LoadRun
  | [], run => some { run with returned := true }
  | buf :: bufs, run =>
    match validate_and_trim_line buf SC_MAX_LINE_LENGTH with
    | .die => some { run with returned := false }
    | .ret (buf, len) =>
      if len = 0 then load_bufs P bufs run
      else
        let run := { run with parsed := run.parsed ++ [buf] }
        match parse_line P buf with
        | none => none
        | some .die => some { run with returned := false }
        | some (.ret (pr_rc, sargs)) =>
          if pr_rc ≠ .PARSE_OK then
            if pr_rc = .PARSE_INVALID_SYSCALL then load_bufs P bufs run
            else some { run with returned := false }
          else if P.seccomp_rule_add_exact_array run.rules sargs ≠ 0 then
            if P.seccomp_rule_add_array run.rules sargs ≠ 0 then
              some { run with returned := false }
            else load_bufs P bufs { run with rules := run.rules ++ [sargs] }
          else load_bufs P bufs { run with rules := run.rules ++ [sargs] }

/-- A position where a line starts: the bytes before it are none or end with a
newline. -/
def line_start (pre : List Char) : Prop := pre = [] ∨ ∃ q, pre = q ++ ['\n']

/-- Whether a buffer read from the profile is, once validated and trimmed,
`@unrestricted` or `@complain`. -/
def is_directive (buf : CStr) : Bool :=
  match validate_and_trim_line buf SC_MAX_LINE_LENGTH with
  | .ret (b, len) => len != 0 && (b == "@unrestricted".toList || b == "@complain".toList)
  | .die => false

/-- The directive scan finds a directive in the profile: some buffer read from it
is a directive. -/
def directive_in_effect (f : List Char) : Bool := (read_all f).any is_directive

/-- A line of the file as `parse_line` receives it: read as a C string, trailing
whitespace stripped. -/
def line_text (l : List Char) : CStr := (trim_right (cstr l) (cstr l).length).1

/-- A line of the file without its newline. -/
def chomp (l : List Char) : List Char := l.takeWhile (fun c => c != '\n')

/-- Whether a line of the file is a rule line: not a comment, not blank. -/
def is_rule_line (l : List Char) : Bool :=
  !((cstr l).head? == some '#') && !(line_text l).isEmpty

/-- The rule tuple `parse_line` returns for a rule line, when it returns PARSE_OK. -/
def rule_of_line (P : Platform) (l : List Char) : Option seccomp_args :=
  if is_rule_line l then
    match parse_line P (line_text l) with
    | some (.ret (.PARSE_OK, sargs)) => some sargs
    | _ => none
  else none

/-- The rule tuples of a profile in file order: those `parse_line` returns for the
lines that are neither blank nor comments and whose first token resolves. -/
def expected_rules (P : Platform) (f : List Char) : List seccomp_args :=
  (file_lines f).filterMap (rule_of_line P)

/-- The texts of the rule lines of a profile, in file order. -/
def rule_line_texts (f : List Char) : List CStr :=
  ((file_lines f).filter is_rule_line).map line_text

/-- A line goes through the rule loop when the filter already holds the rules `ctx`:
if it is a rule line, `parse_line` returns on it, not with PARSE_ERROR, and a
PARSE_OK rule is accepted by `seccomp_rule_add_exact_array` or else by
`seccomp_rule_add_array`. -/
def line_passes (P : Platform) (ctx : List seccomp_args) (l : List Char) : Prop :=
  is_rule_line l = true →
    ∃ rc sargs, parse_line P (line_text l) = some (.ret (rc, sargs)) ∧ rc ≠ .PARSE_ERROR ∧
      (rc = .PARSE_OK →
        P.seccomp_rule_add_exact_array ctx sargs = 0 ∨ P.seccomp_rule_add_array ctx sargs = 0)

/-- A line with a resolvable syscall name parses and is accepted by the filter
library when the filter already holds the rules `ctx`: if it is a rule line
whose first token resolves to a syscall, `parse_line` returns PARSE_OK on it
and the rule is accepted by `seccomp_rule_add_exact_array` or else by
`seccomp_rule_add_array`. -/
def line_accepted (P : Platform) (ctx : List seccomp_args) (l : List Char) : Prop :=
  is_rule_line l = true →
    ∀ name args, tokens (line_text l) = name :: args →
      P.seccomp_syscall_resolve_name name ≠ NR_SCMP_ERROR →
      ∃ sargs, parse_line P (line_text l) = some (.ret (.PARSE_OK, sargs)) ∧
        (P.seccomp_rule_add_exact_array ctx sargs = 0 ∨ P.seccomp_rule_add_array ctx sargs = 0)

/-- A profile with every line that begins with `#` removed. -/
def strip_comments (f : List Char) : List Char :=
  ((file_lines f).filter (fun l => !(l.head? == some '#'))).flatten

/-! ## `main.c`: the identifier check -/

/-- An item of a POSIX bracket expression: a range `lo-hi` or one character. -/
inductive BracketItem where
  | range (lo hi : Char)
  | char (c : Char)

/-- Whether a character is matched by a bracket item (C locale: ranges go by
character code). -/
def BracketItem.matches : BracketItem → Char → Bool
  | .range lo hi, c => decide (lo ≤ c) && decide (c ≤ hi)
  | .char d, c => c == d

/-- Whether a bracket expression matches a character. -/
def bracket (items : List BracketItem) (c : Char) : Bool := items.any (fun i => i.matches c)

/-- A piece of an extended regular expression built from bracket expressions:
a bracket expression alone, or one followed by `+`. -/
inductive Piece where
  | one (items : List BracketItem)
  | plus (items : List BracketItem)

/-- `regexec` for a compiled pattern `^p1 p2 … pn$` whose pieces are bracket
expressions, with `REG_EXTENDED|REG_NOSUB`: whether the whole string matches. -/
def regexec_anchored : List Piece → CStr → Bool
  | [], [] => true
  | [], _ :: _ => false
  | _ :: _, [] => false
  | .one items :: ps, c :: s => bracket items c && regexec_anchored ps s
  | .plus items :: ps, c :: s =>
    bracket items c && (regexec_anchored ps s || regexec_anchored (.plus items :: ps) s)

/-- The pattern `whitelist_re` of `verify_appname`, `^[a-z0-9][a-z0-9+._-]+$`, as
`regcomp` compiles it (the final `-` of the second bracket is a literal). -/
def whitelist_re : List Piece :=
  [.one [.range 'a' 'z', .range '0' '9'],
   .plus [.range 'a' 'z', .range '0' '9', .char '+', .char '.', .char '_', .char '-']]

/-- `verify_appname`: `regexec` of `whitelist_re` on the name returned 0. -/
def verify_appname (appname : CStr) : Bool := regexec_anchored whitelist_re appname

/-- The class `[a-z0-9]` of the specification. -/
def class_first (c : Char) : Prop := ('a' ≤ c ∧ c ≤ 'z') ∨ ('0' ≤ c ∧ c ≤ '9')

/-- The class `[a-z0-9+._-]` of the specification. -/
def class_rest (c : Char) : Prop :=
  ('a' ≤ c ∧ c ≤ 'z') ∨ ('0' ≤ c ∧ c ≤ '9') ∨ c = '+' ∨ c = '.' ∨ c = '_' ∨ c = '-'

/-! ## `main.c`: the launcher -/

/-- The calls of the launcher that act on the system, with the arguments that
identify them. -/
inductive Action where
  | unshare
  | mount (src dst fstype : CStr) (flags : List String) (data : CStr)
  | mkdtemp (template : CStr)
  | umask (mask : Nat)
  | mkdir (path : CStr) (mode : Nat)
  | chown (path : CStr) (uid gid : Nat)
  | setenv (name value : CStr)
  | symlink (target linkpath : CStr)
  | write_string_to_file (path content : CStr)
  | snappy_app_dev (appname path : CStr) (devnum : Nat)
  | setgid (gid : Nat)
  | setuid (uid : Nat)
  | mkdirat (dir : List CStr) (segment : CStr)
  | aa_change_onexec (profile : CStr)
  | seccomp_load_filters (profile : CStr)
  | execv (binary : CStr) (argv : List CStr)
deriving DecidableEq, Repr

/-- How a run of launcher code ends: with a value, in `die`, or with the process
image replaced by a successful `execv`. -/
inductive Ending (α : Type) where
  | val (a : α)
  | died
  | replaced
deriving DecidableEq, Repr

/-- A run of launcher code: the calls made, in order, and how it ended. -/
structure Run (α : Type) where
  trace : List Action
  ending : Ending α
deriving DecidableEq, Repr

/-- Sequencing: the second part runs only when the first ended with a value. -/
def Run.bind {α β : Type} (x : Run α) (f : α → Run β) : Run β :=
  match x.ending with
  | .val a => { trace := x.trace ++ (f a).trace, ending := (f a).ending }
  | .died => { trace := x.trace, ending := .died }
  | .replaced => { trace := x.trace, ending := .replaced }

instance : Monad Run where
  pure a := { trace := [], ending := .val a }
  bind := Run.bind

/-- Modelled from the spec: `die` of `utils.c` is not among the sources; a fatal
error is reported and the process ends there (§7). -/
def die {α : Type} : Run α := { trace := [], ending := .died }

/-- A successful `execv`: the process image is replaced. -/
def image_replaced {α : Type} : Run α := { trace := [], ending := .replaced }

/-- What the launcher finds around it: return values of the calls it makes and
answers to the questions it asks. A call is identified by its `Action`. -/
structure World where
  /-- Return value of a call. -/
  rc : Action → Int
  /-- Value of `errno` after a call that failed. -/
  errno : Action → Nat
  /-- Largest `size_t`. -/
  SIZE_MAX : Nat
  /-- Value of `geteuid()` before the privilege drop. -/
  geteuid : Nat
  /-- Value of `getuid()` before the privilege drop. -/
  getuid : Nat
  /-- Value of `getgid()` before the privilege drop. -/
  getgid : Nat
  /-- Value of `getpid()`. -/
  getpid : Nat
  /-- Value of `getenv(name)`; `none` is NULL. -/
  getenv : CStr → Option CStr
  /-- Whether `access("/var/lib/dpkg/status", F_OK)` returns 0. -/
  access_dpkg_status : Bool
  /-- Return value of `glob("/snaps/ubuntu-core*/current/", …)` and the paths it found. -/
  glob : Int × List CStr
  /-- Name `mkdtemp` gives the directory made from a template; `none` is NULL. -/
  mkdtemp : CStr → Option CStr
  /-- Whether `stat("/dev/pts", &st)` returns 0 with a directory. -/
  stat_dev_pts_isdir : Bool
  /-- Return value of `stat("/dev/ptmx", &st)`. -/
  stat_dev_ptmx : Int
  /-- For the override file of that path: `none` when `open` fails, otherwise the
  return value of `read` and the contents of `content` after the call. -/
  override_file : CStr → Option (Int × List Char)
  /-- Whether `udev_new` returns a context. -/
  udev_new_ok : Bool
  /-- Device number of `udev_device_new_from_syspath` for a path; `none` is NULL. -/
  udev_device : CStr → Option Nat
  /-- Outcome of `waitpid` for the helper started by a call: `none` when `waitpid`
  fails, otherwise (exited, exit status, signaled). -/
  waitpid : Action → Option (Bool × Nat × Bool)
  /-- Whether `udev_enumerate_new` returns an enumerator. -/
  udev_enumerate_new_ok : Bool
  /-- Return value of `udev_enumerate_add_match_tag`. -/
  udev_add_match_tag : Int
  /-- Return value of `udev_enumerate_add_match_property`. -/
  udev_add_match_property : Int
  /-- Return value of `udev_enumerate_scan_devices`. -/
  udev_scan_devices : Int
  /-- Names of the list entries of the enumeration, in order; `none` is a NULL name. -/
  udev_list : List (Option CStr)
  /-- Values of `getuid()`, `geteuid()`, `getgid()`, `getegid()` after `setgid` and
  `setuid`. -/
  getuid_after : Nat
  geteuid_after : Nat
  getgid_after : Nat
  getegid_after : Nat
  /-- Whether `open("/", …)` and `openat(fd, segment, …)` of `mkpath` succeed, by
  the segments walked so far. -/
  openat_ok : List CStr → Bool
  /-- What the filter compiler finds: libseccomp, the headers and the profile. -/
  platform : Platform
  /-- The value `main` takes as the result of `seccomp_load_filters`. -/
  seccomp_load_filters_rc : Int
  /-- Whether `execv` fails and returns. -/
  execv_returns : Bool

/-- A call: it is recorded and its return value comes from the world. -/
def call (w : World) (a : Action) : Run Int := { trace := [a], ending := .val (w.rc a) }

def PATH_MAX : Nat := 4096
def MAX_BUF : Nat := 1000
def EEXIST : Nat := 17

/-- Modelled from the spec: `must_snprintf` of `utils.c` is not among the sources; it is
taken as `snprintf` into a buffer of `size` bytes that is fatal when the text
does not fit. -/
def must_snprintf (size : Nat) (text : CStr) : Run CStr :=
  if text.length < size then pure text else die

/-- Modelled from the spec: `write_string_to_file` of `utils.c` is not among the
sources; it is taken as writing the string to the file, fatal on failure. -/
def write_string_to_file (w : World) (path content : CStr) : Run Unit := do
  let rc ← call w (.write_string_to_file path content)
  if rc ≠ 0 then die else pure ()

/-- Decimal text of a number, as `%d`, `%u` and `%i` print it. -/
def decimal_text (n : Nat) : CStr := Nat.toDigits 10 n

/-- A `for` loop over a fixed list. -/
def for_each {α : Type} : List α → (α → Run Unit) → Run Unit
  | [], _ => pure ()
  | x :: xs, f => do
    f x
    for_each xs f

/-- `run_snappy_app_dev_add`: the fork, the `execl` of `/lib/udev/snappy-app-dev add`
in the child and the `waitpid` of the parent are one recorded call. -/
def run_snappy_app_dev_add (w : World) (path appname : CStr) : Run Unit :=
  match w.udev_device path with
  | none => die
  | some devnum => do
    let _ ← call w (.snappy_app_dev appname path devnum)
    match w.waitpid (.snappy_app_dev appname path devnum) with
    | none => die
    | some (exited, status, signaled) =>
      if exited ∧ status ≠ 0 then die
      else if signaled then die
      else pure ()

def static_devices : List String :=
  ["/sys/class/mem/null", "/sys/class/mem/full", "/sys/class/mem/zero", "/sys/class/mem/random",
   "/sys/class/mem/urandom", "/sys/class/tty/tty", "/sys/class/tty/console",
   "/sys/class/tty/ptmx"]

def setup_udev_snappy_assign (w : World) (appname : CStr) : Run Unit := do
  if ¬ w.udev_new_ok then die
  for_each static_devices (fun d => run_snappy_app_dev_add w d.toList appname)
  if ¬ w.udev_enumerate_new_ok then die
  if w.udev_add_match_tag ≠ 0 then die
  if w.udev_add_match_property ≠ 0 then die
  if w.udev_scan_devices ≠ 0 then die
  for_each w.udev_list (fun l =>
    match l with
    | none => die
    | some path => run_snappy_app_dev_add w path appname)

def setup_devices_cgroup (w : World) (appname : CStr) : Run Unit := do
  if ¬ verify_appname appname then die
  let cgroup_dir ← must_snprintf PATH_MAX
    ("/sys/fs/cgroup/devices/snappy.".toList ++ appname ++ "/".toList)
  let rc ← call w (.mkdir cgroup_dir 0o755)
  if rc < 0 ∧ w.errno (.mkdir cgroup_dir 0o755) ≠ EEXIST then die
  let cgroup_file ← must_snprintf PATH_MAX (cgroup_dir ++ "tasks".toList)
  let buf ← must_snprintf 128 (decimal_text w.getpid)
  write_string_to_file w cgroup_file buf
  let cgroup_file ← must_snprintf PATH_MAX (cgroup_dir ++ "devices.deny".toList)
  write_string_to_file w cgroup_file "a".toList

/-- The string `needle` of `snappy_udev_setup_required`. -/
def needle : CStr :=
  ("\x7b\n" ++ " \"write_path\": [\n" ++ "   \"/dev/**\"\n" ++ " ],\n" ++
   " \"read_path\": [\n" ++ "   \"/run/udev/data/*\"\n" ++ " ]\n" ++ "\x7d").toList

/-- `snappy_udev_setup_required`. The test `n < sizeof(content)` compares the `int`
returned by `read` with a `size_t`, so `n` is converted to `size_t` first. -/
def snappy_udev_setup_required (w : World) (appname : CStr) : Run Bool := do
  if ¬ verify_appname appname then die
  let override_file ← must_snprintf PATH_MAX
    ("/var/lib/apparmor/clicks/".toList ++ appname ++ ".json.additional".toList)
  match w.override_file override_file with
  | none => pure false
  | some (n, content) =>
    if (n % ((w.SIZE_MAX : Int) + 1)).toNat < needle.length then pure false
    else if content.take needle.length = needle then pure true
    else pure false

def is_running_on_classic_ubuntu (w : World) : Bool := w.access_dpkg_status

def setup_private_mount (w : World) (appname : CStr) : Run Unit := do
  let uid := w.getuid
  let gid := w.getgid
  let tmpdir ← must_snprintf MAX_BUF
    ("/tmp/snap.".toList ++ decimal_text uid ++ "_".toList ++ appname ++ "_XXXXXX".toList)
  let _ ← call w (.mkdtemp tmpdir)
  match w.mkdtemp tmpdir with
  | none => die
  | some d =>
    let old_mask ← call w (.umask 0)
    let tmpdir ← must_snprintf MAX_BUF (d ++ "/tmp".toList)
    let rc ← call w (.mkdir tmpdir 0o1777)
    if rc ≠ 0 then die
    let _ ← call w (.umask old_mask.toNat)
    let rc ← call w (.mount tmpdir "/tmp".toList [] ["MS_BIND"] [])
    if rc ≠ 0 then die
    let rc ← call w (.mount "none".toList "/tmp".toList [] ["MS_PRIVATE"] [])
    if rc ≠ 0 then die
    let rc ← call w (.chown "/tmp/".toList uid gid)
    if rc < 0 then die
    for_each ["TMPDIR", "TEMPDIR", "SNAP_APP_TMPDIR"] (fun name => do
      let rc ← call w (.setenv name.toList "/tmp".toList)
      if rc ≠ 0 then die)

def setup_private_pts (w : World) : Run Unit := do
  if ¬ w.stat_dev_pts_isdir then die
  let rc ← call w (.mount "devpts".toList "/dev/pts".toList "devpts".toList ["MS_MGC_VAL"]
    "newinstance,ptmxmode=0666,mode=0620,gid=5".toList)
  if rc ≠ 0 then die
  if w.stat_dev_ptmx = 0 then
    let rc ← call w (.mount "/dev/pts/ptmx".toList "/dev/ptmx".toList "none".toList
      ["MS_BIND", "MS_NOSUID", "MS_NOEXEC"] [])
    if rc ≠ 0 then die
  else
    let rc ← call w (.symlink "/dev/pts/ptmx".toList "/dev/ptmx".toList)
    -- `if (!symlink(…)) die(…)`
    if rc = 0 then die

/-- `setup_snappy_os_mounts`. The test `(glob_res.gl_pathc =! 1)` assigns `!1`, which
is 0, to `gl_pathc` and tests the value assigned. -/
def setup_snappy_os_mounts (w : World) : Run Unit := do
  if w.glob.1 ≠ 0 then die
  let gl_pathc : Nat := 0
  if gl_pathc ≠ 0 then die
  let mountpoint := w.glob.2.headD []
  for_each ["/bin", "/sbin", "/lib", "/lib64", "/usr"] (fun dst => do
    let src ← must_snprintf 512 (mountpoint ++ dst.toList)
    let rc ← call w (.mount src dst.toList [] ["MS_BIND"] [])
    if rc ≠ 0 then die)

def setup_slave_mount_namespace (w : World) : Run Unit := do
  let rc ← call w .unshare
  if rc < 0 then die
  let rc ← call w (.mount "none".toList "/".toList [] ["MS_REC", "MS_SLAVE"] [])
  if rc ≠ 0 then die

/-- The segments `strtok_r(path, "/", …)` returns. -/
def path_segments (path : CStr) : List CStr :=
  (path.splitOn '/').filter (fun seg => !seg.isEmpty)

/-- The loop of `mkpath` over the segments still to come; `dir` lists the segments
already walked. -/
def mkpath_walk (w : World) : List CStr → List CStr → Run Unit
  | _, [] => pure ()
  | dir, seg :: segs => do
    let rc ← call w (.mkdirat dir seg)
    if rc < 0 ∧ w.errno (.mkdirat dir seg) ≠ EEXIST then die
    if ¬ w.openat_ok (dir ++ [seg]) then die
    mkpath_walk w (dir ++ [seg]) segs

def mkpath (w : World) (path : CStr) : Run Unit := do
  if path.length = 0 then pure ()
  else
    if path.head? = some '/' ∧ ¬ w.openat_ok [] then die
    mkpath_walk w [] (path_segments path)

def setup_user_data (w : World) : Run Unit :=
  match w.getenv "SNAP_USER_DATA".toList with
  | some user_data =>
    if user_data.head? ≠ some '/' then die else mkpath w user_data
  | none =>
    match w.getenv "SNAP_APP_USER_DATA_PATH".toList with
    | none => pure ()
    | some user_data =>
      if user_data.head? ≠ some '/' then die else mkpath w user_data

/-- The call of `seccomp_load_filters` in `main`: the run of the filter compiler on
the platform; the process goes on when that run returned. The compiler always
ends (`seccomp_load_filters_total`), so the default is never taken. -/
def seccomp_load_filters_call (w : World) (profile : CStr) : Run Int :=
  { trace := [.seccomp_load_filters profile],
    ending :=
      if ((seccomp_load_filters w.platform profile).getD run_start).returned
      then .val w.seccomp_load_filters_rc else .died }

/-- Lines 475-489 of `main`, the last statements of its `if(geteuid() == 0)` block:
the privileges are dropped back to the calling user and the drop is checked. -/
def main_drop_privs (w : World) : Run Unit := do
  let real_uid := w.getuid
  let real_gid := w.getgid
  let rc ← call w (.setgid real_gid)
  if rc ≠ 0 then die
  let rc ← call w (.setuid real_uid)
  if rc ≠ 0 then die
  if real_gid ≠ 0 ∧ (w.getuid_after = 0 ∨ w.geteuid_after = 0) then die
  if real_uid ≠ 0 ∧ (w.getgid_after = 0 ∨ w.getegid_after = 0) then die

/-- `main(argc, argv)` with `argc = argv.length`; the value is the exit status. -/
def main (w : World) (argv : List CStr) : Run Int := do
  if argv.length < 3 + 1 then die
  let appname := argv.getD 1 []
  let aa_profile := argv.getD 2 []
  let binary := argv.getD 3 []
  if ¬ verify_appname appname then die
  if w.geteuid ≠ 0 ∧ w.getenv "UBUNTU_CORE_LAUNCHER_NO_ROOT".toList = none then die
  if w.geteuid = 0 then
    setup_slave_mount_namespace w
    if is_running_on_classic_ubuntu w then
      setup_snappy_os_mounts w
    setup_private_mount w appname
    setup_private_pts w
    if (← snappy_udev_setup_required w appname) then
      setup_devices_cgroup w appname
      setup_udev_snappy_assign w appname
    main_drop_privs w
  setup_user_data w
  let rc ← call w (.aa_change_onexec aa_profile)
  if rc ≠ 0 ∧ w.getenv "SNAPPY_LAUNCHER_INSIDE_TESTS".toList = none then die
  let rc ← seccomp_load_filters_call w aa_profile
  if rc ≠ 0 then die
  let _ ← call w (.execv binary (binary :: argv.drop 4))
  if w.execv_returns then pure 1 else image_replaced

/-- A world for examples: the process runs as root for the user 1000 on a host that
is not classic, every call succeeds (`umask` returns the old mask 022),
`/dev/ptmx` exists, there is no override file and no user-data variable, the
filter compiler runs on `sample_platform`, and `execv` succeeds. -/
def sample_world : World where
  rc := fun a =>
    match a with
    | .umask _ => 0o022
    | _ => 0
  errno := fun _ => 0
  SIZE_MAX := 2 ^ 64 - 1
  geteuid := 0
  getuid := 1000
  getgid := 1000
  getpid := 4242
  getenv := fun _ => none
  access_dpkg_status := false
  glob := (0, ["/snaps/ubuntu-core.canonical/current/".toList])
  mkdtemp := fun t => some (t.take (t.length - 6) ++ "Ab3dE9".toList)
  stat_dev_pts_isdir := true
  stat_dev_ptmx := 0
  override_file := fun _ => none
  udev_new_ok := true
  udev_device := fun _ => some 0x0103
  waitpid := fun _ => some (true, 0, false)
  udev_enumerate_new_ok := true
  udev_add_match_tag := 0
  udev_add_match_property := 0
  udev_scan_devices := 0
  udev_list := []
  getuid_after := 1000
  geteuid_after := 1000
  getgid_after := 1000
  getegid_after := 1000
  openat_ok := fun _ => true
  platform := sample_platform
  seccomp_load_filters_rc := 0
  execv_returns := false

/-- A well-formed constraint token: one of the operator prefixes, or none, followed
by a value that `read_number` accepts. -/
def well_formed (P : Platform) (tok : CStr) : Prop :=
  ∃ p ∈ ["", ">=", "<=", "!", ">", "<"], ∃ r,
    tok = p.toList ++ r ∧ (number_of (read_number P r)).isSome = true

/-! ## Worlds for evaluating single stages of the launcher -/

/-- The sample world with an override file that opens and on which `read`
returns `n` with `content` left in the buffer. -/
def override_world (n : Int) (content : List Char) : World :=
  { sample_world with override_file := fun _ => some (n, content) }

/-- The sample world on a classic host where the glob of the OS snap returns
`status` and finds `paths`. -/
def glob_world (status : Int) (paths : List CStr) : World :=
  { sample_world with access_dpkg_status := true, glob := (status, paths) }

/-- The sample world without `/dev/ptmx` (`stat` returns -1), in which `symlink`
returns `symlink_rc`. -/
def no_ptmx_world (symlink_rc : Int) : World :=
  { sample_world with
    stat_dev_ptmx := -1
    rc := fun a =>
      match a with
      | .symlink _ _ => symlink_rc
      | a => sample_world.rc a }

/-! # Lemmas and theorems -/


theorem strtok_r_length {s t r : CStr} (h : strtok_r s = some (t, r)) :
    r.length < s.length := by
  unfold strtok_r at h
  have h1 : (s.dropWhile isDelim).length ≤ s.length :=
    (List.dropWhile_sublist _).length_le
  split at h
  · simp at h
  · rename_i c cs heq
    simp only [Option.some.injEq, Prod.mk.injEq] at h
    obtain ⟨-, rfl⟩ := h
    have h2 : ((c :: cs).dropWhile (fun x => !isDelim x)).length ≤ (c :: cs).length :=
      (List.dropWhile_sublist _).length_le
    rw [heq] at h1
    by_cases hc : isDelim c
    · have : (s.dropWhile isDelim).head? = some c := by rw [heq]; rfl
      have h3 := List.head?_dropWhile_not isDelim s
      rw [this] at h3
      simp [hc] at h3
    · have h4 : (c :: cs).dropWhile (fun x => !isDelim x) = cs.dropWhile (fun x => !isDelim x) := by
        simp [List.dropWhile_cons, hc]
      rw [h4]
      have h5 : (cs.dropWhile (fun x => !isDelim x)).length ≤ cs.length :=
        (List.dropWhile_sublist _).length_le
      simp only [List.length_drop, List.length_cons] at h1 ⊢
      omega

theorem strtok_r_token_ne_nil {s t r : CStr} (h : strtok_r s = some (t, r)) : t ≠ [] := by
  unfold strtok_r at h
  split at h
  · simp at h
  · rename_i c cs heq
    simp only [Option.some.injEq, Prod.mk.injEq] at h
    obtain ⟨rfl, -⟩ := h
    have h3 := List.head?_dropWhile_not isDelim s
    rw [heq] at h3
    simp at h3
    simp [List.takeWhile_cons, h3]

theorem tokens_fuel_stable : ∀ (n m : Nat) (s : CStr), s.length < n → s.length < m →
    tokens_fuel n s = tokens_fuel m s := by
  intro n
  induction n with
  | zero => intro m s h; omega
  | succ n ih =>
    intro m s hn hm
    cases m with
    | zero => omega
    | succ m =>
      simp only [tokens_fuel]
      cases hs : strtok_r s with
      | none => rfl
      | some p =>
        obtain ⟨t, r⟩ := p
        have := strtok_r_length hs
        simp only
        rw [ih m r (by omega) (by omega)]

theorem tokens_eq (s : CStr) :
    tokens s = match strtok_r s with
      | none => []
      | some (t, r) => t :: tokens r := by
  cases hs : strtok_r s with
  | none => simp [tokens, tokens_fuel, hs]
  | some p =>
    obtain ⟨t, r⟩ := p
    have := strtok_r_length hs
    show tokens_fuel (s.length + 1) s = t :: tokens_fuel (r.length + 1) r
    rw [tokens_fuel, hs]
    simp only
    rw [tokens_fuel_stable s.length (r.length + 1) r (by omega) (by omega)]

theorem tokens_nil_iff (s : CStr) : tokens s = [] ↔ strtok_r s = none := by
  rw [tokens_eq]
  cases strtok_r s with
  | none => simp
  | some p => simp

theorem tokens_cons_iff (s t : CStr) (ts : List CStr) :
    tokens s = t :: ts ↔ ∃ r, strtok_r s = some (t, r) ∧ tokens r = ts := by
  rw [tokens_eq]
  cases strtok_r s with
  | none => simp
  | some p =>
    obtain ⟨t1, r⟩ := p
    simp only [List.cons.injEq, Option.some.injEq, Prod.mk.injEq]
    constructor
    · rintro ⟨rfl, h⟩; exact ⟨r, ⟨rfl, rfl⟩, h⟩
    · rintro ⟨r1, ⟨rfl, rfl⟩, h⟩; exact ⟨rfl, h⟩

/-! ## The symbolic-constant map -/

theorem lookup_sc_map_add (htab : List (CStr × Nat)) (key : CStr) (data : Nat) (s : CStr) :
    (sc_map_add htab key data).lookup s =
      match htab.lookup s with
      | some v => some v
      | none => if s = key then some data else none := by
  unfold sc_map_add
  cases hk : htab.lookup key with
  | some d =>
    simp only
    cases hs : htab.lookup s with
    | some v => rfl
    | none =>
      simp only
      split_ifs with h
      · subst h; rw [hk] at hs; cases hs
      · rfl
  | none =>
    simp only
    rw [List.lookup_append]
    cases hs : htab.lookup s with
    | some v => simp
    | none =>
      simp only [Option.none_or, List.lookup_cons, List.lookup_nil]
      by_cases h : s = key
      · subst h; simp
      · have : (s == key) = false := by simpa using h
        simp [this, h]

theorem lookup_foldl_sc_map_add (hv : CStr → Nat) (s : CStr) :
    ∀ (ks : List String) (htab : List (CStr × Nat)),
      (ks.foldl (fun htab k => sc_map_add htab k.toList (hv k.toList)) htab).lookup s =
        match htab.lookup s with
        | some v => some v
        | none => if s ∈ ks.map String.toList then some (hv s) else none := by
  intro ks
  induction ks with
  | nil =>
    intro htab
    simp only [List.foldl_nil, List.map_nil, List.not_mem_nil, if_false]
    cases htab.lookup s <;> rfl
  | cons k ks ih =>
    intro htab
    rw [List.foldl_cons, ih, lookup_sc_map_add]
    cases htab.lookup s with
    | some v => rfl
    | none =>
      simp only [List.map_cons, List.mem_cons]
      by_cases h : s = k.toList
      · rw [if_pos h, if_pos (Or.inl h), h]
      · rw [if_neg h]
        simp only [h, false_or]

theorem lookup_sc_map_init (P : Platform) (s : CStr) :
    (sc_map_init P).lookup s =
      if s ∈ sc_map_keys.map String.toList then some (P.header_value s) else none := by
  unfold sc_map_init
  rw [lookup_foldl_sc_map_add]
  simp only [List.lookup_nil]

theorem sc_map_search_key (P : Platform) (s : CStr) (h : s ∈ sc_map_keys.map String.toList) :
    sc_map_search P s = .ret (P.header_value s, 0) := by
  unfold sc_map_search hsearch_r_FIND
  rw [lookup_sc_map_init, if_pos h]
  simp only [one_ne_zero, if_false]

theorem sc_map_search_miss (P : Platform) (s : CStr) (h : s ∉ sc_map_keys.map String.toList) :
    number_of (sc_map_search P s) = none := by
  unfold sc_map_search hsearch_r_FIND
  rw [lookup_sc_map_init, if_neg h]
  simp only
  split_ifs <;> simp [number_of, EINVAL]

/-! ## `read_number` -/

theorem read_number_reject (P : Platform) (s : CStr) (h : s = [] ∨ s.head? = some '-') :
    read_number P s = .ret (0, EINVAL) := by
  unfold read_number
  rw [if_pos (by tauto)]

theorem takeWhile_all {α : Type} (p : α → Bool) (l : List α) (h : l.all p = true) :
    l.takeWhile p = l := by
  induction l with
  | nil => rfl
  | cons a l ih =>
    simp only [List.all_cons, Bool.and_eq_true] at h
    simp [List.takeWhile_cons, h.1, ih h.2]

theorem head_digit_ne_minus (s : CStr) (hne : s ≠ []) (h : s.all isdigit = true) :
    ¬ (s.head? = some '-' ∨ s = []) := by
  cases s with
  | nil => exact absurd rfl hne
  | cons c cs =>
    simp only [List.all_cons, Bool.and_eq_true] at h
    rintro (h1 | h1)
    · simp only [List.head?_cons, Option.some.injEq] at h1
      subst h1
      exact absurd h.1 (by decide)
    · cases h1

theorem read_number_digits (P : Platform) (s : CStr) (hne : s ≠ []) (h : s.all isdigit = true) :
    read_number P s =
      if decimal s ≤ P.ULONG_MAX then .ret (decimal s, 0) else .ret (P.ULONG_MAX, ERANGE) := by
  have hlen : 0 < s.length := List.length_pos.mpr hne
  unfold read_number
  rw [if_neg (head_digit_ne_minus s hne h)]
  simp only [h, if_true, strtoul, takeWhile_all isdigit s h]
  split_ifs with h1 h2 h2
  · omega
  · rfl
  · omega
  · rfl

theorem read_number_symbol (P : Platform) (s : CStr) (h : ¬ s.all isdigit = true)
    (hm : s.head? ≠ some '-') : read_number P s = sc_map_search P s := by
  have hne : s ≠ [] := by rintro rfl; simp at h
  unfold read_number
  rw [if_neg (by tauto)]
  simp [h, EINVAL]

theorem read_number_key (P : Platform) (s : CStr) (h : s ∈ sc_map_keys.map String.toList) :
    read_number P s = .ret (P.header_value s, 0) := by
  have hk : ∀ k ∈ sc_map_keys.map String.toList,
      (k.all isdigit = false ∧ k.head? ≠ some '-') := by decide
  obtain ⟨h1, h2⟩ := hk s h
  rw [read_number_symbol P s (by simp [h1]) h2, sc_map_search_key P s h]

theorem parse_arg_single (P : Platform) (c : Char) (hc : c = '!' ∨ c = '>' ∨ c = '<') :
    number_of (read_number P [c]) = none := by
  have hnd : ¬ [c].all isdigit = true := by
    rcases hc with rfl | rfl | rfl <;> decide
  have hm : [c].head? ≠ some '-' := by
    rcases hc with rfl | rfl | rfl <;> decide
  rw [read_number_symbol P [c] hnd hm]
  apply sc_map_search_miss
  rcases hc with rfl | rfl | rfl <;> decide

theorem number_of_read_number_nil (P : Platform) : number_of (read_number P []) = none := by
  rw [read_number_reject P [] (Or.inl rfl)]; rfl

theorem parse_arg_result_eq_spec (P : Platform) (tok : CStr) :
    parse_arg_result P tok = spec_decode P tok := by
  unfold parse_arg_result spec_decode
  have e1 : "!".length = 1 := rfl
  have e2 : ">".length = 1 := rfl
  have e3 : "<".length = 1 := rfl
  have e4 : ">=".length = 2 := rfl
  have e5 : "<=".length = 2 := rfl
  match tok with
  | [] =>
    simp [parse_arg, spec_split, prefix_table, e1, e2, e3, e4, e5, number_of_read_number_nil]
  | [c] =>
    by_cases h1 : c = '!'
    · subst h1
      simp [parse_arg, spec_split, prefix_table, e1, e2, e3, e4, e5, number_of_read_number_nil,
        parse_arg_single]
    · by_cases h2 : c = '>'
      · subst h2
        simp [parse_arg, spec_split, prefix_table, e1, e2, e3, e4, e5, number_of_read_number_nil,
          parse_arg_single]
      · by_cases h3 : c = '<'
        · subst h3
          simp [parse_arg, spec_split, prefix_table, e1, e2, e3, e4, e5, number_of_read_number_nil,
            parse_arg_single]
        · simp [parse_arg, spec_split, prefix_table, e1, e2, e3, e4, e5, h1, h2, h3, Ne.symm h1, Ne.symm h2,
            Ne.symm h3]
  | c :: d :: rest =>
    by_cases h1 : c = '!'
    · subst h1
      simp [parse_arg, spec_split, prefix_table, e1, e2, e3, e4, e5]
    · by_cases h2 : c = '>'
      · subst h2
        by_cases h4 : d = '='
        · subst h4; simp [parse_arg, spec_split, prefix_table, e1, e2, e3, e4, e5]
        · simp [parse_arg, spec_split, prefix_table, e1, e2, e3, e4, e5, h4, Ne.symm h4]
      · by_cases h3 : c = '<'
        · subst h3
          by_cases h4 : d = '='
          · subst h4; simp [parse_arg, spec_split, prefix_table, e1, e2, e3, e4, e5]
          · simp [parse_arg, spec_split, prefix_table, e1, e2, e3, e4, e5, h4, Ne.symm h4]
        · simp [parse_arg, spec_split, prefix_table, e1, e2, e3, e4, e5, h1, h2, h3, Ne.symm h1, Ne.symm h2,
            Ne.symm h3]

/-! ## Well-formed constraint tokens -/

/-- A value `read_number` accepts starts with a digit or a letter of a table key,
not with an operator character. -/
theorem accepted_value_head (P : Platform) (r : CStr)
    (h : (number_of (read_number P r)).isSome = true) :
    ∃ c rest, r = c :: rest ∧ c ≠ '>' ∧ c ≠ '<' ∧ c ≠ '!' ∧ c ≠ '=' := by
  cases r with
  | nil => rw [number_of_read_number_nil] at h; cases h
  | cons c rest =>
    refine ⟨c, rest, rfl, ?_⟩
    by_cases hd : (c :: rest).all isdigit = true
    · simp only [List.all_cons, Bool.and_eq_true] at hd
      have hc := hd.1
      refine ⟨?_, ?_, ?_, ?_⟩ <;> rintro rfl <;> revert hc <;> decide
    · by_cases hm : (c :: rest).head? = some '-'
      · rw [read_number_reject P _ (Or.inr hm)] at h
        cases h
      · rw [read_number_symbol P _ hd hm] at h
        by_cases hk : (c :: rest) ∈ sc_map_keys.map String.toList
        · have hkeys : ∀ k ∈ sc_map_keys.map String.toList, ∀ x ∈ k.head?,
              x ≠ '>' ∧ x ≠ '<' ∧ x ≠ '!' ∧ x ≠ '=' := by decide
          exact hkeys _ hk c rfl
        · rw [sc_map_search_miss P _ hk] at h
          cases h

theorem spec_split_no_prefix (c : Char) (rest : CStr)
    (h : c ≠ '>' ∧ c ≠ '<' ∧ c ≠ '!' ∧ c ≠ '=') :
    spec_split (c :: rest) = (.SCMP_CMP_EQ, c :: rest) := by
  obtain ⟨h1, h2, h3, -⟩ := h
  simp [spec_split, prefix_table, h1, h2, h3, Ne.symm h1, Ne.symm h2, Ne.symm h3]

theorem well_formed_iff (P : Platform) (tok : CStr) :
    well_formed P tok ↔ (spec_decode P tok).isSome = true := by
  have e1 : "!".length = 1 := rfl
  have e2 : ">".length = 1 := rfl
  have e3 : "<".length = 1 := rfl
  have e4 : ">=".length = 2 := rfl
  have e5 : "<=".length = 2 := rfl
  constructor
  · rintro ⟨p, hp, r, rfl, hr⟩
    obtain ⟨c, rest, rfl, h1, h2, h3, h4⟩ := accepted_value_head P r hr
    have hsplit : (spec_split (p.toList ++ c :: rest)).2 = c :: rest := by
      simp only [List.mem_cons, List.mem_singleton, List.not_mem_nil, or_false] at hp
      rcases hp with rfl | rfl | rfl | rfl | rfl | rfl
      · rw [show "".toList ++ c :: rest = c :: rest from rfl,
          spec_split_no_prefix c rest ⟨h1, h2, h3, h4⟩]
      · simp [spec_split, prefix_table, e4]
      · simp [spec_split, prefix_table, e5]
      · simp [spec_split, prefix_table, e1]
      · simp [spec_split, prefix_table, e2, h4, Ne.symm h4]
      · simp [spec_split, prefix_table, e3, h4, Ne.symm h4]
    unfold spec_decode
    rw [hsplit]
    simpa using hr
  · intro h
    unfold spec_decode at h
    have hr : (number_of (read_number P (spec_split tok).2)).isSome = true := by
      simpa using h
    have hsp : ∃ p ∈ ["", ">=", "<=", "!", ">", "<"], tok = p.toList ++ (spec_split tok).2 := by
      unfold spec_split prefix_table
      match tok with
      | [] => exact ⟨"", by simp, by simp⟩
      | [c] =>
        by_cases c1 : c = '!'
        · subst c1; exact ⟨"!", by simp, by simp [e1]⟩
        · by_cases c2 : c = '>'
          · subst c2; exact ⟨">", by simp, by simp [e2]⟩
          · by_cases c3 : c = '<'
            · subst c3; exact ⟨"<", by simp, by simp [e3]⟩
            · exact ⟨"", by simp, by simp [c1, c2, c3, Ne.symm c1, Ne.symm c2, Ne.symm c3]⟩
      | c :: d :: rest =>
        by_cases c1 : c = '!'
        · subst c1; exact ⟨"!", by simp, by simp [e1]⟩
        · by_cases c2 : c = '>'
          · subst c2
            by_cases d1 : d = '='
            · subst d1; exact ⟨">=", by simp, by simp [e4]⟩
            · exact ⟨">", by simp, by simp [e2, d1, Ne.symm d1]⟩
          · by_cases c3 : c = '<'
            · subst c3
              by_cases d1 : d = '='
              · subst d1; exact ⟨"<=", by simp, by simp [e5]⟩
              · exact ⟨"<", by simp, by simp [e3, d1, Ne.symm d1]⟩
            · exact ⟨"", by simp, by simp [c1, c2, c3, Ne.symm c1, Ne.symm c2, Ne.symm c3]⟩
    obtain ⟨p, hp, htok⟩ := hsp
    exact ⟨p, hp, (spec_split tok).2, htok, hr⟩

/-! ## `parse_line` on well-formed lines -/

theorem spec_arg_cmp_eq_from (P : Platform) (args : List CStr) :
    spec_arg_cmp P args = spec_arg_cmp_from P 0 args := rfl

theorem spec_arg_cmp_from_cons_skip (P : Platform) (k : Nat) (args : List CStr) :
    spec_arg_cmp_from P k ("-".toList :: args) = spec_arg_cmp_from P (k + 1) args := by
  simp [spec_arg_cmp_from, List.enumFrom_cons]

theorem spec_arg_cmp_from_cons_some (P : Platform) (k : Nat) (a : CStr) (args : List CStr)
    (op : scmp_compare) (v : Nat) (ha : a ≠ "-".toList) (hd : spec_decode P a = some (op, v)) :
    spec_arg_cmp_from P k (a :: args) = ⟨(k : Int), op, v⟩ :: spec_arg_cmp_from P (k + 1) args := by
  simp only [spec_arg_cmp_from, List.enumFrom_cons, List.filterMap_cons, if_neg ha, hd,
    Option.map_some']

theorem parse_arg_of_result (P : Platform) (a : CStr) (op : scmp_compare) (v : Nat)
    (h : parse_arg_result P a = some (op, v)) : parse_arg P a = some (op, .ret (v, 0)) := by
  unfold parse_arg_result at h
  cases hp : parse_arg P a with
  | none => rw [hp] at h; cases h
  | some p =>
    obtain ⟨op1, r⟩ := p
    rw [hp] at h
    cases r with
    | die => simp [number_of] at h
    | ret ve =>
      obtain ⟨v1, e⟩ := ve
      by_cases he : e = 0
      · subst he
        simp [number_of] at h
        obtain ⟨rfl, rfl⟩ := h
        rfl
      · simp [number_of, he] at h

theorem parse_line_loop_ok (P : Platform) :
    ∀ (args : List CStr) (fuel k : Nat) (save : CStr) (sargs : seccomp_args),
      tokens save = args → k + args.length ≤ 6 → args.length < fuel →
      (∀ a ∈ args, a = "-".toList ∨ (spec_decode P a).isSome = true) →
      parse_line_loop P fuel ((k : Int) - 1) save sargs =
        some (.ret (.PARSE_OK,
          { sargs with
            arg_cmp := sargs.arg_cmp ++ spec_arg_cmp_from P k args,
            length := sargs.length + (spec_arg_cmp_from P k args).length })) := by
  intro args
  induction args with
  | nil =>
    intro fuel k save sargs ht hk hf _
    obtain ⟨fuel, rfl⟩ : ∃ n, fuel = n + 1 := ⟨fuel - 1, by simp at hf; omega⟩
    have hs : strtok_r save = none := (tokens_nil_iff save).mp ht
    have hpos : (k : Int) - 1 < (SC_ARGS_MAXLENGTH : Int) := by
      simp only [SC_ARGS_MAXLENGTH] at *; simp at hk; omega
    have hpos2 : ¬ ((k : Int) - 1 ≥ (SC_ARGS_MAXLENGTH : Int)) := by omega
    simp [parse_line_loop, hs, hpos, parse_line_end, hpos2, spec_arg_cmp_from]
  | cons a rest ih =>
    intro fuel k save sargs ht hk hf hwf
    obtain ⟨fuel, rfl⟩ : ∃ n, fuel = n + 1 := ⟨fuel - 1, by simp at hf; omega⟩
    obtain ⟨save1, hs, ht1⟩ := (tokens_cons_iff save a rest).mp ht
    have hpos : (k : Int) - 1 < (SC_ARGS_MAXLENGTH : Int) := by
      simp only [SC_ARGS_MAXLENGTH] at *; simp at hk; omega
    have hnext : (k : Int) - 1 + 1 = ((k + 1 : Nat) : Int) - 1 := by push_cast; ring
    simp only [List.length_cons] at hk hf
    have hrest := ih fuel (k + 1) save1
    rw [parse_line_loop, if_pos hpos]
    simp only [hs, hnext]
    by_cases ha : a = "-".toList
    · rw [if_pos ha, hrest sargs ht1 (by omega) (by omega)
        (fun b hb => hwf b (List.mem_cons_of_mem _ hb))]
      subst ha
      rw [spec_arg_cmp_from_cons_skip]
    · rw [if_neg ha]
      have hsome := (hwf a (List.mem_cons_self _ _)).resolve_left ha
      obtain ⟨⟨op, v⟩, hd⟩ := Option.isSome_iff_exists.mp hsome
      have hpa := parse_arg_of_result P a op v (by rw [parse_arg_result_eq_spec]; exact hd)
      simp only [hpa, ne_eq, not_true_eq_false, if_false]
      rw [hrest _ ht1 (by omega) (by omega) (fun b hb => hwf b (List.mem_cons_of_mem _ hb)),
        spec_arg_cmp_from_cons_some P k a rest op v ha hd]
      simp [Nat.add_assoc, Nat.add_comm]

theorem spec_decode_key (P : Platform) (s : CStr) (h : s ∈ sc_map_keys.map String.toList)
    (hs : spec_split s = (.SCMP_CMP_EQ, s)) :
    spec_decode P s = some (.SCMP_CMP_EQ, P.header_value s) := by
  unfold spec_decode
  rw [hs]
  simp only [read_number_key P s h, number_of, if_true, Option.map_some']

theorem parse_line_of_tokens (P : Platform) (line name : CStr) (args : List CStr)
    (htok : tokens line = name :: args)
    (hn : P.seccomp_syscall_resolve_name name ≠ NR_SCMP_ERROR)
    (hlen : args.length ≤ 6)
    (hwf : ∀ a ∈ args, a = "-".toList ∨ (spec_decode P a).isSome = true) :
    parse_line P line = some (.ret (.PARSE_OK,
      { syscall_nr := P.seccomp_syscall_resolve_name name,
        length := (spec_arg_cmp P args).length,
        arg_cmp := spec_arg_cmp P args })) := by
  obtain ⟨save, hs, ht⟩ := (tokens_cons_iff line name args).mp htok
  have hne : line.length ≠ 0 := by
    intro h
    have := strtok_r_length hs
    omega
  unfold parse_line
  simp only [hne, if_false, hs, hn]
  have := parse_line_loop_ok P args 8 0 save
    { syscall_nr := P.seccomp_syscall_resolve_name name, length := 0, arg_cmp := [] }
    ht (by omega) (by omega) hwf
  simp only [Nat.cast_zero, zero_sub, List.nil_append, Nat.zero_add] at this
  rw [this, spec_arg_cmp_eq_from]

/-- C1: a line whose first token resolves to a syscall number `n` and whose at most
six argument tokens are each `-` or a well-formed constraint (an operator
prefix or none, then a value `read_number` accepts) makes `parse_line`
return PARSE_OK with `syscall_nr = n` and with `arg_cmp[0..length)` holding, in
order, the (index, operator, value) triples of the tokens other than `-`, the
index counting every argument token. In particular `socket AF_INET SOCK_STREAM`
gives `[(0,EQ,AF_INET),(1,EQ,SOCK_STREAM)]` and `setpriority - - >=0` gives
`[(2,GE,0)]`. -/
theorem parse_line_well_formed (P : Platform) :
    (∀ (line name : CStr) (args : List CStr) (n : Int),
      tokens line = name :: args →
      P.seccomp_syscall_resolve_name name = n → n ≠ NR_SCMP_ERROR →
      args.length ≤ 6 →
      (∀ a ∈ args, a = "-".toList ∨ well_formed P a) →
      parse_line P line = some (.ret (.PARSE_OK,
        { syscall_nr := n, length := (spec_arg_cmp P args).length,
          arg_cmp := spec_arg_cmp P args }))) ∧
    (∀ n : Int, P.seccomp_syscall_resolve_name "socket".toList = n → n ≠ NR_SCMP_ERROR →
      parse_line P "socket AF_INET SOCK_STREAM".toList = some (.ret (.PARSE_OK,
        { syscall_nr := n, length := 2,
          arg_cmp := [⟨0, .SCMP_CMP_EQ, P.header_value "AF_INET".toList⟩,
                      ⟨1, .SCMP_CMP_EQ, P.header_value "SOCK_STREAM".toList⟩] }))) ∧
    (∀ n : Int, P.seccomp_syscall_resolve_name "setpriority".toList = n → n ≠ NR_SCMP_ERROR →
      parse_line P "setpriority - - >=0".toList = some (.ret (.PARSE_OK,
        { syscall_nr := n, length := 1, arg_cmp := [⟨2, .SCMP_CMP_GE, 0⟩] }))) := by
  refine ⟨?_, ?_, ?_⟩
  · intro line name args n htok hres hn hlen hwf
    subst hres
    exact parse_line_of_tokens P line name args htok hn hlen
      (fun a ha => (hwf a ha).imp id (well_formed_iff P a).mp)
  · intro n hres hn
    subst hres
    have d1 := spec_decode_key P "AF_INET".toList (by decide) (by decide)
    have d2 := spec_decode_key P "SOCK_STREAM".toList (by decide) (by decide)
    rw [parse_line_of_tokens P "socket AF_INET SOCK_STREAM".toList "socket".toList
      ["AF_INET".toList, "SOCK_STREAM".toList] (by decide) hn (by decide)
      (by intro a ha
          simp only [List.mem_cons, List.mem_singleton, List.not_mem_nil, or_false] at ha
          rcases ha with rfl | rfl
          · right; rw [d1]; rfl
          · right; rw [d2]; rfl)]
    have e : spec_arg_cmp P ["AF_INET".toList, "SOCK_STREAM".toList] =
        [⟨0, .SCMP_CMP_EQ, P.header_value "AF_INET".toList⟩,
         ⟨1, .SCMP_CMP_EQ, P.header_value "SOCK_STREAM".toList⟩] := by
      rw [spec_arg_cmp_eq_from,
        spec_arg_cmp_from_cons_some P 0 _ _ _ _ (by decide) d1,
        spec_arg_cmp_from_cons_some P 1 _ _ _ _ (by decide) d2]
      rfl
    rw [e]
    rfl
  · intro n hres hn
    subst hres
    have d : spec_decode P ">=0".toList = some (.SCMP_CMP_GE, 0) := by
      have hs : spec_split ">=0".toList = (.SCMP_CMP_GE, "0".toList) := by decide
      unfold spec_decode
      rw [hs, read_number_digits P "0".toList (by decide) (by decide)]
      have : decimal "0".toList = 0 := by decide
      rw [this, if_pos (Nat.zero_le _)]
      rfl
    rw [parse_line_of_tokens P "setpriority - - >=0".toList "setpriority".toList
      ["-".toList, "-".toList, ">=0".toList] (by decide) hn (by decide)
      (by intro a ha
          simp only [List.mem_cons, List.mem_singleton, List.not_mem_nil, or_false] at ha
          rcases ha with rfl | rfl | rfl
          · left; rfl
          · left; rfl
          · right; rw [d]; rfl)]
    have e : spec_arg_cmp P ["-".toList, "-".toList, ">=0".toList] =
        [⟨2, .SCMP_CMP_GE, 0⟩] := by
      rw [spec_arg_cmp_eq_from, spec_arg_cmp_from_cons_skip, spec_arg_cmp_from_cons_skip,
        spec_arg_cmp_from_cons_some P 2 _ _ _ _ (by decide) d]
      rfl
    rw [e]
    rfl

/-- Witness for C1 on the sample platform: the two lines of the claim, through the
general statement. -/
theorem parse_line_well_formed_witness :
    parse_line sample_platform "socket AF_INET SOCK_STREAM".toList =
        some (.ret (.PARSE_OK, ⟨41, 2, [⟨0, .SCMP_CMP_EQ, 2⟩, ⟨1, .SCMP_CMP_EQ, 1⟩]⟩)) ∧
    parse_line sample_platform "setpriority - - >=0".toList =
        some (.ret (.PARSE_OK, ⟨141, 1, [⟨2, .SCMP_CMP_GE, 0⟩]⟩)) := by
  have k1 := read_number_key sample_platform "AF_INET".toList (by decide)
  have k2 := read_number_key sample_platform "SOCK_STREAM".toList (by decide)
  have d1 := spec_decode_key sample_platform "AF_INET".toList (by decide) (by decide)
  have d2 := spec_decode_key sample_platform "SOCK_STREAM".toList (by decide) (by decide)
  have d3 : spec_decode sample_platform ">=0".toList = some (.SCMP_CMP_GE, 0) := by decide
  constructor
  · rw [(parse_line_well_formed sample_platform).1 "socket AF_INET SOCK_STREAM".toList
      "socket".toList ["AF_INET".toList, "SOCK_STREAM".toList] 41
      (by decide) (by decide) (by decide) (by decide)
      (by
        intro a ha
        simp only [List.mem_cons, List.mem_singleton, List.not_mem_nil, or_false] at ha
        rcases ha with rfl | rfl
        · exact Or.inr ⟨"", by decide, "AF_INET".toList, rfl, by rw [k1]; rfl⟩
        · exact Or.inr ⟨"", by decide, "SOCK_STREAM".toList, rfl, by rw [k2]; rfl⟩),
      spec_arg_cmp_eq_from,
      spec_arg_cmp_from_cons_some sample_platform 0 _ _ _ _ (by decide) d1,
      spec_arg_cmp_from_cons_some sample_platform 1 _ _ _ _ (by decide) d2]
    rfl
  · rw [(parse_line_well_formed sample_platform).1 "setpriority - - >=0".toList
      "setpriority".toList ["-".toList, "-".toList, ">=0".toList] 141
      (by decide) (by decide) (by decide) (by decide)
      (by
        intro a ha
        simp only [List.mem_cons, List.mem_singleton, List.not_mem_nil, or_false] at ha
        rcases ha with rfl | rfl | rfl
        · exact Or.inl rfl
        · exact Or.inl rfl
        · exact Or.inr ⟨">=", by decide, "0".toList, rfl, by decide⟩),
      spec_arg_cmp_eq_from, spec_arg_cmp_from_cons_skip, spec_arg_cmp_from_cons_skip,
      spec_arg_cmp_from_cons_some sample_platform 2 _ _ _ _ (by decide) d3]
    rfl

/-! ## `parse_line` is total: the loop never runs out of fuel -/

theorem parse_line_loop_eq_tokens (P : Platform) :
    ∀ (args : List CStr) (fuel k : Nat) (save : CStr) (sargs : seccomp_args),
      tokens save = args → k ≤ 7 → 8 ≤ fuel + k →
      parse_line_loop P fuel ((k : Int) - 1) save sargs = some (parse_tokens P k args sargs) := by
  intro args
  induction args with
  | nil =>
    intro fuel k save sargs ht hk hf
    obtain ⟨fuel, rfl⟩ : ∃ n, fuel = n + 1 := ⟨fuel - 1, by omega⟩
    have hs : strtok_r save = none := (tokens_nil_iff save).mp ht
    rw [parse_line_loop, parse_tokens]
    by_cases h7 : k ≥ 7
    · have hpos : ¬ ((k : Int) - 1 < (SC_ARGS_MAXLENGTH : Int)) := by
        simp only [SC_ARGS_MAXLENGTH]; push_cast; omega
      have hpos2 : (k : Int) - 1 ≥ (SC_ARGS_MAXLENGTH : Int) := by omega
      rw [if_neg hpos, if_pos h7, parse_line_end, if_pos hpos2]
    · have hpos : (k : Int) - 1 < (SC_ARGS_MAXLENGTH : Int) := by
        simp only [SC_ARGS_MAXLENGTH]; push_cast; omega
      have hpos2 : ¬ ((k : Int) - 1 ≥ (SC_ARGS_MAXLENGTH : Int)) := by omega
      rw [if_pos hpos, if_neg h7]
      simp only [hs, parse_line_end, if_neg hpos2]
  | cons a rest ih =>
    intro fuel k save sargs ht hk hf
    obtain ⟨fuel, rfl⟩ : ∃ n, fuel = n + 1 := ⟨fuel - 1, by omega⟩
    obtain ⟨save1, hs, ht1⟩ := (tokens_cons_iff save a rest).mp ht
    rw [parse_line_loop, parse_tokens]
    by_cases h7 : k ≥ 7
    · have hpos : ¬ ((k : Int) - 1 < (SC_ARGS_MAXLENGTH : Int)) := by
        simp only [SC_ARGS_MAXLENGTH]; push_cast; omega
      have hpos2 : (k : Int) - 1 ≥ (SC_ARGS_MAXLENGTH : Int) := by omega
      rw [if_neg hpos, if_pos h7, parse_line_end, if_pos hpos2]
    · have hpos : (k : Int) - 1 < (SC_ARGS_MAXLENGTH : Int) := by
        simp only [SC_ARGS_MAXLENGTH]; push_cast; omega
      have hnext : (k : Int) - 1 + 1 = ((k + 1 : Nat) : Int) - 1 := by push_cast; ring
      have hk1 : ((k + 1 : Nat) : Int) - 1 = (k : Int) := by push_cast; ring
      rw [if_pos hpos, if_neg h7]
      simp only [hs, hnext]
      by_cases ha : a = "-".toList
      · rw [if_pos ha, if_pos ha]
        exact ih fuel (k + 1) save1 sargs ht1 (by omega) (by omega)
      · rw [if_neg ha, if_neg ha]
        cases hp : parse_arg P a with
        | none => rfl
        | some p =>
          obtain ⟨op, r⟩ := p
          cases r with
          | die => rfl
          | ret ve =>
            obtain ⟨v, e⟩ := ve
            simp only
            by_cases he : e ≠ 0
            · rw [if_pos he, if_pos he]
            · rw [if_neg he, if_neg he, ih fuel (k + 1) save1 _ ht1 (by omega) (by omega), hk1]

/-- The statements of `parse_line` over the token list of the line. -/
theorem parse_line_eq_tokens (P : Platform) (line : CStr) :
    parse_line P line = some (
      match tokens line with
      | [] => .ret (.PARSE_ERROR, { syscall_nr := -1, length := 0, arg_cmp := [] })
      | name :: args =>
        if P.seccomp_syscall_resolve_name name = NR_SCMP_ERROR then
          .ret (.PARSE_INVALID_SYSCALL,
            { syscall_nr := P.seccomp_syscall_resolve_name name, length := 0, arg_cmp := [] })
        else parse_tokens P 0 args
          { syscall_nr := P.seccomp_syscall_resolve_name name, length := 0, arg_cmp := [] }) := by
  unfold parse_line
  cases ht : tokens line with
  | nil =>
    have hs := (tokens_nil_iff line).mp ht
    simp only [hs]
    split_ifs <;> rfl
  | cons name args =>
    obtain ⟨save, hs, ht1⟩ := (tokens_cons_iff line name args).mp ht
    have hne : line.length ≠ 0 := by
      intro h
      have := strtok_r_length hs
      omega
    simp only [hne, if_false, hs]
    split_ifs with h
    · rfl
    · have := parse_line_loop_eq_tokens P args 8 0 save
        { syscall_nr := P.seccomp_syscall_resolve_name name, length := 0, arg_cmp := [] }
        ht1 (by omega) (by omega)
      simpa using this

theorem parse_line_total (P : Platform) (line : CStr) : ∃ r, parse_line P line = some r :=
  ⟨_, parse_line_eq_tokens P line⟩

/-- C5: `read_number` (a) returns the base-10 value with `errno = 0` for a non-empty
all-digit string whose value fits `unsigned long`, (b) fails for an all-digit
string whose value does not fit, (c) for a string with a non-digit character
that does not start with `-` returns the table value when the string is a key
of the symbolic-constant table and fails otherwise, (d) fails for the empty
string and for every string starting with `-`. Failing means: `errno` is set
on return, or the process died inside `sc_map_search`. -/
theorem read_number_cases (P : Platform) (s : CStr) :
    (s ≠ [] → s.all isdigit = true → decimal s ≤ P.ULONG_MAX →
      read_number P s = .ret (decimal s, 0)) ∧
    (s ≠ [] → s.all isdigit = true → P.ULONG_MAX < decimal s →
      number_of (read_number P s) = none) ∧
    (s.all isdigit = false → s.head? ≠ some '-' →
      (s ∈ sc_map_keys.map String.toList → read_number P s = .ret (P.header_value s, 0)) ∧
      (s ∉ sc_map_keys.map String.toList → number_of (read_number P s) = none)) ∧
    ((s = [] ∨ s.head? = some '-') → number_of (read_number P s) = none) := by
  refine ⟨?_, ?_, ?_, ?_⟩
  · intro hne hd hle
    rw [read_number_digits P s hne hd, if_pos hle]
  · intro hne hd hgt
    rw [read_number_digits P s hne hd, if_neg (by omega)]
    rfl
  · intro hd hm
    have hd1 : ¬ s.all isdigit = true := by rw [hd]; exact Bool.false_ne_true
    refine ⟨fun hk => read_number_key P s hk, fun hk => ?_⟩
    rw [read_number_symbol P s hd1 hm]
    exact sc_map_search_miss P s hk
  · intro h
    rw [read_number_reject P s h]
    rfl

/-- Witness for C5 on the sample platform, one string per case. -/
theorem read_number_cases_witness :
    read_number sample_platform "42".toList = .ret (42, 0) ∧
    number_of (read_number sample_platform "18446744073709551616".toList) = none ∧
    read_number sample_platform "AF_INET6".toList = .ret (10, 0) ∧
    number_of (read_number sample_platform "AF_BOGUS".toList) = none ∧
    number_of (read_number sample_platform "-5".toList) = none :=
  ⟨(read_number_cases sample_platform "42".toList).1 (by decide) (by decide) (by decide),
   (read_number_cases sample_platform "18446744073709551616".toList).2.1
     (by decide) (by decide) (by decide),
   ((read_number_cases sample_platform "AF_INET6".toList).2.2.1 (by decide) (by decide)).1
     (by decide),
   ((read_number_cases sample_platform "AF_BOGUS".toList).2.2.1 (by decide) (by decide)).2
     (by decide),
   (read_number_cases sample_platform "-5".toList).2.2.2 (Or.inr (by decide))⟩

theorem parse_tokens_single (P : Platform) (tok : CStr) (n : Int) (htok : tok ≠ "-".toList) :
    (∀ op v, spec_decode P tok = some (op, v) →
      parse_tokens P 0 [tok] { syscall_nr := n, length := 0, arg_cmp := [] } =
        .ret (.PARSE_OK, { syscall_nr := n, length := 1, arg_cmp := [⟨0, op, v⟩] })) ∧
    (spec_decode P tok = none →
      parse_tokens P 0 [tok] { syscall_nr := n, length := 0, arg_cmp := [] } = .die ∨
      parse_tokens P 0 [tok] { syscall_nr := n, length := 0, arg_cmp := [] } =
        .ret (.PARSE_ERROR, { syscall_nr := n, length := 0, arg_cmp := [] })) := by
  constructor
  · intro op v hd
    have hpa := parse_arg_of_result P tok op v (by rw [parse_arg_result_eq_spec]; exact hd)
    have htok1 : ¬ tok = ['-'] := htok
    simp [parse_tokens, htok1, hpa]
  · intro hd
    rw [← parse_arg_result_eq_spec] at hd
    unfold parse_arg_result at hd
    simp only [parse_tokens, if_neg htok]
    cases hp : parse_arg P tok with
    | none => right; simp
    | some p =>
      obtain ⟨op, r⟩ := p
      cases r with
      | die => left; simp
      | ret ve =>
        obtain ⟨v, e⟩ := ve
        rw [hp] at hd
        have he : e ≠ 0 := by
          intro he
          simp [number_of, he] at hd
        right
        simp [he]

/-- C6: for every argument token, the constraint `parse_line` decodes is the one the
prefix table gives when applied longest prefix first (`>=` GE, `<=` LE, `!` NE,
`>` GT, `<` LT, none EQ) with the value `read_number` reads from the rest of the
token, and the token is rejected exactly when `read_number` rejects that rest.
A line with one argument token other than `-` is parsed accordingly, and
`>=5` decodes to (GE, 5). -/
theorem parse_arg_longest_prefix_first (P : Platform) :
    (∀ tok : CStr, parse_arg_result P tok = spec_decode P tok) ∧
    (∀ tok : CStr, parse_arg_result P tok = none ↔
      number_of (read_number P (spec_split tok).2) = none) ∧
    (∀ (line name tok : CStr) (n : Int), tokens line = [name, tok] → tok ≠ "-".toList →
      P.seccomp_syscall_resolve_name name = n → n ≠ NR_SCMP_ERROR →
      (∀ op v, spec_decode P tok = some (op, v) →
        parse_line P line = some (.ret (.PARSE_OK,
          { syscall_nr := n, length := 1, arg_cmp := [⟨0, op, v⟩] }))) ∧
      (spec_decode P tok = none →
        parse_line P line = some .die ∨
        parse_line P line = some (.ret (.PARSE_ERROR,
          { syscall_nr := n, length := 0, arg_cmp := [] })))) ∧
    (5 ≤ P.ULONG_MAX → parse_arg_result P ">=5".toList = some (.SCMP_CMP_GE, 5)) := by
  refine ⟨parse_arg_result_eq_spec P, ?_, ?_, ?_⟩
  · intro tok
    rw [parse_arg_result_eq_spec]
    unfold spec_decode
    simp
  · intro line name tok n ht htok hres hn
    subst hres
    have hpl := parse_line_eq_tokens P line
    rw [ht] at hpl
    simp only [if_neg hn] at hpl
    rw [hpl]
    obtain ⟨h1, h2⟩ := parse_tokens_single P tok (P.seccomp_syscall_resolve_name name) htok
    refine ⟨fun op v hd => by rw [h1 op v hd], fun hd => ?_⟩
    rcases h2 hd with h | h
    · left; rw [h]
    · right; rw [h]
  · intro h5
    rw [parse_arg_result_eq_spec]
    have hs : spec_split ">=5".toList = (.SCMP_CMP_GE, "5".toList) := by decide
    unfold spec_decode
    rw [hs, read_number_digits P "5".toList (by decide) (by decide)]
    have : decimal "5".toList = 5 := by decide
    rw [this, if_pos h5]
    rfl

/-- Witness for C6 on the sample platform: `read >=5` stores (0, GE, 5), and `read >`
is rejected. -/
theorem parse_arg_longest_prefix_first_witness :
    parse_line sample_platform "read >=5".toList =
      some (.ret (.PARSE_OK, ⟨0, 1, [⟨0, .SCMP_CMP_GE, 5⟩]⟩)) ∧
    parse_arg_result sample_platform ">".toList = none ∧
    parse_arg_result sample_platform ">=5".toList = some (.SCMP_CMP_GE, 5) :=
  ⟨((parse_arg_longest_prefix_first sample_platform).2.2.1 "read >=5".toList "read".toList
      ">=5".toList 0 (by decide) (by decide) (by decide) (by decide)).1
      .SCMP_CMP_GE 5 (by decide),
   ((parse_arg_longest_prefix_first sample_platform).2.1 ">".toList).mpr (by decide),
   (parse_arg_longest_prefix_first sample_platform).2.2.2 (by decide)⟩

/-! ## Reading the profile: `fgets` and the two loops -/

theorem fgets_bytes_append : ∀ (n : Nat) (f : List Char),
    (fgets_bytes n f).1 ++ (fgets_bytes n f).2 = f := by
  intro n
  induction n with
  | zero => intro f; rfl
  | succ n ih =>
    intro f
    cases f with
    | nil => rfl
    | cons c f =>
      rw [fgets_bytes]
      split_ifs with h
      · rfl
      · simp [ih f]

theorem fgets_bytes_ne_nil (n : Nat) (c : Char) (f : List Char) :
    (fgets_bytes (n + 1) (c :: f)).1 ≠ [] := by
  rw [fgets_bytes]
  split_ifs <;> simp

theorem fgets_length {f rest : List Char} {buf : CStr}
    (h : fgets SC_MAX_LINE_LENGTH f = some (buf, rest)) : rest.length < f.length := by
  unfold fgets at h
  cases f with
  | nil => simp at h
  | cons c f =>
    simp only [reduceCtorEq, if_false, Option.some.injEq, Prod.mk.injEq] at h
    obtain ⟨-, rfl⟩ := h
    have h1 := fgets_bytes_append (SC_MAX_LINE_LENGTH - 1) (c :: f)
    have h2 := fgets_bytes_ne_nil 80 c f
    have h3 : SC_MAX_LINE_LENGTH - 1 = 80 + 1 := rfl
    rw [h3] at h1 ⊢
    have h4 := congrArg List.length h1
    rw [List.length_append] at h4
    have h5 : 0 < (fgets_bytes (80 + 1) (c :: f)).1.length := List.length_pos.mpr h2
    omega

theorem read_all_fuel_stable : ∀ (n m : Nat) (f : List Char), f.length < n → f.length < m →
    read_all_fuel n f = read_all_fuel m f := by
  intro n
  induction n with
  | zero => intro m f h; omega
  | succ n ih =>
    intro m f hn hm
    cases m with
    | zero => omega
    | succ m =>
      rw [read_all_fuel, read_all_fuel]
      cases hs : fgets SC_MAX_LINE_LENGTH f with
      | none => rfl
      | some p =>
        obtain ⟨buf, r⟩ := p
        have := fgets_length hs
        simp only
        rw [ih m r (by omega) (by omega)]

theorem read_all_eq (f : List Char) :
    read_all f = match fgets SC_MAX_LINE_LENGTH f with
      | none => []
      | some (buf, rest) => buf :: read_all rest := by
  cases hs : fgets SC_MAX_LINE_LENGTH f with
  | none => simp [read_all, read_all_fuel, hs]
  | some p =>
    obtain ⟨buf, r⟩ := p
    have := fgets_length hs
    show read_all_fuel (f.length + 1) f = buf :: read_all_fuel (r.length + 1) r
    rw [read_all_fuel, hs]
    simp only
    rw [read_all_fuel_stable f.length (r.length + 1) r (by omega) (by omega)]

theorem preprocess_loop_eq_bufs : ∀ (fuel : Nat) (f : List Char) (p : preprocess),
    f.length < fuel → preprocess_loop fuel f p = some (preprocess_bufs (read_all f) p) := by
  intro fuel
  induction fuel with
  | zero => intro f p h; omega
  | succ fuel ih =>
    intro f p hf
    rw [preprocess_loop, read_all_eq]
    cases hs : fgets SC_MAX_LINE_LENGTH f with
    | none => rfl
    | some q =>
      obtain ⟨buf, r⟩ := q
      have := fgets_length hs
      simp only [preprocess_bufs]
      cases validate_and_trim_line buf SC_MAX_LINE_LENGTH with
      | die => rfl
      | ret bl =>
        obtain ⟨b, len⟩ := bl
        simp only
        split_ifs <;> exact ih r _ (by omega)

theorem load_loop_eq_bufs (P : Platform) : ∀ (fuel : Nat) (f : List Char) (run : LoadRun),
    f.length < fuel → load_loop P fuel f run = load_bufs P (read_all f) run := by
  intro fuel
  induction fuel with
  | zero => intro f p h; omega
  | succ fuel ih =>
    intro f run hf
    rw [load_loop, read_all_eq]
    cases hs : fgets SC_MAX_LINE_LENGTH f with
    | none => rfl
    | some q =>
      obtain ⟨buf, r⟩ := q
      have := fgets_length hs
      simp only [load_bufs]
      cases validate_and_trim_line buf SC_MAX_LINE_LENGTH with
      | die => rfl
      | ret bl =>
        obtain ⟨b, len⟩ := bl
        simp only
        split_ifs with h0
        · exact ih r _ (by omega)
        · cases parse_line P b with
          | none => rfl
          | some res =>
            cases res with
            | die => rfl
            | ret rs =>
              obtain ⟨rc, sargs⟩ := rs
              simp only
              split_ifs <;> first | rfl | exact ih r _ (by omega)

/-! ## Lines of the file and the buffers `fgets` returns -/

theorem file_lines_terminated : ∀ (body rest : List Char), '\n' ∉ body →
    file_lines (body ++ '\n' :: rest) = (body ++ ['\n']) :: file_lines rest := by
  intro body
  induction body with
  | nil => intro rest _; simp [file_lines]
  | cons c body ih =>
    intro rest h
    simp only [List.mem_cons, not_or] at h
    have hc : c ≠ '\n' := fun e => h.1 e.symm
    rw [List.cons_append, file_lines, if_neg hc, ih rest h.2]
    rfl

theorem file_lines_unterminated : ∀ (body : List Char), '\n' ∉ body → body ≠ [] →
    file_lines body = [body] := by
  intro body
  induction body with
  | nil => intro _ h; exact absurd rfl h
  | cons c body ih =>
    intro h _
    simp only [List.mem_cons, not_or] at h
    have hc : c ≠ '\n' := fun e => h.1 e.symm
    cases body with
    | nil => simp [file_lines, hc]
    | cons d body =>
      simp only [file_lines, if_neg hc]
      have := ih h.2 (by simp)
      simp only [file_lines] at this
      rw [this]

/-- Every file is empty, or starts with a terminated line, or is one unterminated line. -/
theorem file_split (f : List Char) :
    f = [] ∨ (∃ body rest, '\n' ∉ body ∧ f = body ++ '\n' :: rest) ∨ ('\n' ∉ f ∧ f ≠ []) := by
  induction f with
  | nil => left; rfl
  | cons c f ih =>
    right
    by_cases hc : c = '\n'
    · left; exact ⟨[], f, by simp, by simp [hc]⟩
    · rcases ih with rfl | ⟨body, rest, hb, rfl⟩ | ⟨hn, _⟩
      · right; exact ⟨by simpa using Ne.symm hc, by simp⟩
      · left
        refine ⟨c :: body, rest, ?_, by simp⟩
        simp only [List.mem_cons, not_or]
        exact ⟨Ne.symm hc, hb⟩
      · right
        refine ⟨?_, by simp⟩
        simp only [List.mem_cons, not_or]
        exact ⟨Ne.symm hc, hn⟩

theorem line_start_snoc (body pre : List Char) (h : line_start pre) :
    line_start (body ++ '\n' :: pre) := by
  right
  rcases h with rfl | ⟨q, rfl⟩
  · exact ⟨body, rfl⟩
  · exact ⟨body ++ '\n' :: q, by simp⟩

/-- A line of the file sits at a line start, has its only newline at its end, and
is followed by nothing when it is unterminated. -/
theorem mem_file_lines : ∀ (n : Nat) (f l : List Char), f.length ≤ n → l ∈ file_lines f →
    ∃ pre post, f = pre ++ l ++ post ∧ line_start pre ∧
      ((∃ body, '\n' ∉ body ∧ l = body ++ ['\n']) ∨ ('\n' ∉ l ∧ l ≠ [] ∧ post = [])) := by
  intro n
  induction n with
  | zero =>
    intro f l hf hl
    have : f = [] := List.length_eq_zero.mp (by omega)
    subst this
    simp [file_lines] at hl
  | succ n ih =>
    intro f l hf hl
    rcases file_split f with rfl | ⟨body, rest, hb, rfl⟩ | ⟨hn, hne⟩
    · simp [file_lines] at hl
    · rw [file_lines_terminated body rest hb, List.mem_cons] at hl
      rcases hl with rfl | hl
      · exact ⟨[], rest, by simp, Or.inl rfl, Or.inl ⟨body, hb, rfl⟩⟩
      · have hlen : rest.length ≤ n := by
          simp only [List.length_append, List.length_cons] at hf; omega
        obtain ⟨pre, post, rfl, hpre, hshape⟩ := ih rest l hlen hl
        exact ⟨body ++ '\n' :: pre, post, by simp, line_start_snoc body pre hpre, hshape⟩
    · rw [file_lines_unterminated f hn hne, List.mem_singleton] at hl
      subst hl
      exact ⟨[], [], by simp, Or.inl rfl, Or.inr ⟨hn, hne, rfl⟩⟩

theorem fgets_bytes_line_start : ∀ (n : Nat) (pre rest : List Char), (∃ q, pre = q ++ ['\n']) →
    fgets_bytes n (pre ++ rest) = ((fgets_bytes n pre).1, (fgets_bytes n pre).2 ++ rest) ∧
    line_start (fgets_bytes n pre).2 := by
  intro n
  induction n with
  | zero => intro pre rest h; exact ⟨rfl, Or.inr h⟩
  | succ n ih =>
    intro pre rest h
    cases pre with
    | nil =>
      obtain ⟨q, hq⟩ := h
      simp at hq
    | cons c pre =>
      obtain ⟨q, hq⟩ := h
      rw [List.cons_append, fgets_bytes, fgets_bytes]
      split_ifs with hc
      · refine ⟨rfl, ?_⟩
        cases q with
        | nil => simp at hq; left; exact hq.2
        | cons d q =>
          simp only [List.cons_append, List.cons.injEq] at hq
          exact Or.inr ⟨q, hq.2⟩
      · cases q with
        | nil => simp at hq; exact absurd hq.1 hc
        | cons d q =>
          simp only [List.cons_append, List.cons.injEq] at hq
          obtain ⟨h1, h2⟩ := ih pre rest ⟨q, hq.2⟩
          rw [h1]
          exact ⟨rfl, h2⟩

theorem read_all_nil : read_all [] = [] := rfl

theorem read_all_cons (c : Char) (f : List Char) :
    read_all (c :: f) = cstr (fgets_bytes 81 (c :: f)).1 :: read_all (fgets_bytes 81 (c :: f)).2 := by
  rw [read_all_eq]
  rfl

theorem read_all_append : ∀ (n : Nat) (pre rest : List Char), pre.length ≤ n → line_start pre →
    read_all (pre ++ rest) = read_all pre ++ read_all rest := by
  intro n
  induction n with
  | zero =>
    intro pre rest hn _
    have : pre = [] := List.length_eq_zero.mp (by omega)
    subst this
    simp [read_all_nil]
  | succ n ih =>
    intro pre rest hn hpre
    rcases hpre with rfl | ⟨q, hq⟩
    · simp [read_all_nil]
    · cases pre with
      | nil => simp [read_all_nil]
      | cons c pre =>
        obtain ⟨h1, h2⟩ := fgets_bytes_line_start 81 (c :: pre) rest ⟨q, hq⟩
        have h3 := fgets_bytes_append 81 (c :: pre)
        have h4 : (fgets_bytes 81 (c :: pre)).1 ≠ [] := fgets_bytes_ne_nil 80 c pre
        have h5 : (fgets_bytes 81 (c :: pre)).2.length ≤ n := by
          have := congrArg List.length h3
          rw [List.length_append] at this
          have h6 : 0 < (fgets_bytes 81 (c :: pre)).1.length := List.length_pos.mpr h4
          simp only [List.length_cons] at this hn
          omega
        rw [List.cons_append, read_all_cons, read_all_cons, ← List.cons_append, h1]
        simp only [List.cons_append]
        rw [ih _ rest h5 h2]

theorem fgets_bytes_terminated : ∀ (n : Nat) (body rest : List Char), '\n' ∉ body →
    body.length < n → fgets_bytes n (body ++ '\n' :: rest) = (body ++ ['\n'], rest) := by
  intro n
  induction n with
  | zero => intro body rest _ h; omega
  | succ n ih =>
    intro body rest hb hlen
    cases body with
    | nil => simp [fgets_bytes]
    | cons c body =>
      simp only [List.mem_cons, not_or] at hb
      have hc : c ≠ '\n' := fun e => hb.1 e.symm
      simp only [List.length_cons] at hlen
      rw [List.cons_append, fgets_bytes, if_neg hc, ih body rest hb.2 (by omega)]
      rfl

theorem fgets_bytes_long : ∀ (n : Nat) (body rest : List Char), '\n' ∉ body →
    n ≤ body.length → fgets_bytes n (body ++ rest) = (body.take n, body.drop n ++ rest) := by
  intro n
  induction n with
  | zero => intro body rest _ _; rfl
  | succ n ih =>
    intro body rest hb hlen
    cases body with
    | nil => simp at hlen
    | cons c body =>
      simp only [List.mem_cons, not_or] at hb
      have hc : c ≠ '\n' := fun e => hb.1 e.symm
      simp only [List.length_cons] at hlen
      rw [List.cons_append, fgets_bytes, if_neg hc, ih body rest hb.2 (by omega)]
      rfl

theorem fgets_bytes_unterminated (n : Nat) (body : List Char) (hb : '\n' ∉ body)
    (hlen : body.length ≤ n) : fgets_bytes n body = (body, []) := by
  have h1 : ∀ (m : Nat) (b : List Char), '\n' ∉ b → b.length ≤ m →
      fgets_bytes m b = (b, []) := by
    intro m
    induction m with
    | zero =>
      intro b _ hl
      have : b = [] := List.length_eq_zero.mp (by omega)
      subst this; rfl
    | succ m ih =>
      intro b hb hl
      cases b with
      | nil => rfl
      | cons c b =>
        simp only [List.mem_cons, not_or] at hb
        have hc : c ≠ '\n' := fun e => hb.1 e.symm
        simp only [List.length_cons] at hl
        rw [fgets_bytes, if_neg hc, ih b hb.2 (by omega)]
  exact h1 n body hb hlen

/-- The first buffer read at the start of a line of at most 81 bytes is that line. -/
theorem read_all_short_line (l post : List Char)
    (hshape : (∃ body, '\n' ∉ body ∧ l = body ++ ['\n']) ∨ ('\n' ∉ l ∧ l ≠ [] ∧ post = []))
    (hlen : l.length ≤ 81) : read_all (l ++ post) = cstr l :: read_all post := by
  rcases hshape with ⟨body, hb, rfl⟩ | ⟨hn, hne, rfl⟩
  · have hlen1 : body.length < 81 := by
      simp only [List.length_append, List.length_singleton] at hlen; omega
    have h := fgets_bytes_terminated 81 body post hb hlen1
    have e : body ++ ['\n'] ++ post = body ++ '\n' :: post := by simp
    rw [e]
    cases hbp : body ++ '\n' :: post with
    | nil => simp at hbp
    | cons c f =>
      rw [read_all_cons, ← hbp, h]
  · cases l with
    | nil => exact absurd rfl hne
    | cons c l =>
      rw [List.append_nil, read_all_cons, fgets_bytes_unterminated 81 (c :: l) hn hlen]

/-- The first buffer read at the start of a line of more than 81 bytes is its first
81 bytes, none of them a newline. -/
theorem read_all_long_line (l post : List Char)
    (hshape : (∃ body, '\n' ∉ body ∧ l = body ++ ['\n']) ∨ ('\n' ∉ l ∧ l ≠ [] ∧ post = []))
    (hlen : 81 < l.length) :
    read_all (l ++ post) = cstr (l.take 81) :: read_all (l.drop 81 ++ post) ∧
    '\n' ∉ l.take 81 := by
  rcases hshape with ⟨body, hb, rfl⟩ | ⟨hn, hne, rfl⟩
  · have hlen1 : 81 ≤ body.length := by
      simp only [List.length_append, List.length_singleton] at hlen; omega
    have h := fgets_bytes_long 81 body ('\n' :: post) hb hlen1
    have e : body ++ ['\n'] ++ post = body ++ '\n' :: post := by simp
    have e1 : (body ++ ['\n']).take 81 = body.take 81 := List.take_append_of_le_length hlen1
    have e2 : (body ++ ['\n']).drop 81 = body.drop 81 ++ ['\n'] :=
      List.drop_append_of_le_length hlen1
    rw [e, e1, e2]
    constructor
    · cases hbp : body ++ '\n' :: post with
      | nil => simp at hbp
      | cons c f =>
        rw [read_all_cons, ← hbp, h]
        simp
    · exact fun hm => hb (List.mem_of_mem_take hm)
  · have h := fgets_bytes_long 81 l [] hn (by omega)
    simp only [List.append_nil] at h ⊢
    constructor
    · cases l with
      | nil => exact absurd rfl hne
      | cons c l => rw [read_all_cons, h]
    · exact fun hm => hn (List.mem_of_mem_take hm)

theorem cstr_mem_read_all (f l : List Char) (hl : l ∈ file_lines f) (hlen : l.length ≤ 81) :
    cstr l ∈ read_all f := by
  obtain ⟨pre, post, rfl, hpre, hshape⟩ := mem_file_lines f.length f l le_rfl hl
  rw [List.append_assoc, read_all_append pre.length pre _ le_rfl hpre,
    read_all_short_line l post hshape hlen]
  simp

theorem cstr_take_mem_read_all (f l : List Char) (hl : l ∈ file_lines f) (hlen : 81 < l.length) :
    cstr (l.take 81) ∈ read_all f ∧ '\n' ∉ l.take 81 := by
  obtain ⟨pre, post, rfl, hpre, hshape⟩ := mem_file_lines f.length f l le_rfl hl
  obtain ⟨h1, h2⟩ := read_all_long_line l post hshape hlen
  rw [List.append_assoc, read_all_append pre.length pre _ le_rfl hpre, h1]
  exact ⟨by simp, h2⟩

/-! ## `trim_right` and `validate_and_trim_line` -/

theorem cstr_eq_self (l : List Char) (h : '\x00' ∉ l) : cstr l = l := by
  unfold cstr
  apply takeWhile_all
  rw [List.all_eq_true]
  intro c hc
  have : c ≠ '\x00' := fun e => h (e ▸ hc)
  simpa using this

theorem trim_right_eq : ∀ (n : Nat) (s : CStr), s.length = n →
    trim_right s n = (s.rdropWhile isspace, (s.rdropWhile isspace).length) := by
  intro n
  induction n with
  | zero =>
    intro s hs
    have : s = [] := List.length_eq_zero.mp hs
    subst this
    rfl
  | succ n ih =>
    intro s hs
    have hne : s ≠ [] := by intro h; subst h; simp at hs
    obtain ⟨init, last, rfl⟩ : ∃ init last, s = init ++ [last] :=
      ⟨s.dropLast, s.getLast hne, (List.dropLast_append_getLast hne).symm⟩
    have hinit : init.length = n := by simpa using hs
    have hget : (init ++ [last]).getD n '\x00' = last := by
      rw [← hinit]; simp [List.getD_eq_getElem?_getD]
    have htake : (init ++ [last]).take n = init := by
      rw [← hinit]; simp
    rw [trim_right, hget, htake, List.rdropWhile_concat]
    split_ifs with h
    · exact ih init hinit
    · simp [hinit]

theorem rdropWhile_suffix {α : Type} (p : α → Bool) (l : List α) :
    ∃ ws, l = l.rdropWhile p ++ ws ∧ ∀ c ∈ ws, p c = true := by
  induction l using List.reverseRecOn with
  | nil => exact ⟨[], by simp, by simp⟩
  | append_singleton init last ih =>
    rw [List.rdropWhile_concat]
    split_ifs with h
    · obtain ⟨ws, h1, h2⟩ := ih
      refine ⟨ws ++ [last], ?_, ?_⟩
      · rw [← List.append_assoc, ← h1]
      · intro c hc
        rcases List.mem_append.mp hc with hc | hc
        · exact h2 c hc
        · simp at hc; subst hc; exact h
    · exact ⟨[], by simp, by simp⟩

/-- A line that strips to a directive has no NUL, does not start with `#` and is
not empty. -/
theorem directive_line_facts (l d : CStr) (hd : d = "@unrestricted".toList ∨ d = "@complain".toList)
    (h : (trim_right l l.length).1 = d) :
    '\x00' ∉ l ∧ l.head? = some '@' ∧ (trim_right l l.length) = (d, d.length) := by
  rw [trim_right_eq l.length l rfl] at h ⊢
  simp only at h
  obtain ⟨ws, h1, h2⟩ := rdropWhile_suffix isspace l
  rw [h] at h1 ⊢
  refine ⟨?_, ?_, rfl⟩
  · rw [h1]
    intro hm
    rcases List.mem_append.mp hm with hm | hm
    · rcases hd with rfl | rfl <;> revert hm <;> decide
    · exact absurd (h2 _ hm) (by decide)
  · rw [h1]
    rcases hd with rfl | rfl <;> rfl

theorem validate_not_die (buf : CStr) (h : validate_and_trim_line buf SC_MAX_LINE_LENGTH ≠ .die)
    (hc : buf.head? ≠ some '#') :
    validate_and_trim_line buf SC_MAX_LINE_LENGTH = .ret (trim_right buf buf.length) := by
  unfold validate_and_trim_line at h ⊢
  rw [if_neg hc] at h ⊢
  simp only at h ⊢
  split_ifs at h ⊢ with h1 h2
  · have : buf = [] := List.length_eq_zero.mp h1
    subst this; rfl
  · exact absurd rfl h
  · rfl

/-- A buffer filled to 81 bytes without a newline that is not a comment is fatal. -/
theorem validate_full_buffer (buf : CStr) (hlen : buf.length = 81) (hn : '\n' ∉ buf)
    (hc : buf.head? ≠ some '#') : validate_and_trim_line buf SC_MAX_LINE_LENGTH = .die := by
  unfold validate_and_trim_line
  rw [if_neg hc]
  have h1 : buf.getD (buf.length - 1) '\x00' ≠ '\n' := by
    rw [List.getD_eq_getElem?_getD, List.getElem?_eq_getElem (by omega)]
    intro h
    apply hn
    simp only [Option.getD_some] at h
    rw [← h]
    exact List.getElem_mem _
  simp only [hlen, SC_MAX_LINE_LENGTH] at h1 ⊢
  rw [if_neg (by decide), if_pos ⟨h1, by decide⟩]

/-! ## The directive scan -/

theorem preprocess_bufs_ret : ∀ (bufs : List CStr) (p p1 : preprocess),
    preprocess_bufs bufs p = .ret p1 →
    (p.unrestricted = true → p1.unrestricted = true) ∧
    (p.complain = true → p1.complain = true) ∧
    (∀ buf ∈ bufs, validate_and_trim_line buf SC_MAX_LINE_LENGTH ≠ .die) ∧
    (∀ buf ∈ bufs, ∀ b len, validate_and_trim_line buf SC_MAX_LINE_LENGTH = .ret (b, len) →
      len ≠ 0 → (b = "@unrestricted".toList → p1.unrestricted = true) ∧
                (b = "@complain".toList → p1.complain = true)) := by
  intro bufs
  induction bufs with
  | nil =>
    intro p p1 h
    simp only [preprocess_bufs, Res.ret.injEq] at h
    subst h
    simp
  | cons buf bufs ih =>
    intro p p1 h
    rw [preprocess_bufs] at h
    cases hv : validate_and_trim_line buf SC_MAX_LINE_LENGTH with
    | die => rw [hv] at h; cases h
    | ret bl =>
      obtain ⟨b, len⟩ := bl
      rw [hv] at h
      simp only at h
      by_cases h0 : len = 0
      · rw [if_pos h0] at h
        obtain ⟨i1, i2, i3, i4⟩ := ih p p1 h
        refine ⟨i1, i2, ?_, ?_⟩
        · intro x hx
          rcases List.mem_cons.mp hx with rfl | hx
          · rw [hv]; exact fun e => by cases e
          · exact i3 x hx
        · intro x hx b1 len1 hv1 hl1
          rcases List.mem_cons.mp hx with rfl | hx
          · rw [hv] at hv1
            simp only [Res.ret.injEq, Prod.mk.injEq] at hv1
            exact absurd (hv1.2 ▸ h0) hl1
          · exact i4 x hx b1 len1 hv1 hl1
      · rw [if_neg h0] at h
        obtain ⟨i1, i2, i3, i4⟩ := ih _ p1 h
        refine ⟨?_, ?_, ?_, ?_⟩
        · intro hp
          apply i1
          split_ifs <;> simp [hp]
        · intro hp
          apply i2
          split_ifs <;> simp [hp]
        · intro x hx
          rcases List.mem_cons.mp hx with rfl | hx
          · rw [hv]; exact fun e => by cases e
          · exact i3 x hx
        · intro x hx b1 len1 hv1 hl1
          rcases List.mem_cons.mp hx with rfl | hx
          · rw [hv] at hv1
            simp only [Res.ret.injEq, Prod.mk.injEq] at hv1
            obtain ⟨rfl, rfl⟩ := hv1
            constructor
            · intro hb
              apply i1
              rw [if_pos hb]
              split_ifs <;> rfl
            · intro hb
              apply i2
              rw [if_pos hb]
          · exact i4 x hx b1 len1 hv1 hl1

theorem preprocess_bufs_no_die : ∀ (bufs : List CStr) (p : preprocess),
    (∀ buf ∈ bufs, validate_and_trim_line buf SC_MAX_LINE_LENGTH ≠ .die) →
    ∃ p1, preprocess_bufs bufs p = .ret p1 := by
  intro bufs
  induction bufs with
  | nil => intro p _; exact ⟨p, rfl⟩
  | cons buf bufs ih =>
    intro p h
    rw [preprocess_bufs]
    cases hv : validate_and_trim_line buf SC_MAX_LINE_LENGTH with
    | die => exact absurd hv (h buf (List.mem_cons_self _ _))
    | ret bl =>
      obtain ⟨b, len⟩ := bl
      simp only
      split_ifs <;> exact ih _ (fun x hx => h x (List.mem_cons_of_mem _ hx))

theorem head?_take_succ {α : Type} (l : List α) (n : Nat) : (l.take (n + 1)).head? = l.head? := by
  cases l <;> rfl

/-- When the directive scan completes, a line that strips to a directive has set
its flag. -/
theorem directive_line_sets_flag (f l : List Char) (p p1 : preprocess)
    (hl : l ∈ file_lines f) (hp : preprocess_bufs (read_all f) p = .ret p1) :
    ((trim_right l l.length).1 = "@unrestricted".toList → p1.unrestricted = true) ∧
    ((trim_right l l.length).1 = "@complain".toList → p1.complain = true) := by
  obtain ⟨-, -, i3, i4⟩ := preprocess_bufs_ret (read_all f) p p1 hp
  have key : ∀ d, (d = "@unrestricted".toList ∨ d = "@complain".toList) →
      (trim_right l l.length).1 = d →
      (d = "@unrestricted".toList → p1.unrestricted = true) ∧
      (d = "@complain".toList → p1.complain = true) := by
    intro d hd ht
    obtain ⟨hnul, hhead, htrim⟩ := directive_line_facts l d hd ht
    have hnc : l.head? ≠ some '#' := by rw [hhead]; decide
    by_cases hlen : l.length ≤ 81
    · have hmem := cstr_mem_read_all f l hl hlen
      rw [cstr_eq_self l hnul] at hmem
      have hv := validate_not_die l (i3 l hmem) hnc
      rw [htrim] at hv
      exact i4 l hmem d d.length hv (by rcases hd with rfl | rfl <;> decide)
    · obtain ⟨hmem, hnl⟩ := cstr_take_mem_read_all f l hl (by omega)
      have hnul1 : '\x00' ∉ l.take 81 := fun hm => hnul (List.mem_of_mem_take hm)
      rw [cstr_eq_self _ hnul1] at hmem
      have hdie := validate_full_buffer (l.take 81)
        (by rw [List.length_take]; omega) hnl
        (by rw [head?_take_succ l 80]; exact hnc)
      exact absurd hdie (i3 _ hmem)
  exact ⟨fun h => (key _ (Or.inl rfl) h).1 rfl, fun h => (key _ (Or.inr rfl) h).2 rfl⟩

theorem preprocess_filter_eq (P : Platform) (f : List Char) :
    preprocess_filter P f = some (
      match preprocess_bufs (read_all f) { unrestricted := false, complain := false } with
      | .die => .die
      | .ret p => if P.fseek ≠ 0 then .die else .ret p) := by
  unfold preprocess_filter
  rw [preprocess_loop_eq_bufs (f.length + 1) f _ (by omega)]
  cases preprocess_bufs (read_all f) { unrestricted := false, complain := false } with
  | die => rfl
  | ret p => simp only; split_ifs <;> rfl

/-- The stages of `load_profile` over the buffers read. -/
theorem load_profile_eq (P : Platform) (e s : Nat) (f : List Char) :
    load_profile P e s f =
      match preprocess_bufs (read_all f) { unrestricted := false, complain := false } with
      | .die => some run_start
      | .ret pre =>
        if P.fseek ≠ 0 then some run_start
        else if pre.unrestricted = true ∨ pre.complain = true then some (load_out P run_start)
        else
          match load_bufs P (read_all f) run_start with
          | none => none
          | some run =>
            if run.returned then some (load_tail P e s run) else some run := by
  unfold load_profile
  rw [preprocess_filter_eq, load_loop_eq_bufs P (f.length + 1) f _ (by omega)]
  cases preprocess_bufs (read_all f) { unrestricted := false, complain := false } with
  | die => rfl
  | ret pre =>
    simp only
    by_cases h1 : P.fseek ≠ 0
    · simp only [if_pos h1]
    · simp only [if_neg h1]
      by_cases h2 : pre.unrestricted = true
      · simp only [h2, if_true, true_or]
      · by_cases h3 : pre.complain = true
        · simp only [h2, h3, if_true, or_true]; rfl
        · simp only [h2, h3, or_self]; rfl

/-- Either `seccomp_load_filters` stops before reading the profile, having done
nothing, or it opened the profile and runs `load_profile` on it. -/
theorem seccomp_load_filters_cases (P : Platform) (filter_profile : CStr) :
    seccomp_load_filters P filter_profile = some run_start ∨
    ∃ r e s f, P.getresuid = some (r, e, s) ∧ P.fopen (profile_path P filter_profile) = some f ∧
      seccomp_load_filters P filter_profile = load_profile P e s f := by
  unfold seccomp_load_filters
  by_cases h1 : ¬ P.seccomp_init_ok = true
  · left; rw [if_pos h1]
  · rw [if_neg h1]
    cases hu : P.getresuid with
    | none => left; rfl
    | some uids =>
      obtain ⟨r, e, s⟩ := uids
      simp only
      split_ifs with h2 h3
      · left; rfl
      · left; rfl
      · cases ho : P.fopen (profile_path P filter_profile) with
        | none => left; rfl
        | some f => right; exact ⟨r, e, s, f, rfl, rfl, rfl⟩

theorem seccomp_load_filters_open (P : Platform) (filter_profile : CStr) (f : List Char)
    (r e s : Nat) (hinit : P.seccomp_init_ok = true) (hu : P.getresuid = some (r, e, s))
    (hnnp : (r = 0 ∨ e = 0 ∨ s = 0) → P.seccomp_attr_set = 0)
    (hpath : (profile_path P filter_profile).length < 512)
    (hopen : P.fopen (profile_path P filter_profile) = some f) :
    seccomp_load_filters P filter_profile = load_profile P e s f := by
  unfold seccomp_load_filters
  have h1 : ¬ ¬ P.seccomp_init_ok = true := by simp [hinit]
  have h2 : ¬ ((r = 0 ∨ e = 0 ∨ s = 0) ∧ P.seccomp_attr_set ≠ 0) := fun h => h.2 (hnnp h.1)
  have h3 : ¬ (profile_path P filter_profile).length ≥ 512 := by omega
  rw [if_neg h1, hu]
  simp only [if_neg h2, if_neg h3, hopen]

/-- C2: in a profile with a line that, stripped of trailing whitespace, is exactly
`@unrestricted` or `@complain`, wherever it stands, `seccomp_load_filters`
hands no line to `parse_line`, adds no rule and does not call `seccomp_load`;
when moreover every buffer read passes the line-length check (and the calls
around the file succeed) it returns normally, so malformed rule lines are not
an error. The run is the same for `@complain` as for `@unrestricted`. -/
theorem directive_skips_compilation (P : Platform) (filter_profile : CStr) (f l : List Char)
    (hopen : P.fopen (profile_path P filter_profile) = some f)
    (hl : l ∈ file_lines f)
    (hdir : (trim_right l l.length).1 = "@unrestricted".toList ∨
            (trim_right l l.length).1 = "@complain".toList) :
    (∃ run, seccomp_load_filters P filter_profile = some run ∧
      run.parsed = [] ∧ run.rules = [] ∧ run.load_called = false ∧ run.loaded = false) ∧
    (∀ r e s, P.seccomp_init_ok = true → P.getresuid = some (r, e, s) →
      ((r = 0 ∨ e = 0 ∨ s = 0) → P.seccomp_attr_set = 0) →
      (profile_path P filter_profile).length < 512 →
      (∀ buf ∈ read_all f, validate_and_trim_line buf SC_MAX_LINE_LENGTH ≠ .die) →
      P.fseek = 0 → P.fclose = 0 →
      seccomp_load_filters P filter_profile =
        some { parsed := [], rules := [], load_called := false, loaded := false,
               returned := true }) := by
  have hflag : ∀ p1, preprocess_bufs (read_all f) { unrestricted := false, complain := false }
      = .ret p1 → p1.unrestricted = true ∨ p1.complain = true := by
    intro p1 hp
    obtain ⟨h1, h2⟩ := directive_line_sets_flag f l _ p1 hl hp
    rcases hdir with h | h
    · exact Or.inl (h1 h)
    · exact Or.inr (h2 h)
  have hprof : ∀ e s, ∃ run, load_profile P e s f = some run ∧
      run.parsed = [] ∧ run.rules = [] ∧ run.load_called = false ∧ run.loaded = false := by
    intro e s
    rw [load_profile_eq]
    cases hp : preprocess_bufs (read_all f) { unrestricted := false, complain := false } with
    | die => exact ⟨_, rfl, rfl, rfl, rfl, rfl⟩
    | ret p1 =>
      simp only [if_pos (hflag p1 hp)]
      split_ifs
      · exact ⟨_, rfl, rfl, rfl, rfl, rfl⟩
      · refine ⟨_, rfl, ?_⟩
        unfold load_out; split_ifs <;> exact ⟨rfl, rfl, rfl, rfl⟩
  constructor
  · rcases seccomp_load_filters_cases P filter_profile with h | ⟨r, e, s, f1, -, ho, h⟩
    · exact ⟨_, h, rfl, rfl, rfl, rfl⟩
    · rw [hopen] at ho
      cases ho
      rw [h]
      exact hprof e s
  · intro r e s hinit hu hnnp hpath hlen hseek hclose
    obtain ⟨p1, hp⟩ := preprocess_bufs_no_die (read_all f)
      { unrestricted := false, complain := false } hlen
    rw [seccomp_load_filters_open P filter_profile f r e s hinit hu hnnp hpath hopen,
      load_profile_eq, hp]
    have h1 : ¬ P.fseek ≠ 0 := by simp [hseek]
    have h2 : ¬ P.fclose ≠ 0 := by simp [hclose]
    simp only [if_neg h1, if_pos (hflag p1 hp), load_out, if_neg h2]
    rfl

/-- Witness for C2 on the sample platform: `@unrestricted` before a malformed rule
line and `@complain` after one give the same run. -/
theorem directive_skips_compilation_witness :
    seccomp_load_filters sample_platform "unrestricted".toList =
      some ⟨[], [], false, false, true⟩ ∧
    seccomp_load_filters sample_platform "complain".toList =
      some ⟨[], [], false, false, true⟩ :=
  ⟨(directive_skips_compilation sample_platform "unrestricted".toList
      "@unrestricted\nread -1\n".toList "@unrestricted\n".toList
      (by decide) (by decide) (Or.inl (by decide))).2 1000 1000 0
      (by decide) (by decide) (by decide) (by decide) (by decide) (by decide) (by decide),
   (directive_skips_compilation sample_platform "complain".toList
      "read -1\n@complain\n".toList "@complain\n".toList
      (by decide) (by decide) (Or.inr (by decide))).2 1000 1000 0
      (by decide) (by decide) (by decide) (by decide) (by decide) (by decide) (by decide)⟩

/-! ## Lines that do not parse -/

theorem parse_tokens_bad (P : Platform) : ∀ (args : List CStr) (k : Nat) (sargs : seccomp_args),
    (6 < k + args.length ∨ ∃ a ∈ args, a ≠ "-".toList ∧ spec_decode P a = none) →
    parse_tokens P k args sargs = .die ∨
      ∃ s, parse_tokens P k args sargs = .ret (.PARSE_ERROR, s) := by
  intro args
  induction args with
  | nil =>
    intro k sargs h
    rcases h with h | ⟨a, ha, -⟩
    · right
      simp only [List.length_nil, Nat.add_zero] at h
      exact ⟨sargs, by rw [parse_tokens, if_pos (by omega)]⟩
    · cases ha
  | cons a rest ih =>
    intro k sargs h
    rw [parse_tokens]
    by_cases h7 : k ≥ 7
    · right; exact ⟨sargs, by rw [if_pos h7]⟩
    · rw [if_neg h7]
      have hrest : a = "-".toList ∨ (spec_decode P a).isSome = true →
          (6 < (k + 1) + rest.length ∨ ∃ b ∈ rest, b ≠ "-".toList ∧ spec_decode P b = none) := by
        intro hgood
        rcases h with h | ⟨b, hb, hb1, hb2⟩
        · left; simp only [List.length_cons] at h; omega
        · right
          rcases List.mem_cons.mp hb with rfl | hb
          · rcases hgood with hg | hg
            · exact absurd hg hb1
            · rw [hb2] at hg; cases hg
          · exact ⟨b, hb, hb1, hb2⟩
      by_cases ha : a = "-".toList
      · rw [if_pos ha]
        exact ih (k + 1) sargs (hrest (Or.inl ha))
      · rw [if_neg ha]
        cases hp : parse_arg P a with
        | none => right; exact ⟨sargs, rfl⟩
        | some p =>
          obtain ⟨op, r⟩ := p
          cases r with
          | die => left; rfl
          | ret ve =>
            obtain ⟨v, e⟩ := ve
            simp only
            by_cases he : e ≠ 0
            · right; exact ⟨sargs, by rw [if_pos he]⟩
            · rw [if_neg he]
              apply ih
              apply hrest
              right
              rw [← parse_arg_result_eq_spec]
              unfold parse_arg_result
              rw [hp]
              have : e = 0 := by simpa using he
              simp [number_of, this]

/-- A line with a resolvable first token and a bad argument list makes `parse_line`
die or return PARSE_ERROR. -/
theorem parse_line_bad (P : Platform) (line name : CStr) (args : List CStr)
    (htok : tokens line = name :: args)
    (hn : P.seccomp_syscall_resolve_name name ≠ NR_SCMP_ERROR)
    (hbad : 6 < args.length ∨ ∃ a ∈ args, a ≠ "-".toList ∧ spec_decode P a = none) :
    parse_line P line = some .die ∨ ∃ s, parse_line P line = some (.ret (.PARSE_ERROR, s)) := by
  rw [parse_line_eq_tokens, htok]
  simp only [if_neg hn]
  rcases parse_tokens_bad P args 0 _ (by simpa using hbad) with h | ⟨s, h⟩
  · left; rw [h]
  · right; exact ⟨s, by rw [h]⟩

/-! ## The rule loop -/

theorem load_bufs_total (P : Platform) : ∀ (bufs : List CStr) (run : LoadRun),
    ∃ run1, load_bufs P bufs run = some run1 ∧
      run1.load_called = run.load_called ∧ run1.loaded = run.loaded := by
  intro bufs
  induction bufs with
  | nil => intro run; exact ⟨_, rfl, rfl, rfl⟩
  | cons buf bufs ih =>
    intro run
    rw [load_bufs]
    cases validate_and_trim_line buf SC_MAX_LINE_LENGTH with
    | die => exact ⟨_, rfl, rfl, rfl⟩
    | ret bl =>
      obtain ⟨b, len⟩ := bl
      simp only
      split_ifs with h0
      · exact ih run
      · obtain ⟨r, hr⟩ := parse_line_total P b
        rw [hr]
        cases r with
        | die => exact ⟨_, rfl, rfl, rfl⟩
        | ret rs =>
          obtain ⟨rc, sargs⟩ := rs
          simp only
          split_ifs
          · exact ih _
          · exact ⟨_, rfl, rfl, rfl⟩
          · exact ⟨_, rfl, rfl, rfl⟩
          · exact ih _
          · exact ih _

/-- A buffer that is fatal (too long, or a line on which `parse_line` dies or returns
PARSE_ERROR) makes the rule loop die, at that buffer or before. -/
theorem load_bufs_fatal (P : Platform) : ∀ (bufs : List CStr) (run : LoadRun) (buf : CStr),
    buf ∈ bufs →
    (validate_and_trim_line buf SC_MAX_LINE_LENGTH = .die ∨
      ∃ b len, validate_and_trim_line buf SC_MAX_LINE_LENGTH = .ret (b, len) ∧ len ≠ 0 ∧
        (parse_line P b = some .die ∨ ∃ s, parse_line P b = some (.ret (.PARSE_ERROR, s)))) →
    ∃ run1, load_bufs P bufs run = some run1 ∧ run1.returned = false ∧
      run1.load_called = run.load_called ∧ run1.loaded = run.loaded := by
  intro bufs
  induction bufs with
  | nil => intro run buf h; cases h
  | cons x bufs ih =>
    intro run buf hmem hbad
    rw [load_bufs]
    rcases List.mem_cons.mp hmem with rfl | hmem
    · rcases hbad with hv | ⟨b, len, hv, hlen, hp⟩
      · rw [hv]; exact ⟨_, rfl, rfl, rfl, rfl⟩
      · rw [hv]
        simp only [if_neg hlen]
        rcases hp with hp | ⟨s, hp⟩
        · rw [hp]; exact ⟨_, rfl, rfl, rfl, rfl⟩
        · rw [hp]; exact ⟨_, rfl, rfl, rfl, rfl⟩
    · cases validate_and_trim_line x SC_MAX_LINE_LENGTH with
      | die => exact ⟨_, rfl, rfl, rfl, rfl⟩
      | ret bl =>
        obtain ⟨b, len⟩ := bl
        simp only
        split_ifs with h0
        · exact ih run buf hmem hbad
        · obtain ⟨r, hr⟩ := parse_line_total P b
          rw [hr]
          cases r with
          | die => exact ⟨_, rfl, rfl, rfl, rfl⟩
          | ret rs =>
            obtain ⟨rc, sargs⟩ := rs
            simp only
            split_ifs
            · exact ih _ buf hmem hbad
            · exact ⟨_, rfl, rfl, rfl, rfl⟩
            · exact ⟨_, rfl, rfl, rfl, rfl⟩
            · exact ih _ buf hmem hbad
            · exact ih _ buf hmem hbad

theorem preprocess_bufs_flag_source : ∀ (bufs : List CStr) (p p1 : preprocess),
    preprocess_bufs bufs p = .ret p1 → (p1.unrestricted = true ∨ p1.complain = true) →
    (p.unrestricted = true ∨ p.complain = true) ∨
    ∃ buf ∈ bufs, ∃ b len, validate_and_trim_line buf SC_MAX_LINE_LENGTH = .ret (b, len) ∧
      len ≠ 0 ∧ (b = "@unrestricted".toList ∨ b = "@complain".toList) := by
  intro bufs
  induction bufs with
  | nil =>
    intro p p1 h hf
    simp only [preprocess_bufs, Res.ret.injEq] at h
    subst h
    exact Or.inl hf
  | cons buf bufs ih =>
    intro p p1 h hf
    rw [preprocess_bufs] at h
    cases hv : validate_and_trim_line buf SC_MAX_LINE_LENGTH with
    | die => rw [hv] at h; cases h
    | ret bl =>
      obtain ⟨b, len⟩ := bl
      rw [hv] at h
      simp only at h
      have lift : (∃ x ∈ bufs, ∃ b len, validate_and_trim_line x SC_MAX_LINE_LENGTH = .ret (b, len) ∧
          len ≠ 0 ∧ (b = "@unrestricted".toList ∨ b = "@complain".toList)) →
          ∃ x ∈ buf :: bufs, ∃ b len,
            validate_and_trim_line x SC_MAX_LINE_LENGTH = .ret (b, len) ∧
            len ≠ 0 ∧ (b = "@unrestricted".toList ∨ b = "@complain".toList) := by
        rintro ⟨x, hx, rest⟩
        exact ⟨x, List.mem_cons_of_mem _ hx, rest⟩
      by_cases h0 : len = 0
      · rw [if_pos h0] at h
        rcases ih p p1 h hf with hp | hex
        · exact Or.inl hp
        · exact Or.inr (lift hex)
      · rw [if_neg h0] at h
        rcases ih _ p1 h hf with hp | hex
        · by_cases hb1 : b = "@unrestricted".toList
          · exact Or.inr ⟨buf, List.mem_cons_self _ _, b, len, hv, h0, Or.inl hb1⟩
          · by_cases hb2 : b = "@complain".toList
            · exact Or.inr ⟨buf, List.mem_cons_self _ _, b, len, hv, h0, Or.inr hb2⟩
            · left
              simp only [hb1, hb2, if_false] at hp
              exact hp
        · exact Or.inr (lift hex)

theorem preprocess_bufs_no_directive (f : List Char) (p1 : preprocess)
    (hnodir : directive_in_effect f = false)
    (hp : preprocess_bufs (read_all f) { unrestricted := false, complain := false } = .ret p1) :
    ¬ (p1.unrestricted = true ∨ p1.complain = true) := by
  intro hf
  rcases preprocess_bufs_flag_source (read_all f) _ p1 hp hf with h | ⟨buf, hm, b, len, hv, hl, hb⟩
  · simp at h
  · have hd : is_directive buf = true := by
      unfold is_directive
      rw [hv]
      simp only [Bool.and_eq_true, bne_iff_ne, ne_eq, Bool.or_eq_true, beq_iff_eq]
      exact ⟨hl, hb⟩
    have : directive_in_effect f = true := List.any_eq_true.mpr ⟨buf, hm, hd⟩
    rw [hnodir] at this
    cases this

theorem tokens_nil : tokens [] = [] := rfl

/-- A rule line with a resolvable first token and a bad argument list is read into
a buffer that is fatal for the rule loop. -/
theorem bad_line_fatal_buffer (P : Platform) (f l name : List Char) (args : List CStr)
    (hl : l ∈ file_lines f) (hnul : '\x00' ∉ l) (hcomment : l.head? ≠ some '#')
    (htok : tokens (trim_right l l.length).1 = name :: args)
    (hres : P.seccomp_syscall_resolve_name name ≠ NR_SCMP_ERROR)
    (hbad : 6 < args.length ∨ ∃ a ∈ args, a ≠ "-".toList ∧ spec_decode P a = none) :
    ∃ buf ∈ read_all f, validate_and_trim_line buf SC_MAX_LINE_LENGTH = .die ∨
      ∃ b len, validate_and_trim_line buf SC_MAX_LINE_LENGTH = .ret (b, len) ∧ len ≠ 0 ∧
        (parse_line P b = some .die ∨ ∃ s, parse_line P b = some (.ret (.PARSE_ERROR, s))) := by
  by_cases hlen : l.length ≤ 81
  · have hmem := cstr_mem_read_all f l hl hlen
    rw [cstr_eq_self l hnul] at hmem
    refine ⟨l, hmem, ?_⟩
    by_cases hd : validate_and_trim_line l SC_MAX_LINE_LENGTH = .die
    · exact Or.inl hd
    · right
      have hv := validate_not_die l hd hcomment
      have ht := trim_right_eq l.length l rfl
      refine ⟨(trim_right l l.length).1, (trim_right l l.length).2, hv, ?_,
        parse_line_bad P _ name args htok hres hbad⟩
      rw [ht] at htok ⊢
      simp only at htok ⊢
      intro h0
      rw [List.length_eq_zero.mp h0, tokens_nil] at htok
      cases htok
  · obtain ⟨hmem, hnl⟩ := cstr_take_mem_read_all f l hl (by omega)
    have hnul1 : '\x00' ∉ l.take 81 := fun hm => hnul (List.mem_of_mem_take hm)
    rw [cstr_eq_self _ hnul1] at hmem
    exact ⟨_, hmem, Or.inl (validate_full_buffer (l.take 81)
      (by rw [List.length_take]; omega) hnl
      (by rw [head?_take_succ l 80]; exact hcomment))⟩

/-- C3 as amended: in a profile where the directive scan finds no directive, a line
that is not a comment, whose first token resolves to a syscall and which, once
its trailing whitespace is stripped, has more than six argument tokens or an
argument token other than `-` that is not a well-formed constraint (its value
malformed, negative, an unknown symbol or out of range) makes `seccomp_load_filters` abort: it does not
return, `seccomp_load` is not called and no filter is loaded; in `main` the
run ends at that call, so what follows it, the `execv`, is not reached. -/
theorem bad_rule_line_aborts (P : Platform) (filter_profile : CStr) (f l name : List Char)
    (args : List CStr)
    (hopen : P.fopen (profile_path P filter_profile) = some f)
    (hnodir : directive_in_effect f = false)
    (hl : l ∈ file_lines f) (hnul : '\x00' ∉ l) (hcomment : l.head? ≠ some '#')
    (htok : tokens (trim_right l l.length).1 = name :: args)
    (hres : P.seccomp_syscall_resolve_name name ≠ NR_SCMP_ERROR)
    (hbad : 6 < args.length ∨ ∃ a ∈ args, a ≠ "-".toList ∧ ¬ well_formed P a) :
    (∃ run, seccomp_load_filters P filter_profile = some run ∧ run.returned = false ∧
      run.load_called = false ∧ run.loaded = false) ∧
    (∀ (w : World) (rest : Int → Run Int), w.platform = P →
      (seccomp_load_filters_call w filter_profile >>= rest) =
        { trace := [.seccomp_load_filters filter_profile], ending := .died }) := by
  replace hbad : 6 < args.length ∨ ∃ a ∈ args, a ≠ "-".toList ∧ spec_decode P a = none := by
    rcases hbad with h | ⟨a, ha, h1, h2⟩
    · exact Or.inl h
    · refine Or.inr ⟨a, ha, h1, ?_⟩
      rw [well_formed_iff] at h2
      simpa using h2
  have key : ∃ run, seccomp_load_filters P filter_profile = some run ∧ run.returned = false ∧
      run.load_called = false ∧ run.loaded = false := by
    rcases seccomp_load_filters_cases P filter_profile with h | ⟨r, e, s, f1, -, ho, h⟩
    · exact ⟨_, h, rfl, rfl, rfl⟩
    · rw [hopen] at ho
      cases ho
      rw [h, load_profile_eq]
      cases hp : preprocess_bufs (read_all f) { unrestricted := false, complain := false } with
      | die => exact ⟨_, rfl, rfl, rfl, rfl⟩
      | ret p1 =>
        simp only [if_neg (preprocess_bufs_no_directive f p1 hnodir hp)]
        split_ifs
        · exact ⟨_, rfl, rfl, rfl, rfl⟩
        · obtain ⟨buf, hmem, hfatal⟩ := bad_line_fatal_buffer P f l name args hl hnul hcomment
            htok hres hbad
          obtain ⟨run1, h1, h2, h3, h4⟩ :=
            load_bufs_fatal P (read_all f) run_start buf hmem hfatal
          rw [h1]
          simp only [h2, Bool.false_eq_true, if_false]
          exact ⟨run1, rfl, h2, h3, h4⟩
  refine ⟨key, ?_⟩
  intro w rest hw
  obtain ⟨run, h1, h2, -, -⟩ := key
  show Run.bind _ _ = _
  unfold Run.bind seccomp_load_filters_call
  simp only [hw, h1, Option.getD_some, h2, Bool.false_eq_true, if_false]

/-- Witness for C3 as amended: the sample profile `negative` (`read`, then `write -1`),
where the rule `read` has been added when the run dies. -/
theorem bad_rule_line_aborts_witness :
    ∃ run, seccomp_load_filters sample_platform "negative".toList = some run ∧
      run.returned = false ∧ run.load_called = false ∧ run.loaded = false :=
  (bad_rule_line_aborts sample_platform "negative".toList "read\nwrite -1\n".toList
    "write -1\n".toList "write".toList ["-1".toList]
    (by decide) (by decide) (by decide) (by decide) (by decide)
    (by decide) (by decide)
    (Or.inr ⟨"-1".toList, by decide, by decide,
      fun h => absurd ((well_formed_iff sample_platform "-1".toList).mp h) (by decide)⟩)).1

/-- Counterexample to C3 as stated: the sample profile `unrestricted` has the line
`read -1` (a negative value) and the profile `unknown` has a line with eight
argument tokens, yet on both `seccomp_load_filters` returns normally; in the
second the filter with the rule for `read` is loaded. -/
theorem bad_rule_line_aborts_counterexample :
    ("read -1\n".toList ∈ file_lines "@unrestricted\nread -1\n".toList ∧
      tokens "read -1".toList = ["read".toList, "-1".toList] ∧
      spec_decode sample_platform "-1".toList = none ∧
      sample_platform.fopen (profile_path sample_platform "unrestricted".toList) =
        some "@unrestricted\nread -1\n".toList ∧
      seccomp_load_filters sample_platform "unrestricted".toList =
        some ⟨[], [], false, false, true⟩) ∧
    ("bogus 1 2 3 4 5 6 7 8\n".toList ∈
        file_lines "# comment\nbogus 1 2 3 4 5 6 7 8\n\nread\n".toList ∧
      (tokens "bogus 1 2 3 4 5 6 7 8".toList).length = 9 ∧
      sample_platform.fopen (profile_path sample_platform "unknown".toList) =
        some "# comment\nbogus 1 2 3 4 5 6 7 8\n\nread\n".toList ∧
      seccomp_load_filters sample_platform "unknown".toList =
        some ⟨["bogus 1 2 3 4 5 6 7 8".toList, "read".toList], [⟨0, 0, []⟩],
          true, true, true⟩) := by
  decide

/-! ## Profiles whose lines fit the buffer -/

theorem chomp_terminated (body : List Char) (hb : '\n' ∉ body) :
    chomp (body ++ ['\n']) = body := by
  unfold chomp
  induction body with
  | nil => simp
  | cons c body ih =>
    simp only [List.mem_cons, not_or] at hb
    have hc : c ≠ '\n' := fun e => hb.1 e.symm
    simp [List.takeWhile_cons, hc, ih hb.2]

theorem chomp_unterminated (l : List Char) (hb : '\n' ∉ l) : chomp l = l := by
  unfold chomp
  apply takeWhile_all
  rw [List.all_eq_true]
  intro c hc
  have : c ≠ '\n' := fun e => hb (e ▸ hc)
  simpa using this

theorem short_line_length (l post : List Char)
    (hshape : (∃ body, '\n' ∉ body ∧ l = body ++ ['\n']) ∨ ('\n' ∉ l ∧ l ≠ [] ∧ post = []))
    (h : (chomp l).length ≤ 80) : l.length ≤ 81 := by
  rcases hshape with ⟨body, hb, rfl⟩ | ⟨hn, -, -⟩
  · rw [chomp_terminated body hb] at h
    simp only [List.length_append, List.length_singleton]
    omega
  · rw [chomp_unterminated l hn] at h
    omega

theorem read_all_eq_lines : ∀ (n : Nat) (f : List Char), f.length ≤ n →
    (∀ l ∈ file_lines f, (chomp l).length ≤ 80) → read_all f = (file_lines f).map cstr := by
  intro n
  induction n with
  | zero =>
    intro f hf _
    have : f = [] := List.length_eq_zero.mp (by omega)
    subst this
    rfl
  | succ n ih =>
    intro f hf h
    rcases file_split f with rfl | ⟨body, rest, hb, rfl⟩ | ⟨hn, hne⟩
    · rfl
    · rw [file_lines_terminated body rest hb] at h ⊢
      have hshape : (∃ b, '\n' ∉ b ∧ body ++ ['\n'] = b ++ ['\n']) ∨
          ('\n' ∉ body ++ ['\n'] ∧ body ++ ['\n'] ≠ [] ∧ rest = []) := Or.inl ⟨body, hb, rfl⟩
      have h1 := short_line_length _ rest hshape (h _ (List.mem_cons_self _ _))
      have e : body ++ '\n' :: rest = body ++ ['\n'] ++ rest := by simp
      rw [e, read_all_short_line _ rest hshape h1, List.map_cons,
        ih rest (by simp only [List.length_append, List.length_cons] at hf; omega)
          (fun l hl => h l (List.mem_cons_of_mem _ hl))]
    · rw [file_lines_unterminated f hn hne] at h ⊢
      have hshape : (∃ b, '\n' ∉ b ∧ f = b ++ ['\n']) ∨ ('\n' ∉ f ∧ f ≠ [] ∧ ([] : List Char) = []) :=
        Or.inr ⟨hn, hne, rfl⟩
      have h1 := short_line_length f [] hshape (h f (List.mem_singleton_self _))
      have := read_all_short_line f [] hshape h1
      rw [List.append_nil] at this
      rw [this]
      rfl

theorem file_lines_shape (f l : List Char) (hl : l ∈ file_lines f) :
    (∃ body, '\n' ∉ body ∧ l = body ++ ['\n']) ∨ ('\n' ∉ l ∧ l ≠ []) := by
  obtain ⟨pre, post, -, -, h⟩ := mem_file_lines f.length f l le_rfl hl
  rcases h with h | ⟨h1, h2, -⟩
  · exact Or.inl h
  · exact Or.inr ⟨h1, h2⟩

theorem cstr_prefix (l : List Char) : ∃ t, l = cstr l ++ t :=
  ⟨l.dropWhile (fun c => c != '\x00'), (List.takeWhile_append_dropWhile _ l).symm⟩

/-- A line of at most 80 characters plus newline passes the line-length check. -/
theorem validate_short_line (l : List Char)
    (hshape : (∃ body, '\n' ∉ body ∧ l = body ++ ['\n']) ∨ ('\n' ∉ l ∧ l ≠ []))
    (h : (chomp l).length ≤ 80) :
    validate_and_trim_line (cstr l) SC_MAX_LINE_LENGTH =
      if (cstr l).head? = some '#' then .ret (cstr l, 0)
      else .ret (line_text l, (line_text l).length) := by
  unfold validate_and_trim_line
  split_ifs with hc
  · rfl
  · simp only
    have htr : trim_right (cstr l) (cstr l).length = (line_text l, (line_text l).length) := by
      unfold line_text
      rw [trim_right_eq _ _ rfl]
    split_ifs with h0 hdie
    · have hnil : cstr l = [] := List.length_eq_zero.mp h0
      have : line_text l = [] := by unfold line_text; rw [hnil]; rfl
      rw [this, hnil]
    · exfalso
      obtain ⟨hlast, hlen⟩ := hdie
      obtain ⟨t, ht⟩ := cstr_prefix l
      have hl := congrArg List.length ht
      rw [List.length_append] at hl
      simp only [SC_MAX_LINE_LENGTH] at hlen
      rcases hshape with ⟨body, hb, rfl⟩ | ⟨hn, -⟩
      · rw [chomp_terminated body hb] at h
        simp only [List.length_append, List.length_singleton] at hl
        have ht0 : t = [] := List.length_eq_zero.mp (by omega)
        rw [ht0, List.append_nil] at ht
        apply hlast
        rw [← ht]
        have : (body ++ ['\n']).length - 1 = body.length := by simp
        rw [this, List.getD_eq_getElem?_getD]
        simp
      · rw [chomp_unterminated l hn] at h
        omega
    · rw [htr]

theorem load_bufs_lines (P : Platform) : ∀ (lines : List (List Char)) (run : LoadRun),
    (∀ l ∈ lines, ((∃ body, '\n' ∉ body ∧ l = body ++ ['\n']) ∨ ('\n' ∉ l ∧ l ≠ [])) ∧
      (chomp l).length ≤ 80) →
    (∀ pre l post, lines = pre ++ l :: post →
      line_passes P (run.rules ++ pre.filterMap (rule_of_line P)) l) →
    load_bufs P (lines.map cstr) run =
      some { run with
        parsed := run.parsed ++ (lines.filter is_rule_line).map line_text,
        rules := run.rules ++ lines.filterMap (rule_of_line P),
        returned := true } := by
  intro lines
  induction lines with
  | nil => intro run _ _; simp [load_bufs]
  | cons l rest ih =>
    intro run hlines hacc
    have hl := hlines l (List.mem_cons_self _ _)
    have hrest : ∀ x ∈ rest, ((∃ body, '\n' ∉ body ∧ x = body ++ ['\n']) ∨ ('\n' ∉ x ∧ x ≠ [])) ∧
        (chomp x).length ≤ 80 := fun x hx => hlines x (List.mem_cons_of_mem _ hx)
    have hacc0 := hacc [] l rest rfl
    simp only [List.filterMap_nil, List.append_nil] at hacc0
    rw [List.map_cons, load_bufs, validate_short_line l hl.1 hl.2]
    by_cases hc : (cstr l).head? = some '#'
    · have hr : is_rule_line l = false := by simp [is_rule_line, hc]
      have hro : rule_of_line P l = none := by simp [rule_of_line, hr]
      rw [if_pos hc]
      simp only [if_true]
      rw [ih run hrest (fun pre x post hx => by
        have := hacc (l :: pre) x post (by rw [hx]; rfl)
        simpa [List.filterMap_cons, hro] using this)]
      simp [List.filter_cons, hr, List.filterMap_cons, hro]
    · rw [if_neg hc]
      simp only
      by_cases h0 : (line_text l).length = 0
      · have hnil : line_text l = [] := List.length_eq_zero.mp h0
        have hr : is_rule_line l = false := by simp [is_rule_line, hnil]
        have hro : rule_of_line P l = none := by simp [rule_of_line, hr]
        rw [if_pos h0]
        rw [ih run hrest (fun pre x post hx => by
          have := hacc (l :: pre) x post (by rw [hx]; rfl)
          simpa [List.filterMap_cons, hro] using this)]
        simp [List.filter_cons, hr, List.filterMap_cons, hro]
      · have hne : line_text l ≠ [] := fun h => h0 (by rw [h]; rfl)
        have hr : is_rule_line l = true := by simp [is_rule_line, hc, hne]
        obtain ⟨rc, sargs, hp, hnerr, hok⟩ := hacc0 hr
        rw [if_neg h0, hp]
        simp only
        cases rc with
        | PARSE_ERROR => exact absurd rfl hnerr
        | PARSE_INVALID_SYSCALL =>
          have hro : rule_of_line P l = none := by simp [rule_of_line, hr, hp]
          simp only [ne_eq, reduceCtorEq, not_false_eq_true, if_true]
          rw [ih _ hrest (fun pre x post hx => by
            have := hacc (l :: pre) x post (by rw [hx]; rfl)
            simpa [List.filterMap_cons, hro] using this)]
          simp [List.filter_cons, hr, List.filterMap_cons, hro]
        | PARSE_OK =>
          have hro : rule_of_line P l = some sargs := by simp [rule_of_line, hr, hp]
          have hnext := ih { run with parsed := run.parsed ++ [line_text l],
                                      rules := run.rules ++ [sargs] } hrest
            (fun pre x post hx => by
              have := hacc (l :: pre) x post (by rw [hx]; rfl)
              simpa [List.filterMap_cons, hro] using this)
          simp only [ne_eq, not_true_eq_false, if_false]
          rcases hok rfl with he | ha
          · rw [if_neg (by simp [he]), hnext]
            simp [List.filter_cons, hr, List.filterMap_cons, hro]
          · by_cases he : P.seccomp_rule_add_exact_array run.rules sargs = 0
            · rw [if_neg (by simp [he]), hnext]
              simp [List.filter_cons, hr, List.filterMap_cons, hro]
            · rw [if_pos he, if_neg (by simp [ha]), hnext]
              simp [List.filter_cons, hr, List.filterMap_cons, hro]

theorem tokens_ne_nil (s : CStr) (c : Char) (hc : c ∈ s) (hd : isDelim c = false) :
    ∃ name args, tokens s = name :: args := by
  cases ht : tokens s with
  | cons name args => exact ⟨name, args, rfl⟩
  | nil =>
    exfalso
    have hs := (tokens_nil_iff s).mp ht
    unfold strtok_r at hs
    split at hs
    · rename_i heq
      have hall : ∀ x ∈ s, isDelim x = true := by
        intro x hx
        by_contra hnx
        have : ∃ y ∈ s, ¬ isDelim y = true := ⟨x, hx, hnx⟩
        have hne : s.dropWhile isDelim ≠ [] := by
          intro h0
          rw [List.dropWhile_eq_nil_iff] at h0
          exact hnx (h0 x hx)
        exact hne heq
      rw [hall c hc] at hd
      cases hd
    · cases hs

theorem isspace_of_isDelim (c : Char) (h : isDelim c = true) : isspace c = true := by
  unfold isDelim at h
  unfold isspace
  simp only [Bool.or_eq_true, beq_iff_eq] at h ⊢
  rcases h with h | h <;> simp [h]

theorem line_text_tokens (l : List Char) (h : line_text l ≠ []) :
    ∃ name args, tokens (line_text l) = name :: args := by
  have e : line_text l = (cstr l).rdropWhile isspace := by
    unfold line_text
    rw [trim_right_eq _ _ rfl]
  rw [e] at h ⊢
  have hlast := List.rdropWhile_last_not isspace (cstr l) h
  apply tokens_ne_nil _ _ (List.getLast_mem h)
  cases hd : isDelim (((cstr l).rdropWhile isspace).getLast h) with
  | false => rfl
  | true => exact absurd (isspace_of_isDelim _ hd) hlast

theorem line_accepted_passes (P : Platform) (ctx : List seccomp_args) (l : List Char)
    (h : line_accepted P ctx l) : line_passes P ctx l := by
  intro hr
  have hne : line_text l ≠ [] := by
    intro h0
    simp [is_rule_line, h0] at hr
  obtain ⟨name, args, ht⟩ := line_text_tokens l hne
  by_cases hres : P.seccomp_syscall_resolve_name name = NR_SCMP_ERROR
  · have hp : parse_line P (line_text l) = some (.ret (.PARSE_INVALID_SYSCALL,
        { syscall_nr := NR_SCMP_ERROR, length := 0, arg_cmp := [] })) := by
      rw [parse_line_eq_tokens, ht]
      simp only [hres, if_true]
    exact ⟨.PARSE_INVALID_SYSCALL, _, hp, by decide, fun h => by cases h⟩
  · obtain ⟨sargs, hp, hacc⟩ := h hr name args ht hres
    exact ⟨.PARSE_OK, sargs, hp, by decide, fun _ => hacc⟩

theorem load_tail_ok (P : Platform) (e s : Nat) (run : LoadRun)
    (hraise : e ≠ 0 ∧ s = 0 → P.seteuid_root = 0 ∧ P.geteuid_raised = 0)
    (hload : P.seccomp_load run.rules = 0)
    (hdrop : P.geteuid_loaded = 0 → P.seteuid_real = 0 ∧ (P.getuid ≠ 0 → P.geteuid_dropped ≠ 0))
    (hclose : P.fclose = 0) :
    load_tail P e s run = { run with load_called := true, loaded := true, returned := true } := by
  unfold load_tail
  have h1 : ¬ (e ≠ 0 ∧ s = 0 ∧ P.seteuid_root ≠ 0) := fun h => h.2.2 (hraise ⟨h.1, h.2.1⟩).1
  have h2 : ¬ (e ≠ 0 ∧ s = 0 ∧ P.geteuid_raised ≠ 0) := fun h => h.2.2 (hraise ⟨h.1, h.2.1⟩).2
  have h3 : ¬ (P.geteuid_loaded = 0 ∧ P.seteuid_real ≠ 0) := fun h => h.2 (hdrop h.1).1
  have h4 : ¬ (P.geteuid_loaded = 0 ∧ P.getuid ≠ 0 ∧ P.geteuid_dropped = 0) :=
    fun h => (hdrop h.1).2 h.2.1 h.2.2
  have h5 : ¬ P.seccomp_load run.rules ≠ 0 := by simp [hload]
  have h6 : ¬ P.fclose ≠ 0 := by simp [hclose]
  simp only [if_neg h1, if_neg h2, if_neg h3, if_neg h4, if_neg h5, load_out, if_neg h6]

/-- C4 as amended: for a profile in which every line, comments included, has at most
80 characters before its newline, in which the directive scan finds no
directive, and in which every line with a resolvable syscall name parses and is
accepted by the filter library, `seccomp_load_filters` succeeds (the calls around the file
succeeding) and the rules it adds are, in file order, exactly the tuples
`parse_line` returns with PARSE_OK for the lines that are neither blank nor
comments; a line whose first token does not resolve makes `parse_line`
return PARSE_INVALID_SYSCALL whatever its other tokens are, and such a line
adds nothing and causes no failure. -/
theorem rules_mirror_file_order (P : Platform) (filter_profile : CStr) (f : List Char)
    (r e s : Nat)
    (hinit : P.seccomp_init_ok = true) (hu : P.getresuid = some (r, e, s))
    (hnnp : (r = 0 ∨ e = 0 ∨ s = 0) → P.seccomp_attr_set = 0)
    (hpath : (profile_path P filter_profile).length < 512)
    (hopen : P.fopen (profile_path P filter_profile) = some f)
    (hseek : P.fseek = 0)
    (hraise : e ≠ 0 ∧ s = 0 → P.seteuid_root = 0 ∧ P.geteuid_raised = 0)
    (hload : P.seccomp_load (expected_rules P f) = 0)
    (hdrop : P.geteuid_loaded = 0 → P.seteuid_real = 0 ∧ (P.getuid ≠ 0 → P.geteuid_dropped ≠ 0))
    (hclose : P.fclose = 0)
    (hlen : ∀ l ∈ file_lines f, (chomp l).length ≤ 80)
    (hnodir : directive_in_effect f = false)
    (hacc : ∀ pre l post, file_lines f = pre ++ l :: post →
      line_accepted P (pre.filterMap (rule_of_line P)) l) :
    seccomp_load_filters P filter_profile =
      some { parsed := rule_line_texts f, rules := expected_rules P f,
             load_called := true, loaded := true, returned := true } ∧
    (∀ line name args, tokens line = name :: args →
      P.seccomp_syscall_resolve_name name = NR_SCMP_ERROR →
      parse_line P line = some (.ret (.PARSE_INVALID_SYSCALL,
        { syscall_nr := NR_SCMP_ERROR, length := 0, arg_cmp := [] }))) := by
  constructor
  · have hbufs := read_all_eq_lines f.length f le_rfl hlen
    have hno : ∀ buf ∈ read_all f, validate_and_trim_line buf SC_MAX_LINE_LENGTH ≠ .die := by
      intro buf hb
      rw [hbufs] at hb
      obtain ⟨l, hl, rfl⟩ := List.mem_map.mp hb
      rw [validate_short_line l (file_lines_shape f l hl) (hlen l hl)]
      split_ifs <;> exact fun h => by cases h
    obtain ⟨p1, hp⟩ := preprocess_bufs_no_die (read_all f)
      { unrestricted := false, complain := false } hno
    have hrun := load_bufs_lines P (file_lines f) run_start
      (fun l hl => ⟨file_lines_shape f l hl, hlen l hl⟩)
      (fun pre l post hx => by
        simpa [run_start] using line_accepted_passes P _ l (hacc pre l post hx))
    rw [seccomp_load_filters_open P filter_profile f r e s hinit hu hnnp hpath hopen,
      load_profile_eq, hp]
    have h1 : ¬ P.fseek ≠ 0 := by simp [hseek]
    simp only [if_neg h1, if_neg (preprocess_bufs_no_directive f p1 hnodir hp), hbufs, hrun,
      if_true]
    rw [load_tail_ok P e s _ hraise (by simpa [run_start, expected_rules] using hload) hdrop hclose]
    simp [run_start, expected_rules, rule_line_texts]
  · intro line name args htok hres
    rw [parse_line_eq_tokens, htok]
    simp only [hres, if_true]

/-- Witness for C4 as amended: the sample profile `unknown`, whose line
`bogus 1 2 3 4 5 6 7 8` is skipped and whose line `read` gives the one rule. -/
theorem rules_mirror_file_order_witness :
    seccomp_load_filters sample_platform "unknown".toList =
      some { parsed := ["bogus 1 2 3 4 5 6 7 8".toList, "read".toList],
             rules := [⟨0, 0, []⟩], load_called := true, loaded := true, returned := true } :=
  (rules_mirror_file_order sample_platform "unknown".toList
    "# comment\nbogus 1 2 3 4 5 6 7 8\n\nread\n".toList 1000 1000 0
    (by decide) (by decide) (by decide) (by decide) (by decide) (by decide) (by decide)
    (by decide) (by decide) (by decide) (by decide) (by decide)
    (by
      intro pre l post h hr name args ht hres
      have hmem : l ∈ file_lines "# comment\nbogus 1 2 3 4 5 6 7 8\n\nread\n".toList := by
        rw [h]; exact List.mem_append_right _ (List.mem_cons_self _ _)
      have hall : ∀ x ∈ file_lines "# comment\nbogus 1 2 3 4 5 6 7 8\n\nread\n".toList,
          is_rule_line x = true →
          (sample_platform.seccomp_syscall_resolve_name ((tokens (line_text x)).headD []) =
              NR_SCMP_ERROR ∨
           parse_line sample_platform (line_text x) =
              some (.ret (.PARSE_OK, ⟨0, 0, []⟩))) := by decide
      rcases hall l hmem hr with h1 | h1
      · rw [ht] at h1
        exact absurd h1 hres
      · exact ⟨_, h1, Or.inl rfl⟩)).1

/-- Counterexample to C4 as stated: the sample profile `long-unknown` has no directive
and its only line starts with a token that resolves to no syscall, so every
line with a resolvable syscall name parses; yet the line is longer than the
buffer and `seccomp_load_filters` dies in the directive scan. -/
theorem rules_mirror_file_order_counterexample :
    sample_platform.fopen (profile_path sample_platform "long-unknown".toList) = some
      "bogus 1 2 3 4 5 6 7 8 9 10 11 12 13 14 15 16 17 18 19 20 21 22 23 24 25 26 27 28 29 30\n".toList ∧
    file_lines
      "bogus 1 2 3 4 5 6 7 8 9 10 11 12 13 14 15 16 17 18 19 20 21 22 23 24 25 26 27 28 29 30\n".toList
      = ["bogus 1 2 3 4 5 6 7 8 9 10 11 12 13 14 15 16 17 18 19 20 21 22 23 24 25 26 27 28 29 30\n".toList] ∧
    directive_in_effect
      "bogus 1 2 3 4 5 6 7 8 9 10 11 12 13 14 15 16 17 18 19 20 21 22 23 24 25 26 27 28 29 30\n".toList
      = false ∧
    (tokens
      "bogus 1 2 3 4 5 6 7 8 9 10 11 12 13 14 15 16 17 18 19 20 21 22 23 24 25 26 27 28 29 30".toList).head?
      = some "bogus".toList ∧
    sample_platform.seccomp_syscall_resolve_name "bogus".toList = NR_SCMP_ERROR ∧
    seccomp_load_filters sample_platform "long-unknown".toList =
      some ⟨[], [], false, false, false⟩ := by
  decide

/-! ## Comment lines and the line-length check -/

/-- C7, evaluation at the failing input: the sample profile `long-comment` is a single
line that begins with `#`, so with comment lines removed it is the empty
profile, on which `seccomp_load_filters` loads an empty filter and returns;
on the profile itself the bytes after the first 81 are read as the rule line
`write -1`, handed to `parse_line`, and the run dies. -/
theorem long_comment_tail_is_parsed :
    sample_platform.fopen (profile_path sample_platform "long-comment".toList) = some
      "#xxxxxxxxxxxxxxxxxxxxxxxxxxxxxxxxxxxxxxxxxxxxxxxxxxxxxxxxxxxxxxxxxxxxxxxxxxxxxxxxwrite -1\n".toList ∧
    (file_lines
      "#xxxxxxxxxxxxxxxxxxxxxxxxxxxxxxxxxxxxxxxxxxxxxxxxxxxxxxxxxxxxxxxxxxxxxxxxxxxxxxxxwrite -1\n".toList).map
        List.head? = [some '#'] ∧
    strip_comments
      "#xxxxxxxxxxxxxxxxxxxxxxxxxxxxxxxxxxxxxxxxxxxxxxxxxxxxxxxxxxxxxxxxxxxxxxxxxxxxxxxxwrite -1\n".toList
      = [] ∧
    sample_platform.fopen (profile_path sample_platform "empty".toList) = some [] ∧
    seccomp_load_filters sample_platform "empty".toList =
      some ⟨[], [], true, true, true⟩ ∧
    seccomp_load_filters sample_platform "long-comment".toList =
      some ⟨["write -1".toList], [], false, false, false⟩ := by
  decide

theorem preprocess_bufs_die (bufs : List CStr) (p : preprocess) (buf : CStr) (hm : buf ∈ bufs)
    (hd : validate_and_trim_line buf SC_MAX_LINE_LENGTH = .die) :
    preprocess_bufs bufs p = .die := by
  cases hp : preprocess_bufs bufs p with
  | die => rfl
  | ret p1 =>
    obtain ⟨-, -, i3, -⟩ := preprocess_bufs_ret bufs p p1 hp
    exact absurd hd (i3 buf hm)

/-- C8 as amended: for a line of the profile that does not begin with `#`, if it has
at most 80 bytes before its newline (at most 81 with the newline, at most 80
when the file ends without one) `fgets` reads it whole into the 82-byte
buffer and `validate_and_trim_line` does not abort on it; if it has more than
80 bytes before its newline (and no NUL byte) `preprocess_filter` dies, so
`seccomp_load_filters` aborts in the directive scan, before any line is
parsed. -/
theorem line_length_limit (P : Platform) (f l : List Char) (hl : l ∈ file_lines f)
    (hc : l.head? ≠ some '#') :
    ((chomp l).length ≤ 80 →
      cstr l ∈ read_all f ∧ validate_and_trim_line (cstr l) SC_MAX_LINE_LENGTH ≠ .die) ∧
    ('\x00' ∉ l → 80 < (chomp l).length →
      preprocess_filter P f = some .die ∧
      ∀ filter_profile, P.fopen (profile_path P filter_profile) = some f →
        seccomp_load_filters P filter_profile = some run_start) := by
  obtain ⟨pre, post, hf, hpre, hshape⟩ := mem_file_lines f.length f l le_rfl hl
  constructor
  · intro hlen
    have hlen1 := short_line_length l post hshape hlen
    refine ⟨cstr_mem_read_all f l hl hlen1, ?_⟩
    rw [validate_short_line l (file_lines_shape f l hl) hlen]
    split_ifs <;> exact fun h => by cases h
  · intro hnul hlen
    have hbuf : ∃ buf ∈ read_all f, validate_and_trim_line buf SC_MAX_LINE_LENGTH = .die := by
      by_cases h81 : l.length ≤ 81
      · have hmem := cstr_mem_read_all f l hl h81
        rw [cstr_eq_self l hnul] at hmem
        refine ⟨l, hmem, ?_⟩
        rcases hshape with ⟨body, hb, rfl⟩ | ⟨hn, -, -⟩
        · rw [chomp_terminated body hb] at hlen
          simp only [List.length_append, List.length_singleton] at h81
          omega
        · rw [chomp_unterminated l hn] at hlen
          exact validate_full_buffer l (by omega) hn hc
      · obtain ⟨hmem, hnl⟩ := cstr_take_mem_read_all f l hl (by omega)
        have hnul1 : '\x00' ∉ l.take 81 := fun hm => hnul (List.mem_of_mem_take hm)
        rw [cstr_eq_self _ hnul1] at hmem
        exact ⟨_, hmem, validate_full_buffer (l.take 81)
          (by rw [List.length_take]; omega) hnl
          (by rw [head?_take_succ l 80]; exact hc)⟩
    obtain ⟨buf, hm, hd⟩ := hbuf
    have hdie := preprocess_bufs_die (read_all f) { unrestricted := false, complain := false }
      buf hm hd
    constructor
    · rw [preprocess_filter_eq, hdie]
    · intro filter_profile hopen
      rcases seccomp_load_filters_cases P filter_profile with h | ⟨r, e, s, f1, -, ho, h⟩
      · exact h
      · rw [hopen] at ho
        cases ho
        rw [h, load_profile_eq, hdie]

/-- Witness for C8 as amended on the sample platform: the line `read` of `two-rules`
is read whole and validated; the 82-byte line of `long-unknown` is fatal. -/
theorem line_length_limit_witness :
    ("read\n".toList ∈ read_all "read\nsocket AF_INET SOCK_STREAM\n".toList ∧
      validate_and_trim_line "read\n".toList SC_MAX_LINE_LENGTH ≠ .die) ∧
    seccomp_load_filters sample_platform "long-unknown".toList = some run_start :=
  ⟨(line_length_limit sample_platform "read\nsocket AF_INET SOCK_STREAM\n".toList
      "read\n".toList (by decide) (by decide)).1 (by decide),
   ((line_length_limit sample_platform
      "bogus 1 2 3 4 5 6 7 8 9 10 11 12 13 14 15 16 17 18 19 20 21 22 23 24 25 26 27 28 29 30\n".toList
      "bogus 1 2 3 4 5 6 7 8 9 10 11 12 13 14 15 16 17 18 19 20 21 22 23 24 25 26 27 28 29 30\n".toList
      (by decide) (by decide)).2 (by decide) (by decide)).2 "long-unknown".toList (by decide)⟩

/-- Counterexample to C8 as stated: a profile that is one unterminated line of 81
bytes `a` (81 bytes long, no newline to count, not a comment) is read whole by
`fgets`, and `validate_and_trim_line` dies on it, as does the directive scan.
And a line of 100 bytes whose second byte is NUL is longer than 81 bytes, yet
the directive scan completes on it: the buffers are measured as C strings. -/
theorem line_length_limit_counterexample :
    ((List.replicate 81 'a').length = 81 ∧
      file_lines (List.replicate 81 'a') = [List.replicate 81 'a'] ∧
      (List.replicate 81 'a').head? ≠ some '#' ∧
      fgets SC_MAX_LINE_LENGTH (List.replicate 81 'a') = some (List.replicate 81 'a', []) ∧
      validate_and_trim_line (List.replicate 81 'a') SC_MAX_LINE_LENGTH = .die ∧
      preprocess_filter sample_platform (List.replicate 81 'a') = some .die) ∧
    (('a' :: '\x00' :: List.replicate 98 'b').length = 100 ∧
      file_lines ('a' :: '\x00' :: List.replicate 98 'b') =
        ['a' :: '\x00' :: List.replicate 98 'b'] ∧
      preprocess_filter sample_platform ('a' :: '\x00' :: List.replicate 98 'b') =
        some (.ret { unrestricted := false, complain := false })) := by
  decide

/-! ## `verify_appname` -/

theorem bracket_first_iff (c : Char) :
    bracket [.range 'a' 'z', .range '0' '9'] c = true ↔ class_first c := by
  simp [bracket, BracketItem.matches, class_first]

theorem bracket_rest_iff (c : Char) :
    bracket [.range 'a' 'z', .range '0' '9', .char '+', .char '.', .char '_', .char '-'] c = true
      ↔ class_rest c := by
  simp [bracket, BracketItem.matches, class_rest]

theorem regexec_plus_iff (items : List BracketItem) : ∀ s : CStr,
    regexec_anchored [.plus items] s = true ↔ s ≠ [] ∧ ∀ d ∈ s, bracket items d = true := by
  intro s
  induction s with
  | nil => simp [regexec_anchored]
  | cons c s ih =>
    rw [regexec_anchored]
    cases s with
    | nil => simp [regexec_anchored]
    | cons d s =>
      have h0 : regexec_anchored [] (d :: s) = false := rfl
      rw [h0, Bool.false_or, Bool.and_eq_true, ih]
      simp only [ne_eq, reduceCtorEq, not_false_eq_true, true_and, List.mem_cons,
        forall_eq_or_imp]

theorem verify_appname_iff (s : CStr) :
    verify_appname s = true ↔
      ∃ c rest, s = c :: rest ∧ rest ≠ [] ∧ class_first c ∧ ∀ d ∈ rest, class_rest d := by
  unfold verify_appname whitelist_re
  cases s with
  | nil => simp [regexec_anchored]
  | cons c rest =>
    rw [regexec_anchored, Bool.and_eq_true, regexec_plus_iff, bracket_first_iff]
    simp only [bracket_rest_iff]
    constructor
    · rintro ⟨h1, h2, h3⟩
      exact ⟨c, rest, rfl, h2, h1, h3⟩
    · rintro ⟨c1, rest1, heq, h2, h1, h3⟩
      cases heq
      exact ⟨h1, h2, h3⟩

/-- C9: `verify_appname(s)` is true exactly when the whole of `s` matches
`[a-z0-9][a-z0-9+._-]+`: `s` has at least two characters, the first in
`[a-z0-9]` and every later one in `[a-z0-9+._-]`. So it is false for the empty
string, for a string that starts with `.`, `_`, `-` or `+`, and for a string
with a character outside the class. -/
theorem verify_appname_spec :
    (∀ s : CStr, verify_appname s = true ↔
      ∃ c rest, s = c :: rest ∧ rest ≠ [] ∧ class_first c ∧ ∀ d ∈ rest, class_rest d) ∧
    verify_appname [] = false ∧
    (∀ (c : Char) (rest : CStr), c = '.' ∨ c = '_' ∨ c = '-' ∨ c = '+' →
      verify_appname (c :: rest) = false) ∧
    (∀ (s : CStr) (d : Char), d ∈ s → ¬ class_rest d → verify_appname s = false) := by
  refine ⟨verify_appname_iff, rfl, ?_, ?_⟩
  · intro c rest hc
    rw [← Bool.not_eq_true, verify_appname_iff]
    rintro ⟨c1, rest1, heq, -, h1, -⟩
    cases heq
    rcases hc with rfl | rfl | rfl | rfl <;> revert h1 <;> unfold class_first <;> decide
  · intro s d hd hnot
    rw [← Bool.not_eq_true, verify_appname_iff]
    rintro ⟨c, rest, rfl, -, h1, h3⟩
    rcases List.mem_cons.mp hd with rfl | hd
    · apply hnot
      rcases h1 with h | h
      · exact Or.inl h
      · exact Or.inr (Or.inl h)
    · exact hnot (h3 d hd)

/-- Witness for C9: `hello-world` is accepted; `_bad`, a one-letter name and a name
with an upper-case letter are rejected. -/
theorem verify_appname_spec_witness :
    verify_appname "hello-world".toList = true ∧
    verify_appname "_bad".toList = false ∧
    verify_appname "a".toList = false ∧
    verify_appname "aB".toList = false :=
  ⟨(verify_appname_spec.1 "hello-world".toList).mpr
      ⟨'h', "ello-world".toList, rfl, by decide, by unfold class_first; decide,
        by unfold class_rest; decide⟩,
   verify_appname_spec.2.2.1 '_' "bad".toList (Or.inr (Or.inl rfl)),
   by decide,
   verify_appname_spec.2.2.2 "aB".toList 'B' (by decide) (by unfold class_rest; decide)⟩

theorem seccomp_load_filters_total (P : Platform) (filter_profile : CStr) :
    ∃ run, seccomp_load_filters P filter_profile = some run := by
  rcases seccomp_load_filters_cases P filter_profile with h | ⟨r, e, s, f, -, -, h⟩
  · exact ⟨_, h⟩
  · rw [h, load_profile_eq]
    cases preprocess_bufs (read_all f) { unrestricted := false, complain := false } with
    | die => exact ⟨_, rfl⟩
    | ret pre =>
      simp only
      split_ifs
      · exact ⟨_, rfl⟩
      · exact ⟨_, rfl⟩
      · obtain ⟨run1, h1, -, -⟩ := load_bufs_total P (read_all f) run_start
        rw [h1]
        simp only
        split_ifs <;> exact ⟨_, rfl⟩

theorem die_bind {α β : Type} (f : α → Run β) : (die : Run α) >>= f = die := rfl

theorem pure_bind_run {α β : Type} (a : α) (f : α → Run β) : (pure a : Run α) >>= f = f a := by
  show Run.bind _ _ = _
  simp [Run.bind, pure]

/-- C10: when `verify_appname` rejects the appname (`argv[1]`), for every world (uids,
environment, results of every call) `main` dies before it makes any call: the
run has no unshare, mount, cgroup write, uid or gid change, directory
creation, MAC request, filter load or exec. -/
theorem main_rejected_appname_no_action (w : World) (argv : List CStr)
    (h : verify_appname (argv.getD 1 []) = false) :
    main w argv = { trace := [], ending := .died } ∧
    (main w argv).trace = [] ∧ (main w argv).ending = .died := by
  have key : main w argv = { trace := [], ending := .died } := by
    have h1 : ¬ verify_appname (argv.getD 1 []) = true := by rw [h]; exact Bool.false_ne_true
    unfold main
    by_cases hargc : argv.length < 3 + 1
    · rw [if_pos hargc, die_bind]
      rfl
    · rw [if_neg hargc, pure_bind_run]
      dsimp only
      rw [if_pos h1, die_bind]
      rfl
  rw [key]
  exact ⟨rfl, rfl, rfl⟩

/-- Witness for C10 in the sample world: with the appname `_bad` the run is empty and
ends in `die`, while with `hello-world` the same world sees the launcher
start with `unshare`. -/
theorem main_rejected_appname_no_action_witness :
    main sample_world ["ubuntu-core-launcher".toList, "_bad".toList, "two-rules".toList,
      "/bin/true".toList] = { trace := [], ending := .died } ∧
    (main sample_world ["ubuntu-core-launcher".toList, "hello-world".toList,
      "two-rules".toList, "/bin/true".toList]).trace.head? = some .unshare :=
  ⟨(main_rejected_appname_no_action sample_world
      ["ubuntu-core-launcher".toList, "_bad".toList, "two-rules".toList, "/bin/true".toList]
      (by decide)).1,
   by decide⟩

/-! ## `trim_right` as a function of the string -/

theorem prefix_longer_ends_in_suffix {α : Type} (p a ws s : List α) (hs : s = a ++ ws)
    (hp : p <+: s) (hlen : a.length < p.length) :
    ∃ h : p ≠ [], p.getLast h ∈ ws := by
  obtain ⟨t, ht⟩ := hp
  have hne : p ≠ [] := by intro h; rw [h] at hlen; simp at hlen
  refine ⟨hne, ?_⟩
  have h1 : p = a ++ p.drop a.length := by
    have : (p ++ t).take a.length = (a ++ ws).take a.length := by rw [ht, hs]
    rw [List.take_append_of_le_length (by omega), List.take_left'] at this
    · conv_lhs => rw [← List.take_append_drop a.length p, this]
    · rfl
  have h2 : p.drop a.length ++ t = ws := by
    have : a ++ (p.drop a.length ++ t) = a ++ ws := by
      rw [← List.append_assoc, ← h1, ht, hs]
    exact List.append_cancel_left this
  have h3 : p.drop a.length ≠ [] := by
    intro h
    have := congrArg List.length h
    simp at this
    omega
  have h4 : p.getLast hne = (p.drop a.length).getLast h3 := by
    have : p.getLast hne = (a ++ p.drop a.length).getLast (by simp [h3]) := by
      congr 1
    rw [this]
    exact List.getLast_append_of_ne_nil h3
  rw [h4, ← h2]
  exact List.mem_append_left _ (List.getLast_mem h3)

/-- C17: for a string `s` of length `slen`, `trim_right` leaves in `s` a prefix of `s`
with its characters unchanged and returns its length; that prefix does not
end in a whitespace character and no longer prefix of `s` has this property;
applying `trim_right` to its own result changes nothing; and the result is 0
exactly when `s` consists only of whitespace. -/
theorem trim_right_spec (s : CStr) :
    (trim_right s s.length).1 <+: s ∧
    (trim_right s s.length).2 = (trim_right s s.length).1.length ∧
    (∀ h : (trim_right s s.length).1 ≠ [],
      isspace ((trim_right s s.length).1.getLast h) = false) ∧
    (∀ p : CStr, p <+: s → (∀ h : p ≠ [], isspace (p.getLast h) = false) →
      p.length ≤ (trim_right s s.length).2) ∧
    trim_right (trim_right s s.length).1 (trim_right s s.length).2 = trim_right s s.length ∧
    ((trim_right s s.length).2 = 0 ↔ ∀ c ∈ s, isspace c = true) := by
  rw [trim_right_eq s.length s rfl]
  simp only
  refine ⟨List.rdropWhile_prefix isspace s, trivial, ?_, ?_, ?_, ?_⟩
  · intro h
    have := List.rdropWhile_last_not isspace s h
    simpa using this
  · intro p hp hlast
    by_contra hlt
    obtain ⟨ws, h1, h2⟩ := rdropWhile_suffix isspace s
    obtain ⟨hne, hmem⟩ := prefix_longer_ends_in_suffix p _ ws s h1 hp (by omega)
    have := hlast hne
    rw [h2 _ hmem] at this
    cases this
  · rw [trim_right_eq _ _ rfl, List.rdropWhile_idempotent]
  · rw [List.length_eq_zero, List.rdropWhile_eq_nil_iff]

/-- Witness for C17: trailing blanks, tab and newline are stripped from `read 1 \t\n`,
inner blanks stay, and a string of whitespace only gives 0. -/
theorem trim_right_spec_witness :
    trim_right "read 1 \t\n".toList 9 = ("read 1".toList, 6) ∧
    trim_right "read 1".toList 6 = ("read 1".toList, 6) ∧
    ((trim_right " \t\n".toList 3).2 = 0 ↔ ∀ c ∈ " \t\n".toList, isspace c = true) :=
  ⟨by decide,
   (trim_right_spec "read 1 \t\n".toList).2.2.2.2.1.trans (by decide) |>.symm.trans (by decide),
   (trim_right_spec " \t\n".toList).2.2.2.2.2⟩

/-! ## A seventh constraint -/

/-- C16: on the line `read !3 <=5 >=1 1 2 3 4` the loop of `parse_line` runs a
seventh time with `sargs.length = 6 = SC_ARGS_MAXLENGTH`: the constraint for
position 6 is stored at index 6 of `arg_cmp`, and `parse_line` returns
`PARSE_ERROR` with `sargs.length = 7`. -/
theorem parse_line_stores_seventh_constraint :
    SC_ARGS_MAXLENGTH = 6 ∧
    parse_line sample_platform "read !3 <=5 >=1 1 2 3 4".toList =
      some (.ret (.PARSE_ERROR,
        { syscall_nr := 0, length := 7,
          arg_cmp := [⟨0, .SCMP_CMP_NE, 3⟩, ⟨1, .SCMP_CMP_LE, 5⟩, ⟨2, .SCMP_CMP_GE, 1⟩,
                      ⟨3, .SCMP_CMP_EQ, 1⟩, ⟨4, .SCMP_CMP_EQ, 2⟩, ⟨5, .SCMP_CMP_EQ, 3⟩,
                      ⟨6, .SCMP_CMP_EQ, 4⟩] })) ∧
    parse_line sample_platform "read !3 <=5 >=1 1 2 3".toList =
      some (.ret (.PARSE_OK,
        { syscall_nr := 0, length := 6,
          arg_cmp := [⟨0, .SCMP_CMP_NE, 3⟩, ⟨1, .SCMP_CMP_LE, 5⟩, ⟨2, .SCMP_CMP_GE, 1⟩,
                      ⟨3, .SCMP_CMP_EQ, 1⟩, ⟨4, .SCMP_CMP_EQ, 2⟩, ⟨5, .SCMP_CMP_EQ, 3⟩] })) := by
  refine ⟨rfl, ?_, ?_⟩ <;> decide

/-! ## Seven argument tokens -/

theorem sc_map_search_die (P : Platform) (s : CStr) (h : sc_map_search P s = .die) :
    P.hsearch_find_absent = 0 := by
  by_cases hk : s ∈ sc_map_keys.map String.toList
  · rw [sc_map_search_key P s hk] at h
    cases h
  · unfold sc_map_search hsearch_r_FIND at h
    rw [lookup_sc_map_init, if_neg hk] at h
    by_contra h0
    simp only [h0, if_false] at h
    cases h

theorem read_number_die (P : Platform) (s : CStr) (h : read_number P s = .die) :
    P.hsearch_find_absent = 0 := by
  by_cases h1 : s = [] ∨ s.head? = some '-'
  · rw [read_number_reject P s h1] at h
    cases h
  · by_cases h2 : s.all isdigit = true
    · rw [read_number_digits P s (by tauto) h2] at h
      split_ifs at h
    · rw [read_number_symbol P s h2 (by tauto)] at h
      exact sc_map_search_die P s h

theorem parse_arg_die (P : Platform) (a : CStr) (h : (parse_arg P a).map Prod.snd = some .die) :
    P.hsearch_find_absent = 0 := by
  unfold parse_arg at h
  split_ifs at h <;> simp only [Option.map_some', Option.map_none', Option.some.injEq] at h
  all_goals first
    | exact read_number_die P _ h
    | cases h

theorem parse_tokens_die (P : Platform) : ∀ (args : List CStr) (k : Nat) (sargs : seccomp_args),
    parse_tokens P k args sargs = .die →
    ∃ a ∈ args.take (7 - k), a ≠ "-".toList ∧ (parse_arg P a).map Prod.snd = some .die := by
  intro args
  induction args with
  | nil =>
    intro k sargs h
    rw [parse_tokens] at h
    split_ifs at h
  | cons a rest ih =>
    intro k sargs h
    rw [parse_tokens] at h
    by_cases hk : k ≥ 7
    · rw [if_pos hk] at h
      cases h
    · rw [if_neg hk] at h
      have e : 7 - k = (7 - (k + 1)) + 1 := by omega
      rw [e, List.take_succ_cons]
      by_cases ha : a = "-".toList
      · rw [if_pos ha] at h
        obtain ⟨b, hb, h1, h2⟩ := ih (k + 1) sargs h
        exact ⟨b, List.mem_cons_of_mem _ hb, h1, h2⟩
      · rw [if_neg ha] at h
        cases hp : parse_arg P a with
        | none => rw [hp] at h; cases h
        | some p =>
          obtain ⟨op, r⟩ := p
          rw [hp] at h
          cases r with
          | die => exact ⟨a, List.mem_cons_self _ _, ha, by rw [hp]; rfl⟩
          | ret ve =>
            obtain ⟨v, errno⟩ := ve
            simp only at h
            split_ifs at h
            obtain ⟨b, hb, h1, h2⟩ := ih (k + 1) _ h
            exact ⟨b, List.mem_cons_of_mem _ hb, h1, h2⟩

theorem parse_arg_of_decode (P : Platform) (a : CStr) (h : (spec_decode P a).isSome = true) :
    (parse_arg P a).map Prod.snd ≠ some .die := by
  obtain ⟨⟨op, v⟩, hv⟩ := Option.isSome_iff_exists.mp h
  rw [← parse_arg_result_eq_spec] at hv
  rw [parse_arg_of_result P a op v hv]
  simp

theorem sc_map_search_absent (P : Platform) (s : CStr) (h : s ∉ sc_map_keys.map String.toList)
    (h0 : P.hsearch_find_absent = 0) : sc_map_search P s = .die := by
  unfold sc_map_search hsearch_r_FIND
  rw [lookup_sc_map_init, if_neg h]
  simp only [h0, if_true]

/-- Where `parse_line` leaves a line whose first token resolves to a syscall: with
seven or more argument tokens it returns `PARSE_ERROR`, or the process dies
inside `sc_map_search`, which takes `hsearch_r` returning 0 for a missing key
and, among the first seven tokens, a token other than `-` on which
`read_number` dies; so `PARSE_ERROR` is returned whenever `hsearch_r` does not
return 0 for a missing key and whenever each of the first seven tokens is `-`
or well formed. With exactly six argument tokens, each `-` or well formed, it
returns `PARSE_OK`. -/
theorem parse_line_args_limit (P : Platform) (line name : CStr) (args : List CStr)
    (htok : tokens line = name :: args)
    (hn : P.seccomp_syscall_resolve_name name ≠ NR_SCMP_ERROR) :
    (7 ≤ args.length →
      ((∃ s, parse_line P line = some (.ret (.PARSE_ERROR, s))) ∨
        (parse_line P line = some .die ∧ P.hsearch_find_absent = 0 ∧
          ∃ a ∈ args.take 7, a ≠ "-".toList ∧
            (parse_arg P a).map Prod.snd = some .die)) ∧
      (P.hsearch_find_absent ≠ 0 →
        ∃ s, parse_line P line = some (.ret (.PARSE_ERROR, s))) ∧
      ((∀ a ∈ args.take 7, a = "-".toList ∨ well_formed P a) →
        ∃ s, parse_line P line = some (.ret (.PARSE_ERROR, s)))) ∧
    (args.length = 6 → (∀ a ∈ args, a = "-".toList ∨ well_formed P a) →
      ∃ s, parse_line P line = some (.ret (.PARSE_OK, s))) := by
  constructor
  · intro h7
    have key : (∃ s, parse_line P line = some (.ret (.PARSE_ERROR, s))) ∨
        (parse_line P line = some .die ∧ P.hsearch_find_absent = 0 ∧
          ∃ a ∈ args.take 7, a ≠ "-".toList ∧
            (parse_arg P a).map Prod.snd = some .die) := by
      rw [parse_line_eq_tokens, htok]
      simp only [if_neg hn]
      rcases parse_tokens_bad P args 0 _ (Or.inl (by omega)) with h | ⟨s, h⟩
      · right
        obtain ⟨a, ha, h1, h2⟩ := parse_tokens_die P args 0 _ h
        exact ⟨by rw [h], parse_arg_die P a h2, a, ha, h1, h2⟩
      · left
        exact ⟨s, by rw [h]⟩
    refine ⟨key, ?_, ?_⟩
    · intro h0
      rcases key with h | ⟨-, h, -⟩
      · exact h
      · exact absurd h h0
    · intro hwf
      rcases key with h | ⟨-, -, a, ha, h1, h2⟩
      · exact h
      · rcases hwf a ha with h3 | h3
        · exact absurd h3 h1
        · exact absurd h2 (parse_arg_of_decode P a ((well_formed_iff P a).mp h3))
  · intro h6 hwf
    refine ⟨_, parse_line_of_tokens P line name args htok hn (by omega) ?_⟩
    intro a ha
    rcases hwf a ha with h | h
    · exact Or.inl h
    · exact Or.inr ((well_formed_iff P a).mp h)

/-- The line `read !3 <=5 >=1 1 2 3 4` is rejected with `PARSE_ERROR`, and
`read !3 <=5 >=1 1 2 3` returns `PARSE_OK`. -/
theorem parse_line_args_limit_examples :
    (∃ s, parse_line sample_platform "read !3 <=5 >=1 1 2 3 4".toList =
      some (.ret (.PARSE_ERROR, s))) ∧
    (∃ s, parse_line sample_platform "read !3 <=5 >=1 1 2 3".toList =
      some (.ret (.PARSE_OK, s))) :=
  ⟨((parse_line_args_limit sample_platform "read !3 <=5 >=1 1 2 3 4".toList "read".toList
      ["!3".toList, "<=5".toList, ">=1".toList, "1".toList, "2".toList, "3".toList,
        "4".toList] (by decide) (by decide)).1 (by decide)).2.2 (by
      intro a ha
      right
      rw [well_formed_iff]
      revert a
      decide),
   (parse_line_args_limit sample_platform "read !3 <=5 >=1 1 2 3".toList "read".toList
      ["!3".toList, "<=5".toList, ">=1".toList, "1".toList, "2".toList, "3".toList]
      (by decide) (by decide)).2 (by decide) (by
      intro a ha
      right
      rw [well_formed_iff]
      revert a
      decide)⟩

/-- C15: with `hsearch_r` returning 0 for a missing key, as it does in glibc, the
line `read x 2 3 4 5 6 7` has a first token that resolves and seven argument
tokens, and `parse_line` does not return `PARSE_ERROR`: the process dies in
`sc_map_search` on the unknown symbol `x`, whose branch `errno = EINVAL` is not
reached. -/
theorem parse_line_unknown_symbol_dies :
    tokens "read x 2 3 4 5 6 7".toList =
      ["read".toList, "x".toList, "2".toList, "3".toList, "4".toList, "5".toList,
        "6".toList, "7".toList] ∧
    sample_platform.seccomp_syscall_resolve_name "read".toList ≠ NR_SCMP_ERROR ∧
    sample_platform.hsearch_find_absent = 0 ∧
    parse_line sample_platform "read x 2 3 4 5 6 7".toList = some .die ∧
    ¬ ∃ s, parse_line sample_platform "read x 2 3 4 5 6 7".toList =
      some (.ret (.PARSE_ERROR, s)) := by
  have ht : tokens "read x 2 3 4 5 6 7".toList =
      ["read".toList, "x".toList, "2".toList, "3".toList, "4".toList, "5".toList,
        "6".toList, "7".toList] := by decide
  have hd : parse_line sample_platform "read x 2 3 4 5 6 7".toList = some .die := by
    rw [parse_line_eq_tokens, ht]
    have hx : parse_arg sample_platform "x".toList = some (.SCMP_CMP_EQ, .die) := by
      have : parse_arg sample_platform "x".toList =
          some (.SCMP_CMP_EQ, read_number sample_platform "x".toList) := rfl
      rw [this, read_number_symbol sample_platform "x".toList (by decide) (by decide),
        sc_map_search_absent sample_platform "x".toList (by decide) rfl]
    have hr : sample_platform.seccomp_syscall_resolve_name "read".toList ≠ NR_SCMP_ERROR := by
      decide
    simp only [if_neg hr]
    rw [parse_tokens, if_neg (by decide), if_neg (by decide), hx]
  refine ⟨ht, by decide, rfl, hd, ?_⟩
  rintro ⟨s, hs⟩
  rw [hd] at hs
  cases hs

/-! ## The privilege drop -/

/-- C11: whatever the real uid and gid and whatever effective ids `setgid` and
`setuid` leave behind, a call that reports success without changing anything
included, if the real gid is still the one read before the calls, the
privilege-drop stage of `main` ends without dying and the real uid is not
zero, then neither the effective uid nor the effective gid is zero. -/
theorem drop_privs_effective_ids (w : World) (hg : w.getgid_after = w.getgid)
    (hdone : (main_drop_privs w).ending = .val ()) (hreal : w.getuid ≠ 0) :
    w.geteuid_after ≠ 0 ∧ w.getegid_after ≠ 0 := by
  by_contra hcon
  have hdie : (main_drop_privs w).ending = .died := by
    unfold main_drop_privs
    simp only [bind, Run.bind, call, die, pure]
    by_cases h1 : w.rc (.setgid w.getgid) = 0
    · by_cases h2 : w.rc (.setuid w.getuid) = 0
      · by_cases h3 : w.getgid ≠ 0 ∧ (w.getuid_after = 0 ∨ w.geteuid_after = 0)
        · simp [h1, h2, h3]
        · by_cases h4 : w.getuid ≠ 0 ∧ (w.getgid_after = 0 ∨ w.getegid_after = 0)
          · simp [h1, h2, h3, h4]
          · exfalso
            apply hcon
            rw [hg] at h4
            constructor
            · intro h; exact h3 ⟨fun h0 => h4 ⟨hreal, Or.inl h0⟩, Or.inr h⟩
            · intro h; exact h4 ⟨hreal, Or.inr h⟩
      · simp [h1, h2]
    · simp [h1]
  rw [hdie] at hdone
  cases hdone

/-- Witness for C11: in the sample world (real uid and gid 1000) the stage ends
without dying and both effective ids are 1000; where `setuid` reports success
and leaves the effective uid 0, the stage dies. -/
theorem drop_privs_effective_ids_witness :
    (main_drop_privs sample_world).ending = .val () ∧ sample_world.getuid ≠ 0 ∧
    (sample_world.geteuid_after ≠ 0 ∧ sample_world.getegid_after ≠ 0) ∧
    (main_drop_privs { sample_world with geteuid_after := 0 }).ending = .died :=
  ⟨by decide, by decide,
   drop_privs_effective_ids sample_world rfl (by decide) (by decide),
   by decide⟩

/-! ## Single stages of the launcher on chosen worlds -/

/-- C12: when the override file opens, `read` returns -1 and the buffer holds the
bytes of the needle, `snappy_udev_setup_required` returns true: -1 converted
to `size_t` is not less than the length of the needle. A short read of 5
bytes returns false, and a full read of the needle returns true. -/
theorem snappy_udev_setup_required_read_error :
    snappy_udev_setup_required (override_world (-1) needle) "hello-world".toList =
      { trace := [], ending := .val true } ∧
    snappy_udev_setup_required (override_world 5 needle) "hello-world".toList =
      { trace := [], ending := .val false } ∧
    snappy_udev_setup_required (override_world needle.length needle) "hello-world".toList =
      { trace := [], ending := .val true } := by
  refine ⟨?_, ?_, ?_⟩ <;> decide

/-- C13: when the glob of the OS snap returns 0 with two directories,
`setup_snappy_os_mounts` does not die: it bind-mounts `/bin`, `/sbin`, `/lib`,
`/lib64` and `/usr` from the first directory. When the glob finds nothing
(`GLOB_NOMATCH`, 3) it dies without a mount. -/
theorem setup_snappy_os_mounts_two_matches :
    setup_snappy_os_mounts (glob_world 0
      ["/snaps/ubuntu-core.a/current/".toList, "/snaps/ubuntu-core.b/current/".toList]) =
      { trace :=
          [.mount "/snaps/ubuntu-core.a/current//bin".toList "/bin".toList [] ["MS_BIND"] [],
           .mount "/snaps/ubuntu-core.a/current//sbin".toList "/sbin".toList [] ["MS_BIND"] [],
           .mount "/snaps/ubuntu-core.a/current//lib".toList "/lib".toList [] ["MS_BIND"] [],
           .mount "/snaps/ubuntu-core.a/current//lib64".toList "/lib64".toList [] ["MS_BIND"] [],
           .mount "/snaps/ubuntu-core.a/current//usr".toList "/usr".toList [] ["MS_BIND"] []],
        ending := .val () } ∧
    setup_snappy_os_mounts (glob_world 3 []) = { trace := [], ending := .died } := by
  refine ⟨?_, ?_⟩ <;> decide

/-- C14: without `/dev/ptmx`, when `symlink` succeeds (returns 0)
`setup_private_pts` dies right after the call, and when `symlink` fails
(returns -1) it ends without dying. -/
theorem setup_private_pts_symlink_inverted :
    setup_private_pts (no_ptmx_world 0) =
      { trace :=
          [.mount "devpts".toList "/dev/pts".toList "devpts".toList ["MS_MGC_VAL"]
             "newinstance,ptmxmode=0666,mode=0620,gid=5".toList,
           .symlink "/dev/pts/ptmx".toList "/dev/ptmx".toList],
        ending := .died } ∧
    setup_private_pts (no_ptmx_world (-1)) =
      { trace :=
          [.mount "devpts".toList "/dev/pts".toList "devpts".toList ["MS_MGC_VAL"]
             "newinstance,ptmxmode=0666,mode=0620,gid=5".toList,
           .symlink "/dev/pts/ptmx".toList "/dev/ptmx".toList],
        ending := .val () } := by
  refine ⟨?_, ?_⟩ <;> decide

end Snapd
